import Mathlib

/-! KMP substring search: a shallow embedding of the C sources and its verification.

Modelling conventions (from `include/kmp.h`, `src/failure_func.c`, `src/kmp.c`,
`src/utils.c`):

* A `const char*` is `Option (List Nat)`: `none` is `NULL`, `some s` is a
  NUL-terminated string whose bytes before the terminator are `s` (each byte read as
  `unsigned char`, so a value in `1..255`).  `strlen` is `List.length`.  The buffer
  holds `strlen + 1` readable bytes, the last one being the terminator `0`.
* An `int*` table is a `List Nat`; the scan indices `i`, `j`, `len` are `Nat`.  An
  index expression `j - 1` is evaluated in `Int`, so that index `-1` is out of range.
* Every array access is checked: a read or write outside the buffer ends the run in
  `Run.oob`.  Loops carry a fuel argument counting the permitted executions of the
  loop body; `Run.timeout` is the outcome when the fuel is used up.
* Returned offsets are `Int` (the C functions return `int`, `-1` meaning no match).
* The target is LP64: `int` has 32 bits and `size_t` 64.  A value stored into an `int`
  is reduced to the range `-2^31 .. 2^31 - 1` by `to_int`, and so is the result of
  `int` arithmetic that leaves this range (the wrapping behaviour of the usual
  targets); a value converted to `size_t` is reduced modulo `2^64` by `to_size_t`.
  So `int n = strlen(s)` is `strlen_int s`, which differs from the length of `s` from
  `2^31` bytes on.
* `malloc` and `realloc` succeed exactly when the requested size is at most
  `PTRDIFF_MAX` (`alloc_ok`): memory is never short, but a request that no object can
  have, such as the one obtained from a negative `int`, fails as it does in the C
  library.  `calloc` in `compute_lps_table` is called with a positive `int` count and
  succeeds.
* A loop counter that starts at `0` and is tested against an `int` bound before each
  increment stays within `0 .. 2^31 - 1`; such counters are `Nat`, and a test
  `i < n` against an `int` bound `n` is the test `i < n.toNat`.
-/

namespace KMP

/-- Outcome of running a C function in the model. -/
inductive Run (α : Type) where
  /-- The call returned the value. -/
  | ret : α → Run α
  /-- The call performed an out-of-bounds access. -/
  | oob : Run α
  /-- The loop was still running when the fuel ran out. -/
  | timeout : Run α
  deriving DecidableEq, Repr

/-- Sequencing of runs: a fault of the first part is the fault of the whole. -/
def Run.bind {α β : Type} : Run α → (α → Run β) → Run β
  | .ret a, f => f a
  | .oob, _ => .oob
  | .timeout, _ => .timeout

instance : Monad Run where
  pure := Run.ret
  bind := Run.bind

/-- Read `s[i]` in a NUL-terminated string: indices `0..strlen` are readable and index
`strlen` holds the terminator. -/
def cstr_read (s : List Nat) (i : Nat) : Run Nat :=
  if i ≤ s.length then .ret (s.getD i 0) else .oob

/-- Read `a[k]` in an `int` array of `a.length` elements. -/
def arr_read (a : List Nat) (k : Int) : Run Nat :=
  if 0 ≤ k ∧ k < a.length then .ret (a.getD k.toNat 0) else .oob

/-- Write `a[i] = v` in an `int` array of `a.length` elements. -/
def arr_write (a : List Nat) (i : Nat) (v : Nat) : Run (List Nat) :=
  if i < a.length then .ret (a.set i v) else .oob

/-- The value of an `int` object after the mathematical value `x` is stored into it:
`x` reduced modulo `2^32` to the range `-2^31 .. 2^31 - 1`. -/
def to_int (x : Int) : Int := (x + 2147483648) % 4294967296 - 2147483648

/-- The value of a `size_t` object after `x` is converted to it: `x` modulo `2^64`. -/
def to_size_t (x : Int) : Nat := (x % 18446744073709551616).toNat

/-- The number of values of `size_t`: products and sums of type `size_t` are taken
modulo this number. -/
def SIZE_MODULUS : Nat := 18446744073709551616

/-- The constant `PTRDIFF_MAX` of `<stdint.h>` on an LP64 target. -/
def PTRDIFF_MAX : Nat := 9223372036854775807

/-- Whether `malloc` or `realloc` of `size` bytes returns a buffer: no object is larger
than `PTRDIFF_MAX` bytes, and a request within that limit is served. -/
def alloc_ok (size : Nat) : Bool := decide (size ≤ PTRDIFF_MAX)

/-- The value of `int n = strlen(s)`. -/
def strlen_int (s : List Nat) : Int := to_int (s.length : Int)

/-- The `while (i < pattern_len)` loop of `compute_lps_table`
(`src/failure_func.c`, lines 18-31). -/
def lps_loop (pattern : List Nat) (pattern_len : Nat) :
    Nat → List Nat → Nat → Nat → Run (List Nat)
  | 0, lps, _, i => if i < pattern_len then .timeout else .ret lps
  | fuel + 1, lps, len, i =>
    if i < pattern_len then do
      let a ← cstr_read pattern i
      let b ← cstr_read pattern len
      if a = b then
        let lps1 ← arr_write lps i (len + 1)
        lps_loop pattern pattern_len fuel lps1 (len + 1) (i + 1)
      else if len ≠ 0 then
        let v ← arr_read lps ((len : Int) - 1)
        lps_loop pattern pattern_len fuel lps v i
      else
        let lps1 ← arr_write lps i 0
        lps_loop pattern pattern_len fuel lps1 len (i + 1)
    else .ret lps

/-- Model of `compute_lps_table` (`src/failure_func.c`, lines 3-34).  The result
`none` is the `NULL` return. -/
def compute_lps_table (fuel : Nat) (pattern : Option (List Nat)) (pattern_len : Int) :
    Run (Option (List Nat)) :=
  match pattern with
  | none => .ret none
  | some p =>
    if pattern_len ≤ 0 then .ret none
    else do
      let lps := List.replicate pattern_len.toNat 0
      let lps0 ← arr_write lps 0 0
      let r ← lps_loop p pattern_len.toNat fuel lps0 0 1
      .ret (some r)

/-- The `while (*str)` loop of `is_ascii_string` (`src/utils.c`, lines 76-81). -/
def is_ascii_loop : List Nat → Bool
  | [] => true
  | c :: rest => if c > 127 then false else is_ascii_loop rest

/-- Model of `is_ascii_string` (`src/utils.c`, lines 71-84). -/
def is_ascii_string : Option (List Nat) → Bool
  | none => false
  | some s => is_ascii_loop s

/-- Size of `KMPMatcher` on an LP64 target. -/
def sizeof_KMPMatcher : Nat := 40

/-- Size of `char`. -/
def sizeof_char : Nat := 1

/-- Size of `int` on an LP64 target. -/
def sizeof_int : Nat := 4

/-- Model of `safe_string_copy` (`src/utils.c`, lines 86-99).  The buffer has
`(len + 1) * sizeof(char)` bytes with `int len = strlen(src)`; the result `none` is the
`NULL` return when `malloc` fails, and `strcpy`, which writes `strlen(src) + 1` bytes,
faults when the buffer is shorter than that.  Otherwise the result is a fresh buffer
holding the same bytes. -/
def safe_string_copy : Option (List Nat) → Run (Option (List Nat))
  | none => .ret none
  | some src =>
    let len := strlen_int src
    let size := to_size_t (to_int (len + 1)) * sizeof_char % SIZE_MODULUS
    if !alloc_ok size then .ret none
    else if src.length + 1 ≤ size then .ret (some src)
    else .oob

/-- The struct `KMPMatcher` of `include/kmp.h`. -/
structure KMPMatcher where
  pattern : List Nat
  pattern_len : Nat
  lps : List Nat
  is_compiled : Bool
  memory_usage : Nat
  deriving DecidableEq, Repr

/-- Model of `kmp_create` (`src/kmp.c`, lines 3-42).  The result `none` is the `NULL`
return.  The local `int pattern_len` is `strlen_int p`; the field `pattern_len` is a
`Nat` because the function returns a matcher only after `compute_lps_table` accepted
the length, which it does for a positive one only.  The sum stored in `memory_usage`
is computed in `size_t`. -/
def kmp_create (fuel : Nat) (pattern : Option (List Nat)) : Run (Option KMPMatcher) :=
  match pattern with
  | none => .ret none
  | some p =>
    if !is_ascii_string (some p) then .ret none
    else
      let pattern_len := strlen_int p
      if pattern_len = 0 then .ret none
      else if !alloc_ok sizeof_KMPMatcher then .ret none
      else do
        let copy ← safe_string_copy (some p)
        match copy with
        | none => .ret none
        | some c => do
          let lps ← compute_lps_table fuel (some p) pattern_len
          match lps with
          | none => .ret none
          | some table =>
            .ret (some
              { pattern := c
                pattern_len := pattern_len.toNat
                lps := table
                is_compiled := true
                memory_usage :=
                  (sizeof_KMPMatcher + to_size_t (to_int (pattern_len + 1)) * sizeof_char
                    + to_size_t pattern_len * sizeof_int) % SIZE_MODULUS })

/-- The `while (i < n)` loop of `kmp_search` (`src/kmp.c`, lines 66-81); the value
returned is the value of the `return` statement that leaves the loop, or `-1`. -/
def kmp_search_loop (pattern lps : List Nat) (m : Nat) (text : List Nat) (n : Nat) :
    Nat → Nat → Nat → Run Int
  | 0, i, _ => if i < n then .timeout else .ret (-1)
  | fuel + 1, i, j =>
    if i < n then do
      let pj ← cstr_read pattern j
      let ti ← cstr_read text i
      let i1 := if pj = ti then i + 1 else i
      let j1 := if pj = ti then j + 1 else j
      if j1 = m then .ret ((i1 : Int) - (j1 : Int))
      else if i1 < n then do
        let pj1 ← cstr_read pattern j1
        let ti1 ← cstr_read text i1
        if pj1 ≠ ti1 then
          if j1 ≠ 0 then do
            let v ← arr_read lps ((j1 : Int) - 1)
            kmp_search_loop pattern lps m text n fuel i1 v
          else kmp_search_loop pattern lps m text n fuel (i1 + 1) j1
        else kmp_search_loop pattern lps m text n fuel i1 j1
      else kmp_search_loop pattern lps m text n fuel i1 j1
    else .ret (-1)

/-- Model of `kmp_search` (`src/kmp.c`, lines 52-84).  The bound of the loop is
`int n = strlen(text)`. -/
def kmp_search (fuel : Nat) (matcher : Option KMPMatcher) (text : Option (List Nat)) :
    Run Int :=
  match matcher, text with
  | some mt, some t =>
    if !mt.is_compiled then .ret (-1)
    else if !is_ascii_string (some t) then .ret (-1)
    else
      kmp_search_loop mt.pattern mt.lps mt.pattern_len t (strlen_int t).toNat fuel 0 0
  | _, _ => .ret (-1)

/-- Store `positions[count] = v` in a buffer of `capacity` elements whose first
`count` elements are the list `positions`. -/
def positions_write (positions : List Int) (capacity : Int) (v : Int) : Run (List Int) :=
  if (positions.length : Int) < capacity then .ret (positions ++ [v]) else .oob

/-- The size in bytes passed to `malloc` and `realloc` for a buffer of `capacity`
elements: `capacity * sizeof(int)`, computed in `size_t`. -/
def positions_size (capacity : Int) : Nat := to_size_t capacity * sizeof_int % SIZE_MODULUS

/-- The `while (i < n)` loop of `kmp_search_all` (`src/kmp.c`, lines 110-138).  The
list `positions` holds the first `*count` elements of the buffer, so `*count` is its
length; `capacity` is the `int` of that name, and `capacity1` its value after the
capacity check of lines 117-126: doubled, as an `int`, when the buffer is full.  The
result `none` is the `return NULL` of line 123, taken when the buffer is full and
`realloc` fails; `some positions` is the buffer when the loop is left at its test. -/
def kmp_search_all_loop (pattern lps : List Nat) (m : Nat) (text : List Nat) (n : Nat) :
    Nat → Nat → Nat → List Int → Int → Run (Option (List Int))
  | 0, i, _, positions, _ => if i < n then .timeout else .ret (some positions)
  | fuel + 1, i, j, positions, capacity =>
    if i < n then do
      let pj ← cstr_read pattern j
      let ti ← cstr_read text i
      let i1 := if pj = ti then i + 1 else i
      let j1 := if pj = ti then j + 1 else j
      if j1 = m then
        let capacity1 :=
          if (positions.length : Int) ≥ capacity then to_int (capacity * 2) else capacity
        if (positions.length : Int) ≥ capacity ∧ alloc_ok (positions_size capacity1) = false
        then .ret none
        else do
          let positions1 ← positions_write positions capacity1 ((i1 : Int) - (j1 : Int))
          let v ← arr_read lps ((j1 : Int) - 1)
          kmp_search_all_loop pattern lps m text n fuel i1 v positions1 capacity1
      else if i1 < n then do
        let pj1 ← cstr_read pattern j1
        let ti1 ← cstr_read text i1
        if pj1 ≠ ti1 then
          if j1 ≠ 0 then do
            let v ← arr_read lps ((j1 : Int) - 1)
            kmp_search_all_loop pattern lps m text n fuel i1 v positions capacity
          else kmp_search_all_loop pattern lps m text n fuel (i1 + 1) j1 positions capacity
        else kmp_search_all_loop pattern lps m text n fuel i1 j1 positions capacity
      else kmp_search_all_loop pattern lps m text n fuel i1 j1 positions capacity
    else .ret (some positions)

/-- What a call of `kmp_search_all` leaves behind: the returned pointer (`none` is
`NULL`) and the cell `*count` (`none` when the caller passed `count = NULL`). -/
structure SearchAll where
  positions : Option (List Int)
  count : Option Int
  deriving DecidableEq, Repr

/-- Model of `kmp_search_all` (`src/kmp.c`, lines 86-147).  The argument `count` is
`none` for a `NULL` pointer and `some c` for a cell currently holding `c`.  The bound
of the loop is `int n = strlen(text)`; a failure of `malloc` or of `realloc` in the
loop gives `NULL` with `*count = 0`.  The final `realloc` to the exact size returns the
same elements whether it succeeds or not. -/
def kmp_search_all (fuel : Nat) (matcher : Option KMPMatcher) (text : Option (List Nat))
    (count : Option Int) : Run SearchAll :=
  match matcher, text, count with
  | some mt, some t, some _ =>
    if !mt.is_compiled then .ret { positions := none, count := some 0 }
    else if !is_ascii_string (some t) then .ret { positions := none, count := some 0 }
    else if !alloc_ok (positions_size 10) then .ret { positions := none, count := some 0 }
    else do
      let r ← kmp_search_all_loop mt.pattern mt.lps mt.pattern_len t (strlen_int t).toNat
        fuel 0 0 [] 10
      match r with
      | none => .ret { positions := none, count := some 0 }
      | some positions =>
        if positions.length = 0 then .ret { positions := none, count := some 0 }
        else .ret { positions := some positions, count := some (positions.length : Int) }
  | _, _, some _ => .ret { positions := none, count := some 0 }
  | _, _, none => .ret { positions := none, count := none }

/-- The offsets reported by a call of `kmp_search_all`: the elements of the returned
array, none when the pointer is `NULL`. -/
def SearchAll.offsets (r : SearchAll) : List Int := r.positions.getD []

/-! ## Specification vocabulary -/

/-- The first `k` bytes of `P` stand in `T` at offset `s`: `P[t] = T[s + t]` for every
`t < k`. -/
def agree (P T : List Nat) (k s : Nat) : Prop :=
  ∀ t, t < k → P.getD t 0 = T.getD (s + t) 0

/-- The value `k` is the length of the longest proper border of the first `q` bytes of
`P`: `P[0..k) = P[q-k..q)`, `k < q`, and no longer proper border exists. -/
def MaxBorder (P : List Nat) (q k : Nat) : Prop :=
  k < q ∧ agree P P k (q - k) ∧ ∀ k', k' < q → agree P P k' (q - k') → k' ≤ k

/-- The table `L` is the failure function of `P`. -/
def IsLps (P L : List Nat) : Prop :=
  L.length = P.length ∧ ∀ q, 0 < q → q ≤ P.length → MaxBorder P q (L.getD (q - 1) 0)

/-- The number `k` is the length of a proper prefix of the pattern that is also a suffix
of the pattern's first `i + 1` bytes; proper means `k < i + 1`. -/
def is_border (P : List Nat) (i k : Nat) : Prop :=
  k < i + 1 ∧ P.take k <:+ P.take (i + 1)

/-- The number `k` is the length of the longest proper prefix of the pattern that is
also a suffix of the pattern's first `i + 1` bytes. -/
def longest_border (P : List Nat) (i k : Nat) : Prop :=
  is_border P i k ∧ ∀ k', is_border P i k' → k' ≤ k

/-- The pattern occurs in the text at offset `o`: `T[o..o+len(P)) == P`. -/
def occurs_at (P T : List Nat) (o : Nat) : Prop :=
  o + P.length ≤ T.length ∧ (T.drop o).take P.length = P

/-- Loop invariant of `compute_lps_table` at the test `i < pattern_len`. -/
structure LpsInv (P lps : List Nat) (len i : Nat) : Prop where
  hi1 : 1 ≤ i
  him : i ≤ P.length
  hlen : len < i
  hsize : lps.length = P.length
  htab : ∀ q, 0 < q → q ≤ i → MaxBorder P q (lps.getD (q - 1) 0)
  hbord : agree P P len (i - len)
  hcand : ∀ k, k < i → len < k → agree P P k (i - k) → P.getD k 0 ≠ P.getD i 0

/-- The offset `o` is the smallest index with `T[o..o+len(P)) == P`. -/
def first_occurrence (P T : List Nat) (o : Nat) : Prop :=
  occurs_at P T o ∧ ∀ o', o' < o → ¬ occurs_at P T o'

/-- Loop invariant of the scanners at the test `i < n`: `j` bytes of the pattern are
matched against the text ending at `i`. -/
structure ScanInv (P T : List Nat) (i j : Nat) : Prop where
  hji : j ≤ i
  hin : i ≤ T.length
  hjm : j < P.length
  hag : agree P T j (i - j)

/-- The recorded offsets are exactly the occurrences that start below `b`, in strictly
ascending order. -/
structure AccInv (P T : List Nat) (b : Nat) (positions : List Int) : Prop where
  sorted : positions.Pairwise (fun x y => x < y)
  sound : ∀ x ∈ positions, ∃ o : Nat, x = (o : Int) ∧ o < b ∧ occurs_at P T o
  complete : ∀ o, o < b → occurs_at P T o → (o : Int) ∈ positions

/-! ## Further functions of the sources -/

/-- Model of `validate_pattern` (`src/utils.c`, lines 23-33). -/
def validate_pattern : Option (List Nat) → Bool
  | none => false
  | some p => if p.length = 0 then false else is_ascii_string (some p)

/-- The `while (j > 0 && lps[j] >= lps[i])` loop of `optimize_lps_table`
(`src/failure_func.c`, lines 44-46); the value returned is the final `j`. -/
def optimize_while (lps : List Nat) (i : Nat) : Nat → Nat → Run Nat
  | 0, j =>
    if j > 0 then do
      let a ← arr_read lps (j : Int)
      let b ← arr_read lps (i : Int)
      if a ≥ b then .timeout else .ret j
    else .ret j
  | fuel + 1, j =>
    if j > 0 then do
      let a ← arr_read lps (j : Int)
      let b ← arr_read lps (i : Int)
      if a ≥ b then do
        let v ← arr_read lps ((j : Int) - 1)
        optimize_while lps i fuel v
      else .ret j
    else .ret j

/-- The `for (int i = 1; i < pattern_len; i++)` loop of `optimize_lps_table`
(`src/failure_func.c`, lines 41-51).  The first number is the fuel given to every run
of the inner loop, the second the fuel of this loop. -/
def optimize_for (pattern_len : Nat) (fuel : Nat) : Nat → List Nat → Nat → Run (List Nat)
  | 0, lps, i => if i < pattern_len then .timeout else .ret lps
  | k + 1, lps, i =>
    if i < pattern_len then do
      let v ← arr_read lps (i : Int)
      if v > 0 then do
        let j ← optimize_while lps i fuel v
        if j > 0 then do
          let lps1 ← arr_write lps i j
          optimize_for pattern_len fuel k lps1 (i + 1)
        else optimize_for pattern_len fuel k lps (i + 1)
      else optimize_for pattern_len fuel k lps (i + 1)
    else .ret lps

/-- Model of `optimize_lps_table` (`src/failure_func.c`, lines 36-52).  The function
rewrites the table in place; the value returned here is the table after the call
(`none` for a `NULL` pointer).  The fuel bounds the outer loop and each run of the
inner loop. -/
def optimize_lps_table (fuel : Nat) (lps : Option (List Nat)) (pattern_len : Int) :
    Run (Option (List Nat)) :=
  match lps with
  | none => .ret none
  | some t =>
    if pattern_len ≤ 0 then .ret (some t)
    else do
      let r ← optimize_for pattern_len.toNat fuel fuel t 1
      .ret (some r)

/-- The constant `CLOCKS_PER_SEC` of `<time.h>` (the POSIX value). -/
def CLOCKS_PER_SEC : Nat := 1000000

/-- Model of `measure_time` (`src/utils.c`, lines 19-21): the elapsed time in
milliseconds between two readings of `clock()`.  The quotient is exact; the rounding of
`double` is not modelled. -/
def measure_time (start stop : Int) : Rat :=
  ((stop - start : Int) : Rat) / (CLOCKS_PER_SEC : Rat) * 1000

/-- Size of `SearchResult` on an LP64 target. -/
def sizeof_SearchResult : Nat := 24

/-- The struct `SearchResult` of `include/kmp.h`. -/
structure SearchResult where
  positions : Option (List Int)
  count : Int
  search_time : Rat
  deriving DecidableEq, Repr

/-- Model of `kmp_search_with_stats` (`src/kmp.c`, lines 149-166).  The argument
`count0` is the content of the freshly allocated cell `result->count`, and `start`,
`stop` are the two readings of `clock()`.  The result `none` is the `NULL` return, for
a missing argument or a failed `malloc`. -/
def kmp_search_with_stats (fuel : Nat) (matcher : Option KMPMatcher)
    (text : Option (List Nat)) (count0 : Int) (start stop : Int) :
    Run (Option SearchResult) :=
  match matcher, text with
  | some mt, some t =>
    if !mt.is_compiled then .ret none
    else if !alloc_ok sizeof_SearchResult then .ret none
    else do
      let r ← kmp_search_all fuel (some mt) (some t) (some count0)
      .ret (some
        { positions := r.positions
          count := r.count.getD count0
          search_time := measure_time start stop })
  | _, _ => .ret none

/-! ## One execution of a loop body, and the states a scan runs through -/

/-- How one execution of the body of the loop of `kmp_search` ends. -/
inductive SearchStep where
  /-- The body falls through to the loop test with these values of `i` and `j`. -/
  | next : Nat → Nat → SearchStep
  /-- The body leaves the function by `return`. -/
  | done : Int → SearchStep
  deriving DecidableEq, Repr

/-- One execution of the body of the loop of `kmp_search` (`src/kmp.c`, lines
67-80) from the values `i`, `j`. -/
def kmp_search_body (pattern lps : List Nat) (m : Nat) (text : List Nat) (n : Nat)
    (i j : Nat) : Run SearchStep := do
  let pj ← cstr_read pattern j
  let ti ← cstr_read text i
  let i1 := if pj = ti then i + 1 else i
  let j1 := if pj = ti then j + 1 else j
  if j1 = m then .ret (.done ((i1 : Int) - (j1 : Int)))
  else if i1 < n then do
    let pj1 ← cstr_read pattern j1
    let ti1 ← cstr_read text i1
    if pj1 ≠ ti1 then
      if j1 ≠ 0 then do
        let v ← arr_read lps ((j1 : Int) - 1)
        .ret (.next i1 v)
      else .ret (.next (i1 + 1) j1)
    else .ret (.next i1 j1)
  else .ret (.next i1 j1)

/-- The values of `(i, j)` at the successive evaluations of the loop test `i < n` of
`kmp_search`, starting from `(i, j)`, for at most `k` executions of the body. -/
def kmp_search_states (pattern lps : List Nat) (m : Nat) (text : List Nat) (n : Nat) :
    Nat → Nat → Nat → List (Nat × Nat)
  | 0, i, j => [(i, j)]
  | k + 1, i, j =>
    (i, j) ::
      (if i < n then
        match kmp_search_body pattern lps m text n i j with
        | .ret (.next i1 j1) => kmp_search_states pattern lps m text n k i1 j1
        | _ => []
      else [])

/-- The variables of the loop of `kmp_search_all`: the indices, the first `*count`
elements of the buffer, and its capacity. -/
structure ScanAllState where
  i : Nat
  j : Nat
  positions : List Int
  capacity : Int
  deriving DecidableEq, Repr

/-- One execution of the body of the loop of `kmp_search_all` (`src/kmp.c`, lines
111-137).  The result `none` is the `return NULL` of line 123; `some s1` holds the
variables with which the body falls through to the loop test. -/
def kmp_search_all_body (pattern lps : List Nat) (m : Nat) (text : List Nat) (n : Nat)
    (s : ScanAllState) : Run (Option ScanAllState) := do
  let pj ← cstr_read pattern s.j
  let ti ← cstr_read text s.i
  let i1 := if pj = ti then s.i + 1 else s.i
  let j1 := if pj = ti then s.j + 1 else s.j
  if j1 = m then
    let capacity1 :=
      if (s.positions.length : Int) ≥ s.capacity then to_int (s.capacity * 2)
      else s.capacity
    if (s.positions.length : Int) ≥ s.capacity
        ∧ alloc_ok (positions_size capacity1) = false
    then .ret none
    else do
      let positions1 ← positions_write s.positions capacity1 ((i1 : Int) - (j1 : Int))
      let v ← arr_read lps ((j1 : Int) - 1)
      .ret (some { i := i1, j := v, positions := positions1, capacity := capacity1 })
  else if i1 < n then do
    let pj1 ← cstr_read pattern j1
    let ti1 ← cstr_read text i1
    if pj1 ≠ ti1 then
      if j1 ≠ 0 then do
        let v ← arr_read lps ((j1 : Int) - 1)
        .ret (some { i := i1, j := v, positions := s.positions, capacity := s.capacity })
      else
        .ret (some
          { i := i1 + 1, j := j1, positions := s.positions, capacity := s.capacity })
    else .ret (some { i := i1, j := j1, positions := s.positions, capacity := s.capacity })
  else .ret (some { i := i1, j := j1, positions := s.positions, capacity := s.capacity })

/-- The values of `(i, j)` at the successive evaluations of the loop test `i < n` of
`kmp_search_all`, starting from the state `s`, for at most `k` executions of the
body. -/
def kmp_search_all_states (pattern lps : List Nat) (m : Nat) (text : List Nat) (n : Nat) :
    Nat → ScanAllState → List (Nat × Nat)
  | 0, s => [(s.i, s.j)]
  | k + 1, s =>
    (s.i, s.j) ::
      (if s.i < n then
        match kmp_search_all_body pattern lps m text n s with
        | .ret (some s1) => kmp_search_all_states pattern lps m text n k s1
        | _ => []
      else [])

/-- The number of steps of a sequence of states at which the text index `i` moves
forward. -/
def advance_count : List (Nat × Nat) → Nat
  | a :: b :: rest => (if a.1 < b.1 then 1 else 0) + advance_count (b :: rest)
  | _ => 0

/-- One step of the scan as seen on `(i, j)`: the text index stays or moves forward by
one byte. -/
def scan_step_ok (a b : Nat × Nat) : Prop := a.1 ≤ b.1 ∧ b.1 ≤ a.1 + 1

/-- Deciding whether the pattern occurs at an offset. -/
instance occurs_at_decidable (P T : List Nat) (o : Nat) : Decidable (occurs_at P T o) :=
  inferInstanceAs (Decidable (o + P.length ≤ T.length ∧ (T.drop o).take P.length = P))

/-- The indices `o` with `T[o..o+len(P)) == P`, in ascending order. -/
def occurrences (P T : List Nat) : List Nat :=
  (List.range (T.length + 1)).filter (fun o => decide (occurs_at P T o))

/-- Loop invariant of the outer loop of `optimize_lps_table` at the test
`i < pattern_len`: every entry is at most its index, and below `i` an entry equal to its
index is preceded by a zero entry. -/
structure OptInv (t : List Nat) (i : Nat) : Prop where
  bound : ∀ x, x < t.length → t.getD x 0 ≤ x
  settled : ∀ x, 0 < x → x < i → x < t.length → t.getD x 0 = x → t.getD (x - 1) 0 = 0

/-- What holds of the sequence of states a scan runs through from `(i, j)`: it starts
at `(i, j)`, every state satisfies the loop invariant, the text index never moves back
and moves by at most one byte per step, and the number of states and of advances is
bounded by what is left of the text. -/
structure TraceOk (P T : List Nat) (i j : Nat) (st : List (Nat × Nat)) : Prop where
  head : ∃ tl, st = (i, j) :: tl
  inv : ∀ s ∈ st, ScanInv P T s.1 s.2
  len : st.length ≤ 2 * (T.length - i) + j + 1
  chain : List.Chain' scan_step_ok st
  adv : advance_count st + i ≤ T.length

/-! ## The loop of `compute_lps_table` as the iteration of its body -/

/-- The variables of the loop of `compute_lps_table`. -/
structure LpsState where
  lps : List Nat
  len : Nat
  i : Nat
  deriving DecidableEq, Repr

/-- One execution of the body of the loop of `compute_lps_table`
(`src/failure_func.c`, lines 19-30). -/
def lps_body (pattern : List Nat) (s : LpsState) : Run LpsState := do
  let a ← cstr_read pattern s.i
  let b ← cstr_read pattern s.len
  if a = b then
    let lps1 ← arr_write s.lps s.i (s.len + 1)
    .ret { lps := lps1, len := s.len + 1, i := s.i + 1 }
  else if s.len ≠ 0 then
    let v ← arr_read s.lps ((s.len : Int) - 1)
    .ret { lps := s.lps, len := v, i := s.i }
  else
    let lps1 ← arr_write s.lps s.i 0
    .ret { lps := lps1, len := s.len, i := s.i + 1 }

/-- The values of `(i, len)` at the successive evaluations of the loop test
`i < pattern_len` of `compute_lps_table`, starting from the state `s`, for at most `k`
executions of the body. -/
def lps_states (pattern : List Nat) (pattern_len : Nat) :
    Nat → LpsState → List (Nat × Nat)
  | 0, s => [(s.i, s.len)]
  | k + 1, s =>
    (s.i, s.len) ::
      (if s.i < pattern_len then
        match lps_body pattern s with
        | .ret s1 => lps_states pattern pattern_len k s1
        | _ => []
      else [])

/-- One step of the loop of `compute_lps_table` as seen on `(i, len)`: either `i`
advances by one and `len` grows by at most one, or `i` stays and `len` strictly
decreases. -/
def lps_step_ok (a b : Nat × Nat) : Prop :=
  (b.1 = a.1 + 1 ∧ b.2 ≤ a.2 + 1) ∨ (b.1 = a.1 ∧ b.2 < a.2)

/-- What holds of the sequence of states the loop of `compute_lps_table` runs through
from `(i, len)`. -/
structure LpsTraceOk (P : List Nat) (i len : Nat) (st : List (Nat × Nat)) : Prop where
  head : ∃ tl, st = (i, len) :: tl
  len_le : st.length ≤ 2 * (P.length - i) + len + 1
  chain : List.Chain' lps_step_ok st

/-! ## The naive reference search of the benchmark -/

/-- Read `s[k]` in a NUL-terminated string at an index of type `int`: an index below
`0` is outside the buffer. -/
def cstr_read_at (s : List Nat) (k : Int) : Run Nat :=
  if 0 ≤ k then cstr_read s k.toNat else .oob

/-- The inner `for (j = 0; j < m; j++)` loop of `naive_search`
(`tests/benchmark.c`, lines 47-51); the value returned is `j` when the loop is left.
The index `i + j` is an `int`. -/
def naive_inner (text pattern : List Nat) (m i : Int) : Nat → Int → Run Int
  | 0, j => if j < m then .timeout else .ret j
  | fuel + 1, j =>
    if j < m then do
      let a ← cstr_read_at text (to_int (i + j))
      let b ← cstr_read_at pattern j
      if a ≠ b then .ret j
      else naive_inner text pattern m i fuel (to_int (j + 1))
    else .ret j

/-- The outer `for (int i = 0; i <= n - m; i++)` loop of `naive_search`
(`tests/benchmark.c`, lines 45-55), with `n`, `m` and `i` of type `int`.  The first
number is the fuel given to every run of the inner loop, the second the fuel of this
loop. -/
def naive_outer (text pattern : List Nat) (n m : Int) (fuel : Nat) : Nat → Int → Run Int
  | 0, i => if i ≤ to_int (n - m) then .timeout else .ret (-1)
  | k + 1, i =>
    if i ≤ to_int (n - m) then do
      let j ← naive_inner text pattern m i fuel 0
      if j = m then .ret i
      else naive_outer text pattern n m fuel k (to_int (i + 1))
    else .ret (-1)

/-- Model of `naive_search` (`tests/benchmark.c`, lines 41-57); both arguments are
strings (the function reads them without a `NULL` test), and `n`, `m` are the `int`
values of their lengths.  The fuel bounds the outer loop and each run of the inner
loop. -/
def naive_search (fuel : Nat) (text pattern : List Nat) : Run Int :=
  naive_outer text pattern (strlen_int text) (strlen_int pattern) fuel fuel 0

/-! ## The scanners with every read confined to the array proper -/

/-- The body of the loop of `kmp_search` with `pattern[j]` and `text[i]` read by
`arr_read`, which admits the indices `0 ≤ k < length` only (not the terminator). -/
def kmp_search_body_checked (pattern lps : List Nat) (m : Nat) (text : List Nat) (n : Nat)
    (i j : Nat) : Run SearchStep := do
  let pj ← arr_read pattern (j : Int)
  let ti ← arr_read text (i : Int)
  let i1 := if pj = ti then i + 1 else i
  let j1 := if pj = ti then j + 1 else j
  if j1 = m then .ret (.done ((i1 : Int) - (j1 : Int)))
  else if i1 < n then do
    let pj1 ← arr_read pattern (j1 : Int)
    let ti1 ← arr_read text (i1 : Int)
    if pj1 ≠ ti1 then
      if j1 ≠ 0 then do
        let v ← arr_read lps ((j1 : Int) - 1)
        .ret (.next i1 v)
      else .ret (.next (i1 + 1) j1)
    else .ret (.next i1 j1)
  else .ret (.next i1 j1)

/-- The loop of `kmp_search` over the checked body. -/
def kmp_search_loop_checked (pattern lps : List Nat) (m : Nat) (text : List Nat) (n : Nat) :
    Nat → Nat → Nat → Run Int
  | 0, i, _ => if i < n then .timeout else .ret (-1)
  | fuel + 1, i, j =>
    if i < n then do
      let s ← kmp_search_body_checked pattern lps m text n i j
      match s with
      | .next i1 j1 => kmp_search_loop_checked pattern lps m text n fuel i1 j1
      | .done r => .ret r
    else .ret (-1)

/-- The function `kmp_search` over the checked loop. -/
def kmp_search_checked (fuel : Nat) (matcher : Option KMPMatcher)
    (text : Option (List Nat)) : Run Int :=
  match matcher, text with
  | some mt, some t =>
    if !mt.is_compiled then .ret (-1)
    else if !is_ascii_string (some t) then .ret (-1)
    else
      kmp_search_loop_checked mt.pattern mt.lps mt.pattern_len t (strlen_int t).toNat
        fuel 0 0
  | _, _ => .ret (-1)

/-- The body of the loop of `kmp_search_all` with `pattern[j]` and `text[i]` read by
`arr_read`, which admits the indices `0 ≤ k < length` only (not the terminator). -/
def kmp_search_all_body_checked (pattern lps : List Nat) (m : Nat) (text : List Nat)
    (n : Nat) (s : ScanAllState) : Run (Option ScanAllState) := do
  let pj ← arr_read pattern (s.j : Int)
  let ti ← arr_read text (s.i : Int)
  let i1 := if pj = ti then s.i + 1 else s.i
  let j1 := if pj = ti then s.j + 1 else s.j
  if j1 = m then
    let capacity1 :=
      if (s.positions.length : Int) ≥ s.capacity then to_int (s.capacity * 2)
      else s.capacity
    if (s.positions.length : Int) ≥ s.capacity
        ∧ alloc_ok (positions_size capacity1) = false
    then .ret none
    else do
      let positions1 ← positions_write s.positions capacity1 ((i1 : Int) - (j1 : Int))
      let v ← arr_read lps ((j1 : Int) - 1)
      .ret (some { i := i1, j := v, positions := positions1, capacity := capacity1 })
  else if i1 < n then do
    let pj1 ← arr_read pattern (j1 : Int)
    let ti1 ← arr_read text (i1 : Int)
    if pj1 ≠ ti1 then
      if j1 ≠ 0 then do
        let v ← arr_read lps ((j1 : Int) - 1)
        .ret (some { i := i1, j := v, positions := s.positions, capacity := s.capacity })
      else
        .ret (some
          { i := i1 + 1, j := j1, positions := s.positions, capacity := s.capacity })
    else .ret (some { i := i1, j := j1, positions := s.positions, capacity := s.capacity })
  else .ret (some { i := i1, j := j1, positions := s.positions, capacity := s.capacity })

/-- The loop of `kmp_search_all` over the checked body. -/
def kmp_search_all_loop_checked (pattern lps : List Nat) (m : Nat) (text : List Nat)
    (n : Nat) : Nat → ScanAllState → Run (Option (List Int))
  | 0, s => if s.i < n then .timeout else .ret (some s.positions)
  | fuel + 1, s =>
    if s.i < n then do
      let r ← kmp_search_all_body_checked pattern lps m text n s
      match r with
      | none => .ret none
      | some s1 => kmp_search_all_loop_checked pattern lps m text n fuel s1
    else .ret (some s.positions)

/-- The function `kmp_search_all` over the checked loop. -/
def kmp_search_all_checked (fuel : Nat) (matcher : Option KMPMatcher)
    (text : Option (List Nat)) (count : Option Int) : Run SearchAll :=
  match matcher, text, count with
  | some mt, some t, some _ =>
    if !mt.is_compiled then .ret { positions := none, count := some 0 }
    else if !is_ascii_string (some t) then .ret { positions := none, count := some 0 }
    else if !alloc_ok (positions_size 10) then .ret { positions := none, count := some 0 }
    else do
      let r ← kmp_search_all_loop_checked mt.pattern mt.lps mt.pattern_len t
        (strlen_int t).toNat fuel { i := 0, j := 0, positions := [], capacity := 10 }
      match r with
      | none => .ret { positions := none, count := some 0 }
      | some positions =>
        if positions.length = 0 then .ret { positions := none, count := some 0 }
        else .ret { positions := some positions, count := some (positions.length : Int) }
  | _, _, some _ => .ret { positions := none, count := some 0 }
  | _, _, none => .ret { positions := none, count := none }

/-! ## The capacity of the result buffer -/

/-- The largest capacity the result buffer of `kmp_search_all` reaches: `10 * 2^27`
elements.  The next doubling leaves the range of `int`. -/
def MAX_CAPACITY : Nat := 1342177280

/-- Invariant of the variable `capacity` of `kmp_search_all`: it is `10` doubled at
most 27 times, and the buffer holds no more elements than that. -/
def CapInv (positions : List Int) (capacity : Int) : Prop :=
  ∃ k : Nat, k ≤ 27 ∧ capacity = ((10 * 2 ^ k : Nat) : Int)
    ∧ (positions.length : Int) ≤ capacity

/-! ## Basic facts about the run monad and the checked accesses -/

@[simp] theorem Run.ret_bind {α β : Type} (a : α) (f : α → Run β) :
    (Run.ret a >>= f) = f a := rfl

@[simp] theorem Run.oob_bind {α β : Type} (f : α → Run β) :
    ((Run.oob : Run α) >>= f) = Run.oob := rfl

@[simp] theorem Run.timeout_bind {α β : Type} (f : α → Run β) :
    ((Run.timeout : Run α) >>= f) = Run.timeout := rfl

@[simp] theorem Run.pure_eq {α : Type} (a : α) : (pure a : Run α) = Run.ret a := rfl

theorem cstr_read_ok {s : List Nat} {i : Nat} (h : i ≤ s.length) :
    cstr_read s i = Run.ret (s.getD i 0) := by
  simp [cstr_read, h]

theorem arr_read_pred {a : List Nat} {j : Nat} (h0 : 0 < j) (h : j ≤ a.length) :
    arr_read a ((j : Int) - 1) = Run.ret (a.getD (j - 1) 0) := by
  have h1 : (0 : Int) ≤ (j : Int) - 1 ∧ (j : Int) - 1 < (a.length : Int) := by omega
  have h2 : ((j : Int) - 1).toNat = j - 1 := by omega
  simp [arr_read, h1, h2]

theorem arr_write_ok {a : List Nat} {i v : Nat} (h : i < a.length) :
    arr_write a i v = Run.ret (a.set i v) := by
  simp [arr_write, h]

theorem getD_set_eq {a : List Nat} {i : Nat} (v : Nat) (h : i < a.length) :
    (a.set i v).getD i 0 = v := by
  simp [List.getD_eq_getElem?_getD, List.getElem?_set, h]

theorem getD_set_ne {a : List Nat} {i k : Nat} (v : Nat) (h : i ≠ k) :
    (a.set i v).getD k 0 = a.getD k 0 := by
  simp [List.getD_eq_getElem?_getD, List.getElem?_set, h]

/-! ## Borders -/

theorem agree_zero (P T : List Nat) (s : Nat) : agree P T 0 s := by
  intro t ht
  omega

theorem agree_mono {P T : List Nat} {k k' s : Nat} (h : agree P T k s) (hk : k' ≤ k) :
    agree P T k' s := by
  intro t ht
  exact h t (by omega)

/-- A border of a matched prefix is again matched, and conversely. -/
theorem agree_shift {P T : List Nat} {i j k : Nat} (hji : j ≤ i) (hkj : k ≤ j)
    (h : agree P T j (i - j)) : agree P P k (j - k) ↔ agree P T k (i - k) := by
  constructor
  · intro h1 t ht
    have e1 := h (j - k + t) (by omega)
    have e2 := h1 t ht
    have e : i - j + (j - k + t) = i - k + t := by omega
    rw [e] at e1
    rw [e2, e1]
  · intro h1 t ht
    have e1 := h (j - k + t) (by omega)
    have e2 := h1 t ht
    have e : i - j + (j - k + t) = i - k + t := by omega
    rw [e] at e1
    rw [e2, e1]

/-- Extending a border by one matching byte. -/
theorem agree_succ {P T : List Nat} {k s : Nat} (h : agree P T k s)
    (hk : P.getD k 0 = T.getD (s + k) 0) : agree P T (k + 1) s := by
  intro t ht
  by_cases e : t = k
  · subst e
    exact hk
  · exact h t (by omega)

/-- A border of the first `i + 1` bytes, shortened by one, is a border of the first `i`
bytes whose next byte is `P[i]`. -/
theorem border_pred {P : List Nat} {i k : Nat} (hk : k < i)
    (h : agree P P (k + 1) (i + 1 - (k + 1))) :
    agree P P k (i - k) ∧ P.getD k 0 = P.getD i 0 := by
  constructor
  · intro t ht
    have e1 := h t (by omega)
    have e : i + 1 - (k + 1) + t = i - k + t := by omega
    rw [e] at e1
    exact e1
  · have e1 := h k (by omega)
    have e : i + 1 - (k + 1) + k = i := by omega
    rw [e] at e1
    exact e1

/-! ## The failure table computed by `compute_lps_table` -/

/-- Under the loop invariant, a border of the first `i + 1` bytes has length at most
`len + 1`. -/
theorem LpsInv.border_le {P lps : List Nat} {len i k : Nat} (h : LpsInv P lps len i)
    (hk : k < i + 1) (hb : agree P P k (i + 1 - k)) : k ≤ len + 1 := by
  rcases Nat.eq_zero_or_pos k with h0 | hpos
  · omega
  · obtain ⟨k0, rfl⟩ : ∃ k0, k = k0 + 1 := ⟨k - 1, by omega⟩
    have hp := border_pred (by omega : k0 < i) hb
    by_contra hc
    exact h.hcand k0 (by omega) (by omega) hp.1 hp.2

/-- The invariant after the branch `pattern[i] == pattern[len]`. -/
theorem LpsInv.step_match {P lps : List Nat} {len i : Nat} (h : LpsInv P lps len i)
    (him : i < P.length) (heq : P.getD i 0 = P.getD len 0) :
    LpsInv P (lps.set i (len + 1)) (len + 1) (i + 1) := by
  have hlen := h.hlen
  have hb : agree P P (len + 1) (i + 1 - (len + 1)) := by
    have e : i + 1 - (len + 1) = i - len := by omega
    rw [e]
    apply agree_succ h.hbord
    have e2 : i - len + len = i := by omega
    rw [e2]
    exact heq.symm
  have hmax : MaxBorder P (i + 1) (len + 1) :=
    ⟨by omega, hb, fun k' hk' hb' => h.border_le hk' hb'⟩
  refine ⟨by omega, by omega, by omega, ?_, ?_, hb, ?_⟩
  · rw [List.length_set]
    exact h.hsize
  · intro q hq0 hq
    by_cases e : q = i + 1
    · subst e
      have hi : i < lps.length := by rw [h.hsize]; exact him
      have e1 : i + 1 - 1 = i := by omega
      rw [e1, getD_set_eq _ hi]
      exact hmax
    · rw [getD_set_ne _ (by omega)]
      exact h.htab q hq0 (by omega)
  · intro k hk hlk hbk
    have := hmax.2.2 k hk hbk
    omega

/-- The invariant after the branch `len = lps[len - 1]`. -/
theorem LpsInv.step_fallback {P lps : List Nat} {len i : Nat} (h : LpsInv P lps len i)
    (hne : P.getD i 0 ≠ P.getD len 0) (hlen0 : len ≠ 0) :
    LpsInv P lps (lps.getD (len - 1) 0) i := by
  have hlen := h.hlen
  have hmb := h.htab len (by omega) (by omega)
  obtain ⟨hv, hvb, hvmax⟩ := hmb
  refine ⟨h.hi1, h.him, by omega, h.hsize, h.htab, ?_, ?_⟩
  · exact (agree_shift (by omega) (by omega) h.hbord).1 hvb
  · intro k hk hvk hbk
    rcases Nat.lt_trichotomy k len with hlt | heq | hgt
    · have := hvmax k hlt ((agree_shift (by omega) (by omega) h.hbord).2 hbk)
      omega
    · subst heq
      exact fun e => hne e.symm
    · exact h.hcand k hk hgt hbk

/-- The invariant after the branch `lps[i] = 0`. -/
theorem LpsInv.step_zero {P lps : List Nat} {len i : Nat} (h : LpsInv P lps len i)
    (him : i < P.length) (hne : P.getD i 0 ≠ P.getD len 0) (hlen0 : len = 0) :
    LpsInv P (lps.set i 0) len (i + 1) := by
  subst hlen0
  have hle : ∀ k, k < i + 1 → agree P P k (i + 1 - k) → k ≤ 0 := by
    intro k hk hb
    rcases Nat.eq_zero_or_pos k with h0 | hpos
    · omega
    · obtain ⟨k0, rfl⟩ : ∃ k0, k = k0 + 1 := ⟨k - 1, by omega⟩
      have hp := border_pred (by omega : k0 < i) hb
      rcases Nat.eq_zero_or_pos k0 with h00 | hpos0
      · subst h00
        exact absurd hp.2.symm hne
      · exact absurd hp.2 (h.hcand k0 (by omega) hpos0 hp.1)
  have hmax : MaxBorder P (i + 1) 0 := ⟨by omega, agree_zero _ _ _, hle⟩
  refine ⟨by omega, by omega, by omega, ?_, ?_, agree_zero _ _ _, ?_⟩
  · rw [List.length_set]
    exact h.hsize
  · intro q hq0 hq
    by_cases e : q = i + 1
    · subst e
      have hi : i < lps.length := by rw [h.hsize]; exact him
      have e1 : i + 1 - 1 = i := by omega
      rw [e1, getD_set_eq _ hi]
      exact hmax
    · rw [getD_set_ne _ (by omega)]
      exact h.htab q hq0 (by omega)
  · intro k hk hlk hbk
    have := hle k hk hbk
    omega

/-- The invariant holds when the loop is entered: `lps` zeroed, `len = 0`, `i = 1`. -/
theorem LpsInv.at_entry {P : List Nat} (hP : 0 < P.length) :
    LpsInv P ((List.replicate P.length 0).set 0 0) 0 1 := by
  refine ⟨le_refl _, hP, by omega, by simp, ?_, agree_zero _ _ _, ?_⟩
  · intro q hq0 hq
    have e : q = 1 := by omega
    subst e
    have e1 : (1 : Nat) - 1 = 0 := rfl
    rw [e1, getD_set_eq _ (by simpa using hP)]
    exact ⟨by omega, agree_zero _ _ _, fun k' hk' _ => by omega⟩
  · intro k hk hk0
    omega

/-- Run of the loop of `compute_lps_table` from a state satisfying the invariant: it
never reads or writes out of bounds, it stops within `2 (m - i) + len` executions of
the body, and the table it returns is the failure function. -/
theorem lps_loop_spec (P : List Nat) :
    ∀ (fuel : Nat) (lps : List Nat) (len i : Nat), LpsInv P lps len i →
      (lps_loop P P.length fuel lps len i = Run.timeout ∧ fuel < 2 * (P.length - i) + len)
      ∨ ∃ L, lps_loop P P.length fuel lps len i = Run.ret L ∧ IsLps P L := by
  intro fuel
  induction fuel with
  | zero =>
    intro lps len i h
    by_cases hi : i < P.length
    · left
      exact ⟨by simp only [lps_loop, if_pos hi], by omega⟩
    · right
      refine ⟨lps, by simp only [lps_loop, if_neg hi], h.hsize, ?_⟩
      intro q hq0 hq
      exact h.htab q hq0 (by have := h.him; omega)
  | succ fuel ih =>
    intro lps len i h
    have hlen := h.hlen
    have him := h.him
    by_cases hi : i < P.length
    · have hr1 : cstr_read P i = Run.ret (P.getD i 0) := cstr_read_ok (by omega)
      have hr2 : cstr_read P len = Run.ret (P.getD len 0) := cstr_read_ok (by omega)
      have hw : ∀ v, arr_write lps i v = Run.ret (lps.set i v) :=
        fun v => arr_write_ok (by rw [h.hsize]; exact hi)
      by_cases heq : P.getD i 0 = P.getD len 0
      · have hstep : lps_loop P P.length (fuel + 1) lps len i
            = lps_loop P P.length fuel (lps.set i (len + 1)) (len + 1) (i + 1) := by
          simp only [lps_loop, if_pos hi, hr1, hr2, Run.ret_bind, if_pos heq, hw]
        rw [hstep]
        rcases ih _ _ _ (h.step_match hi heq) with ⟨ht, hf⟩ | hok
        · left
          exact ⟨ht, by omega⟩
        · right
          exact hok
      · by_cases hl0 : len = 0
        · have hstep : lps_loop P P.length (fuel + 1) lps len i
              = lps_loop P P.length fuel (lps.set i 0) len (i + 1) := by
            simp only [lps_loop, if_pos hi, hr1, hr2, Run.ret_bind, if_neg heq, hw,
              if_neg (not_not.mpr hl0)]
          rw [hstep]
          rcases ih _ _ _ (h.step_zero hi heq hl0) with ⟨ht, hf⟩ | hok
          · left
            exact ⟨ht, by omega⟩
          · right
            exact hok
        · have hrd : arr_read lps ((len : Int) - 1) = Run.ret (lps.getD (len - 1) 0) :=
            arr_read_pred (by omega) (by rw [h.hsize]; omega)
          have hstep : lps_loop P P.length (fuel + 1) lps len i
              = lps_loop P P.length fuel lps (lps.getD (len - 1) 0) i := by
            simp only [lps_loop, if_pos hi, hr1, hr2, Run.ret_bind, if_neg heq,
              if_pos hl0, hrd]
          rw [hstep]
          have hv := (h.htab len (by omega) (by omega)).1
          rcases ih _ _ _ (h.step_fallback heq hl0) with ⟨ht, hf⟩ | hok
          · left
            exact ⟨ht, by omega⟩
          · right
            exact hok
    · right
      refine ⟨lps, by simp only [lps_loop, if_neg hi], h.hsize, ?_⟩
      intro q hq0 hq
      exact h.htab q hq0 (by omega)

/-- Run of `compute_lps_table` on a non-empty pattern and its length. -/
theorem compute_lps_table_spec (P : List Nat) (hP : 0 < P.length) (fuel : Nat) :
    (compute_lps_table fuel (some P) (P.length : Int) = Run.timeout
        ∧ fuel < 2 * (P.length - 1))
    ∨ ∃ L, compute_lps_table fuel (some P) (P.length : Int) = Run.ret (some L)
        ∧ IsLps P L := by
  have hpos : ¬ ((P.length : Int) ≤ 0) := by omega
  have hw : arr_write (List.replicate P.length 0) 0 0
      = Run.ret ((List.replicate P.length 0).set 0 0) :=
    arr_write_ok (by simpa using hP)
  have hstep : compute_lps_table fuel (some P) (P.length : Int)
      = (lps_loop P P.length fuel ((List.replicate P.length 0).set 0 0) 0 1
          >>= fun r => Run.ret (some r)) := by
    simp only [compute_lps_table, if_neg hpos, Int.toNat_natCast, hw, Run.ret_bind]
  rw [hstep]
  rcases lps_loop_spec P fuel _ _ _ (LpsInv.at_entry hP) with ⟨ht, hf⟩ | ⟨L, hL, hspec⟩
  · left
    rw [ht]
    exact ⟨rfl, by omega⟩
  · right
    rw [hL]
    exact ⟨L, rfl, hspec⟩

theorem is_ascii_loop_iff (s : List Nat) :
    is_ascii_loop s = true ↔ ∀ b ∈ s, b ≤ 127 := by
  induction s with
  | nil => simp [is_ascii_loop]
  | cons c rest ih =>
    by_cases hc : c > 127
    · simp only [is_ascii_loop, if_pos hc, List.mem_cons, forall_eq_or_imp]
      constructor
      · intro h
        exact absurd h (by simp)
      · intro h
        omega
    · simp only [is_ascii_loop, if_neg hc, List.mem_cons, forall_eq_or_imp, ih]
      constructor
      · intro h
        exact ⟨by omega, h⟩
      · intro h
        exact h.2

/-! ## Facts about `int` and `size_t` values -/

/-- A number below `2^31` is stored into an `int` unchanged. -/
theorem to_int_cast {x : Nat} (h : x < 2147483648) : to_int (x : Int) = (x : Int) := by
  unfold to_int
  omega

/-- The `int` value of `strlen` is the length for a string shorter than `2^31`. -/
theorem strlen_int_eq {s : List Nat} (h : s.length < 2147483648) :
    strlen_int s = (s.length : Int) := to_int_cast h

/-- The bound of a scan loop is the length of the text when this is below `2^31`. -/
theorem strlen_int_toNat_eq {s : List Nat} (h : s.length < 2147483648) :
    (strlen_int s).toNat = s.length := by
  rw [strlen_int_eq h]
  exact Int.toNat_ofNat _

/-- The bound of a scan loop never exceeds the length of the text. -/
theorem strlen_int_toNat_le (s : List Nat) : (strlen_int s).toNat ≤ s.length := by
  unfold strlen_int to_int
  omega

/-- The first `malloc` of `kmp_search_all` is served. -/
theorem alloc_ok_initial : alloc_ok (positions_size 10) = true := by decide

/-- The `malloc` of the matcher is served. -/
theorem alloc_ok_matcher : alloc_ok sizeof_KMPMatcher = true := by decide

/-- A number below `2^64` is converted to `size_t` unchanged. -/
theorem to_size_t_cast {x : Nat} (h : x < 18446744073709551616) :
    to_size_t (x : Int) = x := by
  unfold to_size_t
  omega

/-- A negative `int` is converted to `size_t` by adding `2^64`. -/
theorem to_size_t_neg {x : Int} (h : x < 0) (h2 : -2147483648 ≤ x) :
    to_size_t x = (x + 18446744073709551616).toNat := by
  unfold to_size_t
  omega

/-- The size `(len + 1) * sizeof(char)` requested by `safe_string_copy` for a string of
`n` bytes: `n + 1` up to `2^31 - 2` bytes; beyond, a size `malloc` refuses or one below
`n + 1`. -/
theorem copy_size_cases (n : Nat) :
    (n ≤ 2147483646
      ∧ to_size_t (to_int (to_int (n : Int) + 1)) * sizeof_char % SIZE_MODULUS = n + 1)
    ∨ (2147483646 < n
      ∧ (alloc_ok (to_size_t (to_int (to_int (n : Int) + 1)) * sizeof_char % SIZE_MODULUS)
            = false
        ∨ to_size_t (to_int (to_int (n : Int) + 1)) * sizeof_char % SIZE_MODULUS < n + 1))
    := by
  have hv : -2147483648 ≤ to_int (to_int (n : Int) + 1)
      ∧ to_int (to_int (n : Int) + 1) < 2147483648 := by
    unfold to_int
    omega
  by_cases hn : n ≤ 2147483646
  · left
    refine ⟨hn, ?_⟩
    have h1 : to_int (to_int (n : Int) + 1) = ((n + 1 : Nat) : Int) := by
      unfold to_int
      omega
    rw [h1, to_size_t_cast (by omega)]
    unfold sizeof_char SIZE_MODULUS
    omega
  · right
    refine ⟨by omega, ?_⟩
    by_cases hneg : to_int (to_int (n : Int) + 1) < 0
    · left
      rw [to_size_t_neg hneg hv.1]
      unfold alloc_ok sizeof_char SIZE_MODULUS PTRDIFF_MAX
      rw [decide_eq_false_iff_not]
      omega
    · right
      obtain ⟨v, hv2⟩ : ∃ v : Nat, to_int (to_int (n : Int) + 1) = (v : Int) :=
        ⟨_, (Int.toNat_of_nonneg (by omega)).symm⟩
      rw [hv2] at hv
      rw [hv2, to_size_t_cast (by omega)]
      unfold sizeof_char SIZE_MODULUS
      omega

/-- What `safe_string_copy` does on a string: a copy up to `2^31 - 2` bytes, and `NULL`
or a write beyond the buffer from `2^31 - 1` bytes on. -/
theorem safe_string_copy_spec (P : List Nat) :
    (P.length ≤ 2147483646 ∧ safe_string_copy (some P) = Run.ret (some P))
    ∨ (2147483646 < P.length
        ∧ (safe_string_copy (some P) = Run.ret none ∨ safe_string_copy (some P) = Run.oob))
    := by
  rcases copy_size_cases P.length with ⟨hn, hsz⟩ | ⟨hn, hsz⟩
  · left
    refine ⟨hn, ?_⟩
    have hok : alloc_ok (P.length + 1) = true := by
      unfold alloc_ok PTRDIFF_MAX
      rw [decide_eq_true_iff]
      omega
    simp only [safe_string_copy, strlen_int, hsz, hok, Bool.not_true, le_refl, if_true]
    rfl
  · right
    refine ⟨hn, ?_⟩
    by_cases hok : alloc_ok
        (to_size_t (to_int (to_int (P.length : Int) + 1)) * sizeof_char % SIZE_MODULUS) = true
    · right
      have hlt : ¬ (P.length + 1
          ≤ to_size_t (to_int (to_int (P.length : Int) + 1)) * sizeof_char % SIZE_MODULUS) := by
        rcases hsz with hsz | hsz
        · rw [hsz] at hok
          exact absurd hok (by simp)
        · omega
      simp only [safe_string_copy, strlen_int, hok, Bool.not_true, if_neg hlt]
      rfl
    · left
      have hok1 : alloc_ok
          (to_size_t (to_int (to_int (P.length : Int) + 1)) * sizeof_char % SIZE_MODULUS)
          = false := by
        simpa using hok
      simp only [safe_string_copy, strlen_int, hok1, Bool.not_false]
      rfl

/-- What `kmp_create` does on a non-empty ASCII pattern of at most `2^31 - 2` bytes: it
runs `compute_lps_table` and wraps the table. -/
theorem kmp_create_eq (fuel : Nat) (P : List Nat) (hP : 0 < P.length)
    (hmax : P.length ≤ 2147483646) (hascii : is_ascii_loop P = true) :
    kmp_create fuel (some P)
      = (compute_lps_table fuel (some P) (P.length : Int) >>= fun lps =>
          match lps with
          | none => Run.ret none
          | some table =>
            Run.ret (some
              { pattern := P
                pattern_len := P.length
                lps := table
                is_compiled := true
                memory_usage := sizeof_KMPMatcher + (P.length + 1) * sizeof_char
                  + P.length * sizeof_int })) := by
  have hlen : strlen_int P = (P.length : Int) := strlen_int_eq (by omega)
  have h0 : ¬ ((P.length : Int) = 0) := by omega
  have hcopy : safe_string_copy (some P) = Run.ret (some P) := by
    rcases safe_string_copy_spec P with h | h
    · exact h.2
    · omega
  have h1 : to_int ((P.length : Int) + 1) = ((P.length + 1 : Nat) : Int) := by
    unfold to_int
    omega
  have hmem : (sizeof_KMPMatcher + to_size_t (to_int ((P.length : Int) + 1)) * sizeof_char
      + to_size_t (P.length : Int) * sizeof_int) % SIZE_MODULUS
      = sizeof_KMPMatcher + (P.length + 1) * sizeof_char + P.length * sizeof_int := by
    rw [h1, to_size_t_cast (by omega), to_size_t_cast (by omega)]
    unfold sizeof_KMPMatcher sizeof_char sizeof_int SIZE_MODULUS
    omega
  simp only [kmp_create, is_ascii_string, hascii, Bool.not_true, hlen, if_neg h0,
    alloc_ok_matcher, hcopy, Run.ret_bind, hmem, Int.toNat_ofNat]
  rfl

/-- When `kmp_create` yields no matcher on an input that is not a non-empty ASCII
string. -/
theorem kmp_create_bad (fuel : Nat) (P : List Nat)
    (h : P.length = 0 ∨ is_ascii_loop P = false) :
    kmp_create fuel (some P) = Run.ret none := by
  by_cases ha : is_ascii_loop P = true
  · rcases h with h | h
    · have hlen : strlen_int P = 0 := by
        rw [strlen_int_eq (by omega), h]
        rfl
      simp only [kmp_create, is_ascii_string, ha, Bool.not_true, hlen]
      rfl
    · rw [ha] at h
      exact absurd h (by simp)
  · have ha' : is_ascii_loop P = false := by simpa using ha
    simp only [kmp_create, is_ascii_string, ha', Bool.not_false, if_true]

/-- On a pattern of `2^31 - 1` bytes or more `kmp_create` yields no matcher: it returns
`NULL` or writes beyond the copy of the pattern. -/
theorem kmp_create_large (fuel : Nat) (P : List Nat) (h : 2147483646 < P.length) :
    kmp_create fuel (some P) = Run.ret none ∨ kmp_create fuel (some P) = Run.oob := by
  by_cases ha : is_ascii_loop P = true
  · by_cases h0 : strlen_int P = 0
    · left
      simp only [kmp_create, is_ascii_string, ha, Bool.not_true, h0]
      rfl
    · rcases safe_string_copy_spec P with hc | ⟨_, hc | hc⟩
      · omega
      · left
        simp only [kmp_create, is_ascii_string, ha, Bool.not_true, if_neg h0,
          alloc_ok_matcher, hc, Run.ret_bind]
        rfl
      · right
        simp only [kmp_create, is_ascii_string, ha, Bool.not_true, if_neg h0,
          alloc_ok_matcher, hc]
        rfl
  · left
    exact kmp_create_bad fuel P (Or.inr (by simpa using ha))

/-- From `2^31 - 1` to `2^32 - 2` bytes the size `(len + 1) * sizeof(char)` is that of
a negative `int`, which `malloc` refuses: `safe_string_copy` returns `NULL`. -/
theorem safe_string_copy_null {P : List Nat} (h1 : 2147483647 ≤ P.length)
    (h2 : P.length ≤ 4294967294) : safe_string_copy (some P) = Run.ret none := by
  have hv : -2147483648 ≤ to_int (to_int (P.length : Int) + 1)
      ∧ to_int (to_int (P.length : Int) + 1) < 0 := by
    unfold to_int
    omega
  have hok : alloc_ok
      (to_size_t (to_int (to_int (P.length : Int) + 1)) * sizeof_char % SIZE_MODULUS)
      = false := by
    rw [to_size_t_neg hv.2 hv.1]
    unfold alloc_ok sizeof_char SIZE_MODULUS PTRDIFF_MAX
    rw [decide_eq_false_iff_not]
    omega
  simp only [safe_string_copy, strlen_int, hok, Bool.not_false]
  rfl

/-- On a pattern of `2^31 - 1` to `2^32 - 2` bytes `kmp_create` returns `NULL`. -/
theorem kmp_create_null_of_large (fuel : Nat) {P : List Nat} (h1 : 2147483647 ≤ P.length)
    (h2 : P.length ≤ 4294967294) : kmp_create fuel (some P) = Run.ret none := by
  by_cases ha : is_ascii_loop P = true
  · by_cases h0 : strlen_int P = 0
    · simp only [kmp_create, is_ascii_string, ha, Bool.not_true, h0]
      rfl
    · simp only [kmp_create, is_ascii_string, ha, Bool.not_true, if_neg h0,
        alloc_ok_matcher, safe_string_copy_null h1 h2, Run.ret_bind]
      rfl
  · exact kmp_create_bad fuel P (Or.inr (by simpa using ha))

/-- A pattern from which `kmp_create` returns a matcher has at most `2^31 - 2` bytes. -/
theorem kmp_create_built_le {fuel : Nat} {P : List Nat} {M : KMPMatcher}
    (h : kmp_create fuel (some P) = Run.ret (some M)) : P.length ≤ 2147483646 := by
  by_contra hc
  rcases kmp_create_large fuel P (by omega) with h1 | h1
  · rw [h1] at h
    exact absurd h (by simp)
  · rw [h1] at h
    exact absurd h (by simp)

/-- Every matcher returned by `kmp_create` is fully built and carries the failure
function of its pattern. -/
theorem kmp_create_built {fuel : Nat} {P : List Nat} {M : KMPMatcher}
    (h : kmp_create fuel (some P) = Run.ret (some M)) :
    0 < P.length ∧ is_ascii_loop P = true ∧ M.pattern = P ∧ M.pattern_len = P.length
      ∧ M.is_compiled = true ∧ IsLps P M.lps := by
  have hmax := kmp_create_built_le h
  by_cases hbad : P.length = 0 ∨ is_ascii_loop P = false
  · rw [kmp_create_bad fuel P hbad] at h
    exact absurd h (by simp)
  · have hP : 0 < P.length := by
      rcases Nat.eq_zero_or_pos P.length with h0 | h0
      · exact absurd (Or.inl h0) hbad
      · exact h0
    have ha : is_ascii_loop P = true := by
      by_contra hc
      exact hbad (Or.inr (by simpa using hc))
    rw [kmp_create_eq fuel P hP hmax ha] at h
    rcases compute_lps_table_spec P hP fuel with ⟨ht, _⟩ | ⟨L, hL, hspec⟩
    · rw [ht] at h
      exact absurd h (by simp)
    · rw [hL] at h
      simp only [Run.ret_bind, Run.ret.injEq, Option.some.injEq] at h
      subst h
      exact ⟨hP, ha, rfl, rfl, rfl, hspec⟩

/-- With enough fuel `kmp_create` returns a matcher for every non-empty ASCII pattern
of at most `2^31 - 2` bytes. -/
theorem kmp_create_ok (fuel : Nat) (P : List Nat) (hP : 0 < P.length)
    (hmax : P.length ≤ 2147483646)
    (hascii : is_ascii_loop P = true) (hfuel : 2 * (P.length - 1) ≤ fuel) :
    ∃ L, compute_lps_table fuel (some P) (P.length : Int) = Run.ret (some L)
      ∧ kmp_create fuel (some P) = Run.ret (some
          { pattern := P
            pattern_len := P.length
            lps := L
            is_compiled := true
            memory_usage := sizeof_KMPMatcher + (P.length + 1) * sizeof_char
              + P.length * sizeof_int }) := by
  rcases compute_lps_table_spec P hP fuel with ⟨_, hf⟩ | ⟨L, hL, _⟩
  · omega
  · refine ⟨L, hL, ?_⟩
    rw [kmp_create_eq fuel P hP hmax hascii, hL]
    rfl

/-! ## From index form to `take` / `drop` form -/

theorem agree_iff_take {P T : List Nat} {k s : Nat} (hk : k ≤ P.length)
    (hs : s + k ≤ T.length) : agree P T k s ↔ P.take k = (T.drop s).take k := by
  constructor
  · intro h
    apply List.ext_getElem?
    intro t
    simp only [List.getElem?_take, List.getElem?_drop]
    by_cases ht : t < k
    · simp only [if_pos ht]
      have e := h t ht
      have h1 : t < P.length := by omega
      have h2 : s + t < T.length := by omega
      obtain ⟨a, ha⟩ : ∃ a, P[t]? = some a := ⟨P[t], List.getElem?_eq_getElem h1⟩
      obtain ⟨b, hb⟩ : ∃ b, T[s + t]? = some b := ⟨T[s + t], List.getElem?_eq_getElem h2⟩
      rw [List.getD_eq_getElem?_getD, List.getD_eq_getElem?_getD, ha, hb] at e
      rw [ha, hb]
      exact congrArg some e
    · simp only [if_neg ht]
  · intro h t ht
    have e := congrArg (fun l => l[t]?) h
    simp only [List.getElem?_take, List.getElem?_drop, if_pos ht] at e
    rw [List.getD_eq_getElem?_getD, List.getD_eq_getElem?_getD, e]

theorem suffix_iff_agree {P : List Nat} {k q : Nat} (hk : k ≤ q) (hq : q ≤ P.length) :
    P.take k <:+ P.take q ↔ agree P P k (q - k) := by
  rw [List.suffix_iff_eq_drop, List.length_take, List.length_take,
    Nat.min_eq_left hq, Nat.min_eq_left (le_trans hk hq), List.drop_take,
    agree_iff_take (le_trans hk hq) (by omega)]
  have e : q - (q - k) = k := by omega
  rw [e]

theorem occurs_at_iff {P T : List Nat} {o : Nat} :
    occurs_at P T o ↔ o + P.length ≤ T.length ∧ agree P T P.length o := by
  unfold occurs_at
  constructor
  · rintro ⟨hb, h⟩
    refine ⟨hb, (agree_iff_take (le_refl _) hb).2 ?_⟩
    rw [List.take_length, h]
  · rintro ⟨hb, h⟩
    refine ⟨hb, ?_⟩
    have := (agree_iff_take (le_refl _) hb).1 h
    rw [List.take_length] at this
    exact this.symm

theorem longest_border_of_max {P : List Nat} {i k : Nat} (hi : i < P.length)
    (h : MaxBorder P (i + 1) k) : longest_border P i k := by
  obtain ⟨hk, hb, hmax⟩ := h
  refine ⟨⟨hk, (suffix_iff_agree (by omega) (by omega)).2 hb⟩, ?_⟩
  rintro k' ⟨hk', hb'⟩
  exact hmax k' hk' ((suffix_iff_agree (by omega) (by omega)).1 hb')

/-! ## The scanner -/

/-- After `i++; j++` the matched prefix is one byte longer. -/
theorem ScanInv.advance {P T : List Nat} {i j : Nat} (h : ScanInv P T i j)
    (heq : P.getD j 0 = T.getD i 0) : agree P T (j + 1) (i + 1 - (j + 1)) := by
  have hji := h.hji
  have e : i + 1 - (j + 1) = i - j := by omega
  rw [e]
  apply agree_succ h.hag
  have e2 : i - j + j = i := by omega
  rw [e2]
  exact heq

/-- No occurrence starts at `i - j` when the byte after the matched prefix differs. -/
theorem no_occurrence_here {P T : List Nat} {i j : Nat} (hji : j ≤ i)
    (hjm : j < P.length) (hne : P.getD j 0 ≠ T.getD i 0) : ¬ occurs_at P T (i - j) := by
  intro hocc
  have h := (occurs_at_iff.1 hocc).2 j hjm
  have e : i - j + j = i := by omega
  rw [e] at h
  exact hne h

/-- Falling back from `j` matched bytes to the longest border `v` of the first `j`
pattern bytes keeps `v` bytes matched and skips no occurrence. -/
theorem fallback_sound {P T : List Nat} {i j v : Nat} (hji : j ≤ i)
    (hjm : j ≤ P.length) (hag : agree P T j (i - j)) (hv : MaxBorder P j v) :
    agree P T v (i - v) ∧ ∀ o, i - j < o → o < i - v → ¬ occurs_at P T o := by
  obtain ⟨hvj, hvb, hvmax⟩ := hv
  refine ⟨(agree_shift hji (by omega) hag).1 hvb, ?_⟩
  intro o ho1 ho2 hocc
  have hk0 : agree P T (i - o) o := agree_mono (occurs_at_iff.1 hocc).2 (by omega)
  have e : i - (i - o) = o := by omega
  have hk : agree P T (i - o) (i - (i - o)) := by
    rw [e]
    exact hk0
  have hb := (agree_shift (k := i - o) hji (by omega) hag).2 hk
  have := hvmax (i - o) (by omega) hb
  omega

/-- The branch `j = lps[j - 1]` after a mismatch. -/
theorem ScanInv.shift {P T L : List Nat} {i j : Nat} (hL : IsLps P L)
    (h : ScanInv P T i j) (hne : P.getD j 0 ≠ T.getD i 0) (hj : j ≠ 0) :
    ScanInv P T i (L.getD (j - 1) 0) ∧ L.getD (j - 1) 0 < j
      ∧ ∀ o, i - j ≤ o → o < i - L.getD (j - 1) 0 → ¬ occurs_at P T o := by
  have hji := h.hji
  have hjm := h.hjm
  have hmb := hL.2 j (by omega) (by omega)
  have hfs := fallback_sound hji (by omega) h.hag hmb
  have hv := hmb.1
  refine ⟨⟨by omega, h.hin, by omega, hfs.1⟩, hv, ?_⟩
  intro o ho1 ho2
  by_cases e : o = i - j
  · rw [e]
    exact no_occurrence_here hji hjm hne
  · exact hfs.2 o (by omega) ho2

/-- The branch `i++` after a mismatch with nothing matched. -/
theorem ScanInv.skip_byte {P T : List Nat} {i j : Nat} (h : ScanInv P T i j)
    (hi : i < T.length) (hne : P.getD j 0 ≠ T.getD i 0) (hj : j = 0) :
    ScanInv P T (i + 1) j ∧ ¬ occurs_at P T i := by
  subst hj
  refine ⟨⟨by omega, by omega, h.hjm, agree_zero _ _ _⟩, ?_⟩
  have := no_occurrence_here (Nat.zero_le i) h.hjm hne
  simpa using this

/-- The branch `j == m`: a full match ends at `i`, and the scan goes on from the
longest border of the pattern. -/
theorem accept_sound {P T L : List Nat} {i : Nat} (hL : IsLps P L)
    (hm : 0 < P.length) (hmi : P.length ≤ i) (hin : i ≤ T.length)
    (hag : agree P T P.length (i - P.length)) :
    occurs_at P T (i - P.length) ∧ ScanInv P T i (L.getD (P.length - 1) 0)
      ∧ ∀ o, i - P.length < o → o < i - L.getD (P.length - 1) 0 → ¬ occurs_at P T o := by
  have hmb := hL.2 P.length hm (le_refl _)
  have hfs := fallback_sound hmi (le_refl _) hag hmb
  have hv := hmb.1
  exact ⟨occurs_at_iff.2 ⟨by omega, hag⟩, ⟨by omega, hin, hv, hfs.1⟩, hfs.2⟩

theorem AccInv.empty (P T : List Nat) : AccInv P T 0 [] :=
  ⟨List.Pairwise.nil, fun x hx => absurd hx (List.not_mem_nil x),
    fun o ho => absurd ho (Nat.not_lt_zero o)⟩

/-- Moving the bound over a stretch without occurrences. -/
theorem AccInv.widen {P T : List Nat} {b c : Nat} {positions : List Int}
    (h : AccInv P T b positions) (hb : b ≤ c)
    (hno : ∀ o, b ≤ o → o < c → ¬ occurs_at P T o) : AccInv P T c positions := by
  refine ⟨h.sorted, ?_, ?_⟩
  · intro x hx
    obtain ⟨o, e, ho, hocc⟩ := h.sound x hx
    exact ⟨o, e, by omega, hocc⟩
  · intro o ho hocc
    by_cases hlt : o < b
    · exact h.complete o hlt hocc
    · exact absurd hocc (hno o (by omega) ho)

/-- Recording the occurrence at the bound. -/
theorem AccInv.push {P T : List Nat} {b : Nat} {positions : List Int}
    (h : AccInv P T b positions) (hocc : occurs_at P T b) :
    AccInv P T (b + 1) (positions ++ [(b : Int)]) := by
  refine ⟨?_, ?_, ?_⟩
  · rw [List.pairwise_append]
    refine ⟨h.sorted, List.pairwise_singleton _ _, ?_⟩
    intro x hx y hy
    obtain ⟨o, e, ho, _⟩ := h.sound x hx
    rw [List.mem_singleton] at hy
    rw [hy, e]
    omega
  · intro x hx
    rw [List.mem_append, List.mem_singleton] at hx
    rcases hx with hx | hx
    · obtain ⟨o, e, ho, hocc'⟩ := h.sound x hx
      exact ⟨o, e, by omega, hocc'⟩
    · exact ⟨b, hx, by omega, hocc⟩
  · intro o ho hocc'
    rw [List.mem_append, List.mem_singleton]
    by_cases hlt : o < b
    · exact Or.inl (h.complete o hlt hocc')
    · right
      have : o = b := by omega
      rw [this]

/-- At the end of the text every occurrence has been passed. -/
theorem AccInv.final {P T : List Nat} {i j : Nat} {positions : List Int}
    (h : ScanInv P T i j) (hi : ¬ i < T.length) (hacc : AccInv P T (i - j) positions) :
    AccInv P T (T.length + 1) positions := by
  have hin := h.hin
  have hjm := h.hjm
  have hji := h.hji
  apply hacc.widen (by omega)
  intro o ho1 _ hocc
  have := hocc.1
  omega

theorem mem_occurrences {P T : List Nat} {o : Nat} :
    o ∈ occurrences P T ↔ occurs_at P T o := by
  unfold occurrences
  rw [List.mem_filter, List.mem_range, decide_eq_true_iff]
  constructor
  · exact fun h => h.2
  · intro h
    have := h.1
    exact ⟨by omega, h⟩

theorem occurrences_sorted (P T : List Nat) :
    (occurrences P T).Pairwise (fun x y => x < y) :=
  (List.pairwise_lt_range (T.length + 1)).filter _

/-- A pattern that does not occur has an empty list of occurrences. -/
theorem occurrences_eq_nil {P T : List Nat} (hnone : ∀ o, ¬ occurs_at P T o) :
    occurrences P T = [] := by
  rcases List.eq_nil_or_concat (occurrences P T) with h | ⟨l, x, h⟩
  · exact h
  · have hx : x ∈ occurrences P T := by
      rw [h]
      simp
    exact absurd (mem_occurrences.1 hx) (hnone x)

/-- The recorded offsets are distinct occurrences, so there are at most as many of them
as there are occurrences. -/
theorem AccInv.count_le {P T : List Nat} {b : Nat} {positions : List Int}
    (h : AccInv P T b positions) : positions.length ≤ (occurrences P T).length := by
  have hsub : positions ⊆ (occurrences P T).map (fun o : Nat => (o : Int)) := by
    intro x hx
    obtain ⟨o, e, _, hocc⟩ := h.sound x hx
    exact List.mem_map.2 ⟨o, mem_occurrences.2 hocc, e.symm⟩
  have hnd : positions.Nodup := h.sorted.imp (fun hlt => ne_of_lt hlt)
  have := (List.subperm_of_subset hnd hsub).length_le
  rw [List.length_map] at this
  exact this

/-- The buffer never holds more than `MAX_CAPACITY` elements. -/
theorem CapInv.buffer_le {positions : List Int} {capacity : Int}
    (h : CapInv positions capacity) : positions.length ≤ MAX_CAPACITY := by
  obtain ⟨k, hk, hc, hlen⟩ := h
  have hpow := Nat.pow_le_pow_right (by norm_num : 0 < 2) hk
  have h27 : (2 : Nat) ^ 27 = 134217728 := by norm_num
  unfold MAX_CAPACITY
  omega

/-- The buffer of the initial `malloc`. -/
theorem CapInv.initial : CapInv [] 10 :=
  ⟨0, by omega, by norm_num, by simp⟩

/-- The capacity check of `kmp_search_all` (`src/kmp.c`, lines 117-128): either the
buffer is full at `MAX_CAPACITY` elements, the doubled capacity leaves the range of
`int` and `realloc` fails; or the store `positions[*count] = i - j` is in bounds. -/
theorem capacity_step {positions : List Int} {capacity : Int} (v : Int)
    (h : CapInv positions capacity) :
    (((positions.length : Int) ≥ capacity
        ∧ alloc_ok (positions_size
            (if (positions.length : Int) ≥ capacity then to_int (capacity * 2)
             else capacity)) = false)
      ∧ MAX_CAPACITY ≤ positions.length)
    ∨ (¬ ((positions.length : Int) ≥ capacity
        ∧ alloc_ok (positions_size
            (if (positions.length : Int) ≥ capacity then to_int (capacity * 2)
             else capacity)) = false)
      ∧ positions_write positions
          (if (positions.length : Int) ≥ capacity then to_int (capacity * 2)
           else capacity) v = Run.ret (positions ++ [v])
      ∧ CapInv (positions ++ [v])
          (if (positions.length : Int) ≥ capacity then to_int (capacity * 2)
           else capacity)) := by
  obtain ⟨k, hk, hc, hlen⟩ := h
  have hpow := Nat.pow_le_pow_right (by norm_num : 0 < 2) hk
  have hpos : 0 < 2 ^ k := Nat.two_pow_pos k
  have h27 : (2 : Nat) ^ 27 = 134217728 := by norm_num
  have hl1 : (positions ++ [v]).length = positions.length + 1 := by simp
  by_cases hfull : (positions.length : Int) ≥ capacity
  · by_cases hk27 : k = 27
    · left
      have hcv : capacity = 1342177280 := by
        rw [hc, hk27, h27]
        rfl
      refine ⟨⟨hfull, ?_⟩, by unfold MAX_CAPACITY; omega⟩
      rw [if_pos hfull, hcv]
      decide
    · right
      have hk26 : k ≤ 26 := by omega
      have hpow26 := Nat.pow_le_pow_right (by norm_num : 0 < 2) hk26
      have h26 : (2 : Nat) ^ 26 = 67108864 := by norm_num
      have hdbl : to_int (capacity * 2) = ((10 * 2 ^ (k + 1) : Nat) : Int) := by
        rw [hc, pow_succ]
        unfold to_int
        omega
      have hok : alloc_ok (positions_size (to_int (capacity * 2))) = true := by
        rw [hdbl]
        unfold positions_size
        rw [to_size_t_cast (by rw [pow_succ]; omega)]
        have hsmall : 10 * 2 ^ (k + 1) * sizeof_int < SIZE_MODULUS := by
          unfold sizeof_int SIZE_MODULUS
          rw [pow_succ]
          omega
        rw [Nat.mod_eq_of_lt hsmall]
        unfold alloc_ok sizeof_int PTRDIFF_MAX
        rw [decide_eq_true_iff, pow_succ]
        omega
      have hlt : (positions.length : Int) < to_int (capacity * 2) := by
        rw [hdbl, pow_succ]
        omega
      refine ⟨?_, ?_, ?_⟩
      · rw [if_pos hfull, hok]
        intro hcon
        exact absurd hcon.2 (by simp)
      · rw [if_pos hfull]
        simp only [positions_write, if_pos hlt]
      · rw [if_pos hfull]
        refine ⟨k + 1, by omega, hdbl, ?_⟩
        rw [hl1, hdbl, pow_succ]
        omega
  · right
    have hlt : (positions.length : Int) < capacity := by omega
    refine ⟨fun hcon => hfull hcon.1, ?_, ?_⟩
    · rw [if_neg hfull]
      simp only [positions_write, if_pos hlt]
    · rw [if_neg hfull]
      refine ⟨k, hk, hc, ?_⟩
      rw [hl1]
      omega

/-- Run of the loop of `kmp_search_all` from a state satisfying the invariants: no
access is out of bounds, the loop stops within `2 (n - i) + j` executions of the body,
and either the recorded offsets are exactly the occurrences, in ascending order, or
`realloc` failed, which happens only when there are more than `MAX_CAPACITY`
occurrences. -/
theorem search_all_loop_spec {P T L : List Nat} (hL : IsLps P L) :
    ∀ (fuel i j : Nat) (positions : List Int) (capacity : Int),
      ScanInv P T i j → AccInv P T (i - j) positions → CapInv positions capacity →
      (kmp_search_all_loop P L P.length T T.length fuel i j positions capacity
          = Run.timeout ∧ fuel < 2 * (T.length - i) + j)
      ∨ (∃ R, kmp_search_all_loop P L P.length T T.length fuel i j positions capacity
          = Run.ret (some R) ∧ AccInv P T (T.length + 1) R ∧ R.length ≤ MAX_CAPACITY)
      ∨ (kmp_search_all_loop P L P.length T T.length fuel i j positions capacity
          = Run.ret none ∧ MAX_CAPACITY < (occurrences P T).length) := by
  intro fuel
  induction fuel with
  | zero =>
    intro i j positions capacity h hacc hcap
    by_cases hi : i < T.length
    · left
      exact ⟨by simp only [kmp_search_all_loop, if_pos hi], by omega⟩
    · right
      left
      exact ⟨positions, by simp only [kmp_search_all_loop, if_neg hi], hacc.final h hi,
        hcap.buffer_le⟩
  | succ fuel ih =>
    intro i j positions capacity h hacc hcap
    have hji := h.hji
    have hin := h.hin
    have hjm := h.hjm
    have hLlen := hL.1
    by_cases hi : i < T.length
    · have hr1 : cstr_read P j = Run.ret (P.getD j 0) := cstr_read_ok (by omega)
      have hr2 : cstr_read T i = Run.ret (T.getD i 0) := cstr_read_ok (by omega)
      by_cases heq : P.getD j 0 = T.getD i 0
      · have hadv := h.advance heq
        by_cases hm : j + 1 = P.length
        · -- a full match ends at `i + 1`
          have hrd : arr_read L (((j + 1 : Nat) : Int) - 1)
              = Run.ret (L.getD (j + 1 - 1) 0) :=
            arr_read_pred (by omega) (by omega)
          have eoff : ((i + 1 : Nat) : Int) - ((j + 1 : Nat) : Int)
              = ((i + 1 - P.length : Nat) : Int) := by omega
          rw [hm] at hadv
          obtain ⟨hocc, hscan, hno⟩ :=
            accept_sound (i := i + 1) hL (by omega) (by omega) (by omega) hadv
          have hv := hscan.hjm
          have eb : i - j = i + 1 - P.length := by omega
          rw [eb] at hacc
          have hpush := hacc.push hocc
          rcases capacity_step (((i + 1 : Nat) : Int) - ((j + 1 : Nat) : Int)) hcap with
            ⟨hfail, hfull⟩ | ⟨hnf, hw, hcap1⟩
          · right
            right
            refine ⟨by simp only [kmp_search_all_loop, if_pos hi, hr1, hr2, Run.ret_bind,
              if_pos heq, if_pos hm, if_pos hfail], ?_⟩
            have hle := hpush.count_le
            rw [List.length_append, List.length_singleton] at hle
            omega
          · have hstep : kmp_search_all_loop P L P.length T T.length (fuel + 1) i j
                  positions capacity
                = kmp_search_all_loop P L P.length T T.length fuel (i + 1)
                    (L.getD (j + 1 - 1) 0)
                    (positions ++ [((i + 1 : Nat) : Int) - ((j + 1 : Nat) : Int)])
                    (if (positions.length : Int) ≥ capacity then to_int (capacity * 2)
                     else capacity) := by
              simp only [kmp_search_all_loop, if_pos hi, hr1, hr2, Run.ret_bind,
                if_pos heq, if_pos hm, if_neg hnf, hw, hrd]
            rw [hstep]
            rw [eoff]
            rw [eoff] at hcap1
            have e1 : j + 1 - 1 = P.length - 1 := by omega
            rw [e1]
            have hacc' := hpush.widen
              (c := i + 1 - L.getD (P.length - 1) 0) (by omega)
              (fun o ho1 ho2 => hno o (by omega) ho2)
            rcases ih _ _ _ _ hscan hacc' hcap1 with ⟨ht, hf⟩ | hok
            · left
              exact ⟨ht, by omega⟩
            · right
              exact hok
        · have hscan : ScanInv P T (i + 1) (j + 1) :=
            ⟨by omega, by omega, by omega, hadv⟩
          have eb : i - j = i + 1 - (j + 1) := by omega
          rw [eb] at hacc
          by_cases hi1 : i + 1 < T.length
          · have hr3 : cstr_read P (j + 1) = Run.ret (P.getD (j + 1) 0) :=
              cstr_read_ok (by omega)
            have hr4 : cstr_read T (i + 1) = Run.ret (T.getD (i + 1) 0) :=
              cstr_read_ok (by omega)
            by_cases hne : P.getD (j + 1) 0 ≠ T.getD (i + 1) 0
            · have hrd : arr_read L (((j + 1 : Nat) : Int) - 1)
                  = Run.ret (L.getD (j + 1 - 1) 0) :=
                arr_read_pred (by omega) (by omega)
              have hstep : kmp_search_all_loop P L P.length T T.length (fuel + 1) i j
                    positions capacity
                  = kmp_search_all_loop P L P.length T T.length fuel (i + 1)
                      (L.getD (j + 1 - 1) 0) positions capacity := by
                simp only [kmp_search_all_loop, if_pos hi, hr1, hr2, Run.ret_bind,
                  if_pos heq, if_neg hm, if_pos hi1, hr3, hr4, if_pos hne,
                  if_pos (Nat.succ_ne_zero j), hrd]
              rw [hstep]
              obtain ⟨hscan', hv, hno⟩ := hscan.shift hL hne (Nat.succ_ne_zero j)
              have hacc' := hacc.widen (c := i + 1 - L.getD (j + 1 - 1) 0) (by omega) hno
              rcases ih _ _ _ _ hscan' hacc' hcap with ⟨ht, hf⟩ | hok
              · left
                exact ⟨ht, by omega⟩
              · right
                exact hok
            · have hstep : kmp_search_all_loop P L P.length T T.length (fuel + 1) i j
                    positions capacity
                  = kmp_search_all_loop P L P.length T T.length fuel (i + 1) (j + 1)
                      positions capacity := by
                simp only [kmp_search_all_loop, if_pos hi, hr1, hr2, Run.ret_bind,
                  if_pos heq, if_neg hm, if_pos hi1, hr3, hr4, if_neg hne]
              rw [hstep]
              rcases ih _ _ _ _ hscan hacc hcap with ⟨ht, hf⟩ | hok
              · left
                exact ⟨ht, by omega⟩
              · right
                exact hok
          · have hstep : kmp_search_all_loop P L P.length T T.length (fuel + 1) i j
                  positions capacity
                = kmp_search_all_loop P L P.length T T.length fuel (i + 1) (j + 1)
                    positions capacity := by
              simp only [kmp_search_all_loop, if_pos hi, hr1, hr2, Run.ret_bind,
                if_pos heq, if_neg hm, if_neg hi1]
            rw [hstep]
            rcases ih _ _ _ _ hscan hacc hcap with ⟨ht, hf⟩ | hok
            · left
              exact ⟨ht, by omega⟩
            · right
              exact hok
      · have hjm' : ¬ j = P.length := by omega
        by_cases hj : j ≠ 0
        · have hrd : arr_read L ((j : Int) - 1) = Run.ret (L.getD (j - 1) 0) :=
            arr_read_pred (by omega) (by omega)
          have hstep : kmp_search_all_loop P L P.length T T.length (fuel + 1) i j
                positions capacity
              = kmp_search_all_loop P L P.length T T.length fuel i (L.getD (j - 1) 0)
                  positions capacity := by
            simp only [kmp_search_all_loop, if_pos hi, hr1, hr2, Run.ret_bind,
              if_neg heq, if_neg hjm', if_pos (show P.getD j 0 ≠ T.getD i 0 from heq),
              if_pos hj, hrd]
          rw [hstep]
          obtain ⟨hscan', hv, hno⟩ := h.shift hL heq hj
          have hacc' := hacc.widen (c := i - L.getD (j - 1) 0) (by omega) hno
          rcases ih _ _ _ _ hscan' hacc' hcap with ⟨ht, hf⟩ | hok
          · left
            exact ⟨ht, by omega⟩
          · right
            exact hok
        · have hj0 : j = 0 := by omega
          have hstep : kmp_search_all_loop P L P.length T T.length (fuel + 1) i j
                positions capacity
              = kmp_search_all_loop P L P.length T T.length fuel (i + 1) j
                  positions capacity := by
            simp only [kmp_search_all_loop, if_pos hi, hr1, hr2, Run.ret_bind,
              if_neg heq, if_neg hjm', if_pos (show P.getD j 0 ≠ T.getD i 0 from heq),
              if_neg hj]
          rw [hstep]
          obtain ⟨hscan', hno⟩ := h.skip_byte hi heq hj0
          have hacc' := hacc.widen (c := i + 1 - j) (by omega)
            (fun o ho1 ho2 => by
              have e : o = i := by omega
              rw [e]
              exact hno)
          rcases ih _ _ _ _ hscan' hacc' hcap with ⟨ht, hf⟩ | hok
          · left
            exact ⟨ht, by omega⟩
          · right
            exact hok
    · right
      left
      exact ⟨positions, by simp only [kmp_search_all_loop, if_neg hi], hacc.final h hi,
        hcap.buffer_le⟩

/-- Run of the loop of `kmp_search` from a state satisfying the invariant, no occurrence
starting before `i - j`: no access is out of bounds, the loop stops within
`2 (n - i) + j` executions of the body, and the value returned is the leftmost
occurrence, or `-1` when there is none. -/
theorem search_loop_spec {P T L : List Nat} (hL : IsLps P L) :
    ∀ (fuel i j : Nat), ScanInv P T i j → (∀ o, o < i - j → ¬ occurs_at P T o) →
      (kmp_search_loop P L P.length T T.length fuel i j = Run.timeout
          ∧ fuel < 2 * (T.length - i) + j)
      ∨ (∃ o : Nat, kmp_search_loop P L P.length T T.length fuel i j = Run.ret (o : Int)
          ∧ first_occurrence P T o)
      ∨ (kmp_search_loop P L P.length T T.length fuel i j = Run.ret (-1)
          ∧ ∀ o, ¬ occurs_at P T o) := by
  intro fuel
  induction fuel with
  | zero =>
    intro i j h hno
    have hji := h.hji
    have hin := h.hin
    have hjm := h.hjm
    by_cases hi : i < T.length
    · left
      exact ⟨by simp only [kmp_search_loop, if_pos hi], by omega⟩
    · right
      right
      refine ⟨by simp only [kmp_search_loop, if_neg hi], ?_⟩
      intro o hocc
      have := hocc.1
      exact hno o (by omega) hocc
  | succ fuel ih =>
    intro i j h hno
    have hji := h.hji
    have hin := h.hin
    have hjm := h.hjm
    have hLlen := hL.1
    by_cases hi : i < T.length
    · have hr1 : cstr_read P j = Run.ret (P.getD j 0) := cstr_read_ok (by omega)
      have hr2 : cstr_read T i = Run.ret (T.getD i 0) := cstr_read_ok (by omega)
      by_cases heq : P.getD j 0 = T.getD i 0
      · have hadv := h.advance heq
        by_cases hm : j + 1 = P.length
        · -- a full match ends at `i + 1`
          have hstep : kmp_search_loop P L P.length T T.length (fuel + 1) i j
              = Run.ret (((i + 1 : Nat) : Int) - ((j + 1 : Nat) : Int)) := by
            simp only [kmp_search_loop, if_pos hi, hr1, hr2, Run.ret_bind,
              if_pos heq, if_pos hm]
          have eoff : ((i + 1 : Nat) : Int) - ((j + 1 : Nat) : Int)
              = ((i - j : Nat) : Int) := by omega
          rw [eoff] at hstep
          rw [hm] at hadv
          have eb : i + 1 - P.length = i - j := by omega
          rw [eb] at hadv
          right
          left
          exact ⟨i - j, hstep, occurs_at_iff.2 ⟨by omega, hadv⟩, hno⟩
        · have hscan : ScanInv P T (i + 1) (j + 1) :=
            ⟨by omega, by omega, by omega, hadv⟩
          have eb : i - j = i + 1 - (j + 1) := by omega
          rw [eb] at hno
          by_cases hi1 : i + 1 < T.length
          · have hr3 : cstr_read P (j + 1) = Run.ret (P.getD (j + 1) 0) :=
              cstr_read_ok (by omega)
            have hr4 : cstr_read T (i + 1) = Run.ret (T.getD (i + 1) 0) :=
              cstr_read_ok (by omega)
            by_cases hne : P.getD (j + 1) 0 ≠ T.getD (i + 1) 0
            · have hrd : arr_read L (((j + 1 : Nat) : Int) - 1)
                  = Run.ret (L.getD (j + 1 - 1) 0) :=
                arr_read_pred (by omega) (by omega)
              have hstep : kmp_search_loop P L P.length T T.length (fuel + 1) i j
                  = kmp_search_loop P L P.length T T.length fuel (i + 1)
                      (L.getD (j + 1 - 1) 0) := by
                simp only [kmp_search_loop, if_pos hi, hr1, hr2, Run.ret_bind,
                  if_pos heq, if_neg hm, if_pos hi1, hr3, hr4, if_pos hne,
                  if_pos (Nat.succ_ne_zero j), hrd]
              rw [hstep]
              obtain ⟨hscan', hv, hno'⟩ := hscan.shift hL hne (Nat.succ_ne_zero j)
              have hno2 : ∀ o, o < i + 1 - L.getD (j + 1 - 1) 0 → ¬ occurs_at P T o := by
                intro o ho
                by_cases hlt : o < i + 1 - (j + 1)
                · exact hno o hlt
                · exact hno' o (by omega) ho
              rcases ih _ _ hscan' hno2 with ⟨ht, hf⟩ | hok
              · left
                exact ⟨ht, by omega⟩
              · right
                exact hok
            · have hstep : kmp_search_loop P L P.length T T.length (fuel + 1) i j
                  = kmp_search_loop P L P.length T T.length fuel (i + 1) (j + 1) := by
                simp only [kmp_search_loop, if_pos hi, hr1, hr2, Run.ret_bind,
                  if_pos heq, if_neg hm, if_pos hi1, hr3, hr4, if_neg hne]
              rw [hstep]
              rcases ih _ _ hscan hno with ⟨ht, hf⟩ | hok
              · left
                exact ⟨ht, by omega⟩
              · right
                exact hok
          · have hstep : kmp_search_loop P L P.length T T.length (fuel + 1) i j
                = kmp_search_loop P L P.length T T.length fuel (i + 1) (j + 1) := by
              simp only [kmp_search_loop, if_pos hi, hr1, hr2, Run.ret_bind,
                if_pos heq, if_neg hm, if_neg hi1]
            rw [hstep]
            rcases ih _ _ hscan hno with ⟨ht, hf⟩ | hok
            · left
              exact ⟨ht, by omega⟩
            · right
              exact hok
      · have hjm' : ¬ j = P.length := by omega
        by_cases hj : j ≠ 0
        · have hrd : arr_read L ((j : Int) - 1) = Run.ret (L.getD (j - 1) 0) :=
            arr_read_pred (by omega) (by omega)
          have hstep : kmp_search_loop P L P.length T T.length (fuel + 1) i j
              = kmp_search_loop P L P.length T T.length fuel i (L.getD (j - 1) 0) := by
            simp only [kmp_search_loop, if_pos hi, hr1, hr2, Run.ret_bind,
              if_neg heq, if_neg hjm', if_pos (show P.getD j 0 ≠ T.getD i 0 from heq),
              if_pos hj, hrd]
          rw [hstep]
          obtain ⟨hscan', hv, hno'⟩ := h.shift hL heq hj
          have hno2 : ∀ o, o < i - L.getD (j - 1) 0 → ¬ occurs_at P T o := by
            intro o ho
            by_cases hlt : o < i - j
            · exact hno o hlt
            · exact hno' o (by omega) ho
          rcases ih _ _ hscan' hno2 with ⟨ht, hf⟩ | hok
          · left
            exact ⟨ht, by omega⟩
          · right
            exact hok
        · have hj0 : j = 0 := by omega
          have hstep : kmp_search_loop P L P.length T T.length (fuel + 1) i j
              = kmp_search_loop P L P.length T T.length fuel (i + 1) j := by
            simp only [kmp_search_loop, if_pos hi, hr1, hr2, Run.ret_bind,
              if_neg heq, if_neg hjm', if_pos (show P.getD j 0 ≠ T.getD i 0 from heq),
              if_neg hj]
          rw [hstep]
          obtain ⟨hscan', hno'⟩ := h.skip_byte hi heq hj0
          have hno2 : ∀ o, o < i + 1 - j → ¬ occurs_at P T o := by
            intro o ho
            by_cases hlt : o < i - j
            · exact hno o hlt
            · have e : o = i := by omega
              rw [e]
              exact hno'
          rcases ih _ _ hscan' hno2 with ⟨ht, hf⟩ | hok
          · left
            exact ⟨ht, by omega⟩
          · right
            exact hok
    · right
      right
      refine ⟨by simp only [kmp_search_loop, if_neg hi], ?_⟩
      intro o hocc
      have := hocc.1
      exact hno o (by omega) hocc

/-! ## The loops as iterations of their bodies -/

theorem Run.bind_assoc {α β γ : Type} (x : Run α) (f : α → Run β) (g : β → Run γ) :
    ((x >>= f) >>= g) = (x >>= fun a => f a >>= g) := by
  cases x <;> rfl

theorem Run.ite_bind {α β : Type} (c : Prop) [Decidable c] (x y : Run α)
    (g : α → Run β) :
    ((if c then x else y) >>= g) = if c then x >>= g else y >>= g := by
  by_cases h : c
  · rw [if_pos h, if_pos h]
  · rw [if_neg h, if_neg h]

/-- The loop of `kmp_search` is the iteration of `kmp_search_body`. -/
theorem kmp_search_loop_unfold (pattern lps : List Nat) (m : Nat) (text : List Nat)
    (n fuel i j : Nat) :
    kmp_search_loop pattern lps m text n (fuel + 1) i j
      = if i < n then
          kmp_search_body pattern lps m text n i j >>= fun s =>
            match s with
            | .next i1 j1 => kmp_search_loop pattern lps m text n fuel i1 j1
            | .done r => Run.ret r
        else Run.ret (-1) := by
  by_cases hi : i < n
  · simp only [kmp_search_loop, kmp_search_body, if_pos hi, Run.bind_assoc, Run.ite_bind,
      Run.ret_bind]
  · simp only [kmp_search_loop, if_neg hi]

/-- The loop of `kmp_search_all` is the iteration of `kmp_search_all_body`. -/
theorem kmp_search_all_loop_unfold (pattern lps : List Nat) (m : Nat) (text : List Nat)
    (n fuel : Nat) (s : ScanAllState) :
    kmp_search_all_loop pattern lps m text n (fuel + 1) s.i s.j s.positions s.capacity
      = if s.i < n then
          kmp_search_all_body pattern lps m text n s >>= fun r =>
            match r with
            | none => Run.ret none
            | some s1 =>
              kmp_search_all_loop pattern lps m text n fuel s1.i s1.j s1.positions
                s1.capacity
        else Run.ret (some s.positions) := by
  by_cases hi : s.i < n
  · simp only [kmp_search_all_loop, kmp_search_all_body, if_pos hi, Run.bind_assoc,
      Run.ite_bind, Run.ret_bind]
  · simp only [kmp_search_all_loop, if_neg hi]

/-! ## A scan bounded by `n` reads the first `n` bytes of the text only -/

/-- Below `n`, a read in the first `n` bytes of the text is a read in the text. -/
theorem cstr_read_take {T : List Nat} {n i : Nat} (hn : n ≤ T.length) (hi : i < n) :
    cstr_read (T.take n) i = cstr_read T i := by
  have h1 : i ≤ (T.take n).length := by
    rw [List.length_take]
    omega
  have h2 : i ≤ T.length := by omega
  have hg : (T.take n).getD i 0 = T.getD i 0 := by
    rw [List.getD_eq_getElem?_getD, List.getD_eq_getElem?_getD, List.getElem?_take,
      if_pos hi]
  simp only [cstr_read, if_pos h1, if_pos h2, hg]

/-- The body of the loop of `kmp_search` run with the bound `n` reads the text below
`n` only. -/
theorem kmp_search_body_take (P L : List Nat) (m : Nat) {T : List Nat} {n i : Nat}
    (j : Nat) (hn : n ≤ T.length) (hi : i < n) :
    kmp_search_body P L m (T.take n) n i j = kmp_search_body P L m T n i j := by
  simp only [kmp_search_body, cstr_read_take hn hi]
  cases cstr_read P j with
  | oob => rfl
  | timeout => rfl
  | ret pj =>
    cases cstr_read T i with
    | oob => rfl
    | timeout => rfl
    | ret ti =>
      simp only [Run.ret_bind]
      by_cases heq : pj = ti
      · simp only [if_pos heq]
        by_cases h1 : i + 1 < n
        · simp only [if_pos h1, cstr_read_take hn h1]
        · simp only [if_neg h1]
      · simp only [if_neg heq, if_pos hi, cstr_read_take hn hi]

/-- The body of the loop of `kmp_search_all` run with the bound `n` reads the text
below `n` only. -/
theorem kmp_search_all_body_take (P L : List Nat) (m : Nat) {T : List Nat} {n : Nat}
    (s : ScanAllState) (hn : n ≤ T.length) (hi : s.i < n) :
    kmp_search_all_body P L m (T.take n) n s = kmp_search_all_body P L m T n s := by
  simp only [kmp_search_all_body, cstr_read_take hn hi]
  cases cstr_read P s.j with
  | oob => rfl
  | timeout => rfl
  | ret pj =>
    cases cstr_read T s.i with
    | oob => rfl
    | timeout => rfl
    | ret ti =>
      simp only [Run.ret_bind]
      by_cases heq : pj = ti
      · simp only [if_pos heq]
        by_cases h1 : s.i + 1 < n
        · simp only [if_pos h1, cstr_read_take hn h1]
        · simp only [if_neg h1]
      · simp only [if_neg heq, if_pos hi, cstr_read_take hn hi]

/-- The loop of `kmp_search` run with the bound `n` is the loop run on the first `n`
bytes of the text. -/
theorem kmp_search_loop_take (P L : List Nat) (m : Nat) {T : List Nat} {n : Nat}
    (hn : n ≤ T.length) :
    ∀ fuel i j, kmp_search_loop P L m (T.take n) n fuel i j
      = kmp_search_loop P L m T n fuel i j := by
  intro fuel
  induction fuel with
  | zero =>
    intro i j
    simp only [kmp_search_loop]
  | succ fuel ih =>
    intro i j
    rw [kmp_search_loop_unfold, kmp_search_loop_unfold]
    by_cases hi : i < n
    · rw [if_pos hi, if_pos hi, kmp_search_body_take P L m j hn hi]
      congr 1
      funext st
      cases st with
      | next i1 j1 => exact ih i1 j1
      | done r => rfl
    · rw [if_neg hi, if_neg hi]

/-- The loop of `kmp_search_all` run with the bound `n` is the loop run on the first
`n` bytes of the text. -/
theorem kmp_search_all_loop_take (P L : List Nat) (m : Nat) {T : List Nat} {n : Nat}
    (hn : n ≤ T.length) :
    ∀ fuel i j positions capacity,
      kmp_search_all_loop P L m (T.take n) n fuel i j positions capacity
        = kmp_search_all_loop P L m T n fuel i j positions capacity := by
  intro fuel
  induction fuel with
  | zero =>
    intro i j positions capacity
    simp only [kmp_search_all_loop]
  | succ fuel ih =>
    intro i j positions capacity
    have h1 := kmp_search_all_loop_unfold P L m (T.take n) n fuel
      { i := i, j := j, positions := positions, capacity := capacity }
    have h2 := kmp_search_all_loop_unfold P L m T n fuel
      { i := i, j := j, positions := positions, capacity := capacity }
    simp only at h1 h2
    rw [h1, h2]
    by_cases hi : i < n
    · rw [if_pos hi, if_pos hi, kmp_search_all_body_take P L m _ hn hi]
      congr 1
      funext r
      cases r with
      | none => rfl
      | some s1 => exact ih s1.i s1.j s1.positions s1.capacity
    · rw [if_neg hi, if_neg hi]

/-- The states of `kmp_search` run with the bound `n` are those of the run on the
first `n` bytes of the text. -/
theorem kmp_search_states_take (P L : List Nat) (m : Nat) {T : List Nat} {n : Nat}
    (hn : n ≤ T.length) :
    ∀ k i j, kmp_search_states P L m (T.take n) n k i j
      = kmp_search_states P L m T n k i j := by
  intro k
  induction k with
  | zero =>
    intro i j
    rfl
  | succ k ih =>
    intro i j
    by_cases hi : i < n
    · simp only [kmp_search_states, if_pos hi, kmp_search_body_take P L m j hn hi]
      cases kmp_search_body P L m T n i j with
      | oob => rfl
      | timeout => rfl
      | ret st =>
        cases st with
        | next i1 j1 => simp only [ih i1 j1]
        | done r => rfl
    · simp only [kmp_search_states, if_neg hi]

/-- The states of `kmp_search_all` run with the bound `n` are those of the run on the
first `n` bytes of the text. -/
theorem kmp_search_all_states_take (P L : List Nat) (m : Nat) {T : List Nat} {n : Nat}
    (hn : n ≤ T.length) :
    ∀ k s, kmp_search_all_states P L m (T.take n) n k s
      = kmp_search_all_states P L m T n k s := by
  intro k
  induction k with
  | zero =>
    intro s
    rfl
  | succ k ih =>
    intro s
    by_cases hi : s.i < n
    · simp only [kmp_search_all_states, if_pos hi, kmp_search_all_body_take P L m s hn hi]
      cases kmp_search_all_body P L m T n s with
      | oob => rfl
      | timeout => rfl
      | ret r =>
        cases r with
        | none => rfl
        | some s1 => simp only [ih s1]
    · simp only [kmp_search_all_states, if_neg hi]

/-- An occurrence in the first `n` bytes of the text is an occurrence in the text. -/
theorem occurs_at_of_take {P T : List Nat} {n o : Nat} (h : occurs_at P (T.take n) o) :
    occurs_at P T o := by
  obtain ⟨h1, h2⟩ := h
  rw [List.length_take] at h1
  refine ⟨by omega, ?_⟩
  have e : (T.drop o).take P.length = ((T.take n).drop o).take P.length := by
    rw [List.drop_take, List.take_take, Nat.min_eq_left (by omega)]
  rw [e]
  exact h2

/-! ## The entry points on a matcher built by `kmp_create` -/

theorem ScanInv.at_start {P T : List Nat} (hP : 0 < P.length) : ScanInv P T 0 0 :=
  ⟨le_refl _, Nat.zero_le _, hP, agree_zero _ _ _⟩

/-- A call of `kmp_search_all` with a text that is `NULL` or not ASCII. -/
theorem kmp_search_all_reject (fuel : Nat) (matcher : Option KMPMatcher)
    (text : Option (List Nat)) (c0 : Int) (h : is_ascii_string text = false) :
    kmp_search_all fuel matcher text (some c0)
      = Run.ret { positions := none, count := some 0 } := by
  cases matcher with
  | none => cases text <;> rfl
  | some mt =>
    cases text with
    | none => rfl
    | some t =>
      simp only [kmp_search_all, h, Bool.not_false, if_true]
      split <;> rfl

/-- A call of `kmp_search` with a text that is `NULL` or not ASCII. -/
theorem kmp_search_reject (fuel : Nat) (matcher : Option KMPMatcher)
    (text : Option (List Nat)) (h : is_ascii_string text = false) :
    kmp_search fuel matcher text = Run.ret (-1) := by
  cases matcher with
  | none => cases text <;> rfl
  | some mt =>
    cases text with
    | none => rfl
    | some t =>
      simp only [kmp_search, h, Bool.not_false, if_true]
      split <;> rfl

/-- The wrapping of the result of the loop of `kmp_search_all` (`src/kmp.c`, lines
120-124 and 140-146) into the returned pointer and `*count`. -/
theorem kmp_search_all_run {fc : Nat} {P : List Nat} {M : KMPMatcher}
    (hM : kmp_create fc (some P) = Run.ret (some M)) (T : List Nat) (c0 : Int)
    (fuel : Nat) (hascii : is_ascii_loop T = true) :
    kmp_search_all fuel (some M) (some T) (some c0)
      = (kmp_search_all_loop P M.lps P.length T (strlen_int T).toNat fuel 0 0 [] 10
          >>= fun r =>
            match r with
            | none => Run.ret { positions := none, count := some 0 }
            | some positions =>
              if positions.length = 0 then
                Run.ret { positions := none, count := some 0 }
              else
                Run.ret { positions := some positions,
                          count := some (positions.length : Int) }) := by
  obtain ⟨hP, _, hpat, hlen, hcomp, hL⟩ := kmp_create_built hM
  simp only [kmp_search_all, hcomp, is_ascii_string, hascii, hpat, hlen, alloc_ok_initial,
    Bool.not_true, Bool.false_eq_true, if_false]

/-- A call of `kmp_search_all` on a built matcher, an ASCII text and a present `count`,
seen on the part of the text it scans, the first `n` bytes with `int n = strlen(text)`:
with fuel `2 n` it returns, and either the offsets it reports are exactly the
occurrences of the pattern in that part, in ascending order, or it reports nothing
because `realloc` failed, that part holding more than `MAX_CAPACITY` occurrences. -/
theorem kmp_search_all_prefix {fc : Nat} {P : List Nat} {M : KMPMatcher}
    (hM : kmp_create fc (some P) = Run.ret (some M)) (T : List Nat) (c0 : Int)
    (fuel : Nat) (hfuel : 2 * (strlen_int T).toNat ≤ fuel)
    (hascii : is_ascii_loop T = true) :
    ∃ r, kmp_search_all fuel (some M) (some T) (some c0) = Run.ret r
      ∧ ((AccInv P (T.take (strlen_int T).toNat) ((strlen_int T).toNat + 1) r.offsets
          ∧ r.offsets.length ≤ MAX_CAPACITY
          ∧ r.count = some (r.offsets.length : Int)
          ∧ (r.positions = none ↔ r.offsets = []))
        ∨ (r = { positions := none, count := some 0 }
          ∧ MAX_CAPACITY < (occurrences P (T.take (strlen_int T).toNat)).length)) := by
  obtain ⟨hP, _, hpat, hlen, hcomp, hL⟩ := kmp_create_built hM
  have hn := strlen_int_toNat_le T
  have hlt : (T.take (strlen_int T).toNat).length = (strlen_int T).toNat :=
    List.length_take_of_le hn
  have hacc0 : AccInv P (T.take (strlen_int T).toNat) (0 - 0) [] := AccInv.empty P _
  have hspec := search_all_loop_spec (T := T.take (strlen_int T).toNat) hL fuel 0 0 [] 10
    (ScanInv.at_start hP) hacc0 CapInv.initial
  rw [hlt, kmp_search_all_loop_take P M.lps P.length hn] at hspec
  rw [kmp_search_all_run hM T c0 fuel hascii]
  rcases hspec with ⟨_, hf⟩ | ⟨R, hR, hacc, hmax⟩ | ⟨hR, hmany⟩
  · omega
  · rw [hR, Run.ret_bind]
    by_cases h0 : R.length = 0
    · have hnil : R = [] := List.length_eq_zero.1 h0
      subst hnil
      refine ⟨{ positions := none, count := some 0 }, by simp only [if_pos h0],
        Or.inl ⟨hacc, by simp [SearchAll.offsets], rfl, ?_⟩⟩
      simp [SearchAll.offsets]
    · have hne : R ≠ [] := fun e => h0 (by rw [e]; rfl)
      refine ⟨{ positions := some R, count := some (R.length : Int) },
        by simp only [if_neg h0], Or.inl ⟨hacc, hmax, rfl, ?_⟩⟩
      simp [SearchAll.offsets, hne]
  · rw [hR, Run.ret_bind]
    exact ⟨{ positions := none, count := some 0 }, rfl, Or.inr ⟨rfl, hmany⟩⟩

/-- A call of `kmp_search_all` on a built matcher, an ASCII text shorter than `2^31`
bytes with at most `MAX_CAPACITY` occurrences of the pattern, and a present `count`:
with fuel `2 n` it returns, and the offsets it reports are exactly the occurrences of
the pattern, in ascending order. -/
theorem kmp_search_all_spec {fc : Nat} {P : List Nat} {M : KMPMatcher}
    (hM : kmp_create fc (some P) = Run.ret (some M)) (T : List Nat) (c0 : Int)
    (fuel : Nat) (hfuel : 2 * T.length ≤ fuel) (hascii : is_ascii_loop T = true)
    (hlen : T.length < 2147483648) (hocc : (occurrences P T).length ≤ MAX_CAPACITY) :
    ∃ r, kmp_search_all fuel (some M) (some T) (some c0) = Run.ret r
      ∧ AccInv P T (T.length + 1) r.offsets
      ∧ r.count = some (r.offsets.length : Int)
      ∧ (r.positions = none ↔ r.offsets = []) := by
  have hn : (strlen_int T).toNat = T.length := strlen_int_toNat_eq hlen
  obtain ⟨r, hr, h⟩ := kmp_search_all_prefix hM T c0 fuel (by omega) hascii
  rw [hn, List.take_length] at h
  rcases h with ⟨hacc, _, hcount, hnone⟩ | ⟨_, hmany⟩
  · exact ⟨r, hr, hacc, hcount, hnone⟩
  · omega

/-- A call of `kmp_search_all` on a built matcher with any text and any `count`
pointer: with fuel `2 n` it returns, and the offsets it reports are occurrences of the
pattern in the text, in strictly ascending order. -/
theorem kmp_search_all_any {fc : Nat} {P : List Nat} {M : KMPMatcher}
    (hM : kmp_create fc (some P) = Run.ret (some M)) (text : Option (List Nat))
    (count : Option Int) (fuel : Nat) (hfuel : 2 * (text.getD []).length ≤ fuel) :
    ∃ r, kmp_search_all fuel (some M) text count = Run.ret r
      ∧ (r.offsets = [] ∨ ∃ T, text = some T
          ∧ r.offsets.Pairwise (fun x y => x < y)
          ∧ ∀ x ∈ r.offsets, ∃ o : Nat, x = (o : Int) ∧ occurs_at P T o) := by
  cases count with
  | none => cases text <;> exact ⟨_, rfl, Or.inl rfl⟩
  | some c0 =>
    by_cases ha : is_ascii_string text = true
    · cases text with
      | none => exact absurd ha (by simp [is_ascii_string])
      | some T =>
        have hn := strlen_int_toNat_le T
        simp only [Option.getD_some] at hfuel
        obtain ⟨r, hr, h⟩ := kmp_search_all_prefix hM T c0 fuel (by omega) ha
        rcases h with ⟨hacc, _, _, _⟩ | ⟨hnone, _⟩
        · refine ⟨r, hr, Or.inr ⟨T, rfl, hacc.sorted, ?_⟩⟩
          intro x hx
          obtain ⟨o, e, _, hocc⟩ := hacc.sound x hx
          exact ⟨o, e, occurs_at_of_take hocc⟩
        · refine ⟨r, hr, Or.inl ?_⟩
          rw [hnone]
          rfl
    · have ha' : is_ascii_string text = false := by simpa using ha
      exact ⟨_, kmp_search_all_reject fuel (some M) text c0 ha', Or.inl rfl⟩

/-- What `kmp_search` does on a built matcher and an ASCII text: it runs the loop with
the bound `int n = strlen(text)`. -/
theorem kmp_search_run {fc : Nat} {P : List Nat} {M : KMPMatcher}
    (hM : kmp_create fc (some P) = Run.ret (some M)) (T : List Nat)
    (fuel : Nat) (hascii : is_ascii_loop T = true) :
    kmp_search fuel (some M) (some T)
      = kmp_search_loop P M.lps P.length T (strlen_int T).toNat fuel 0 0 := by
  obtain ⟨hP, _, hpat, hlen, hcomp, hL⟩ := kmp_create_built hM
  simp only [kmp_search, hcomp, is_ascii_string, hascii, hpat, hlen]
  rfl

/-- A call of `kmp_search` on a built matcher and an ASCII text, seen on the part of
the text it scans, the first `n` bytes with `int n = strlen(text)`: with fuel `2 n` it
returns the leftmost occurrence in that part, or `-1` when there is none. -/
theorem kmp_search_prefix {fc : Nat} {P : List Nat} {M : KMPMatcher}
    (hM : kmp_create fc (some P) = Run.ret (some M)) (T : List Nat)
    (fuel : Nat) (hfuel : 2 * (strlen_int T).toNat ≤ fuel)
    (hascii : is_ascii_loop T = true) :
    (∃ o : Nat, kmp_search fuel (some M) (some T) = Run.ret (o : Int)
        ∧ first_occurrence P (T.take (strlen_int T).toNat) o)
    ∨ (kmp_search fuel (some M) (some T) = Run.ret (-1)
        ∧ ∀ o, ¬ occurs_at P (T.take (strlen_int T).toNat) o) := by
  obtain ⟨hP, _, hpat, hlen, hcomp, hL⟩ := kmp_create_built hM
  have hn := strlen_int_toNat_le T
  have hlt : (T.take (strlen_int T).toNat).length = (strlen_int T).toNat :=
    List.length_take_of_le hn
  have hspec := search_loop_spec (T := T.take (strlen_int T).toNat) hL fuel 0 0
    (ScanInv.at_start hP) (fun o ho => absurd ho (Nat.not_lt_zero o))
  rw [hlt, kmp_search_loop_take P M.lps P.length hn] at hspec
  rw [kmp_search_run hM T fuel hascii]
  rcases hspec with ⟨_, hf⟩ | hok
  · omega
  · exact hok

/-- A call of `kmp_search` on a built matcher and an ASCII text shorter than `2^31`
bytes: with fuel `2 n` it returns the leftmost occurrence, or `-1` when there is
none. -/
theorem kmp_search_spec {fc : Nat} {P : List Nat} {M : KMPMatcher}
    (hM : kmp_create fc (some P) = Run.ret (some M)) (T : List Nat)
    (fuel : Nat) (hfuel : 2 * T.length ≤ fuel) (hascii : is_ascii_loop T = true)
    (hlen : T.length < 2147483648) :
    (∃ o : Nat, kmp_search fuel (some M) (some T) = Run.ret (o : Int)
        ∧ first_occurrence P T o)
    ∨ (kmp_search fuel (some M) (some T) = Run.ret (-1) ∧ ∀ o, ¬ occurs_at P T o) := by
  have hn : (strlen_int T).toNat = T.length := strlen_int_toNat_eq hlen
  have h := kmp_search_prefix hM T fuel (by omega) hascii
  rw [hn, List.take_length] at h
  exact h

theorem getElem_opt_eq_some_getD {L : List Nat} {i : Nat} (h : i < L.length) :
    L[i]? = some (L.getD i 0) := by
  rw [List.getD_eq_getElem _ _ h]
  exact List.getElem?_eq_getElem h

theorem is_ascii_loop_eq_false_iff (s : List Nat) :
    is_ascii_loop s = false ↔ ∃ b ∈ s, 127 < b := by
  constructor
  · intro h
    by_contra hc
    have hall : ∀ b ∈ s, b ≤ 127 := by
      intro b hb
      by_contra hgt
      exact hc ⟨b, hb, by omega⟩
    rw [(is_ascii_loop_iff s).2 hall] at h
    exact absurd h (by simp)
  · rintro ⟨b, hb, hgt⟩
    by_contra hc
    have ht : is_ascii_loop s = true := by simpa using hc
    have := (is_ascii_loop_iff s).1 ht b hb
    omega

theorem is_ascii_string_eq_false_iff (text : Option (List Nat)) :
    is_ascii_string text = false ↔ text = none ∨ ∃ T, text = some T ∧ ∃ b ∈ T, 127 < b := by
  cases text with
  | none => simp [is_ascii_string]
  | some T => simp [is_ascii_string, is_ascii_loop_eq_false_iff]

theorem length_pos_of_ne_nil {P : List Nat} (hP : P ≠ []) : 0 < P.length :=
  List.length_pos.2 hP

/-! ## Long inputs made of one byte -/

/-- A string of bytes `'A'` is ASCII. -/
theorem replicate_ascii (n : Nat) : ∀ b ∈ List.replicate n 65, b ≤ 127 := by
  intro b hb
  rw [List.eq_of_mem_replicate hb]
  norm_num

/-- The pattern `"A"` stands at the start of a non-empty string of bytes `'A'`. -/
theorem replicate_occurs_at_zero {n : Nat} (h : 1 ≤ n) :
    ((List.replicate n 65).drop 0).take ([65] : List Nat).length = [65] := by
  rw [List.drop_zero, List.length_singleton, List.take_replicate, Nat.min_eq_left h]
  rfl

/-- The pattern `"A"` stands at every offset of a string of bytes `'A'`. -/
theorem replicate_occurs_at {n o : Nat} (h : o < n) :
    occurs_at [65] (List.replicate n 65) o := by
  refine ⟨?_, ?_⟩
  · rw [List.length_replicate, List.length_singleton]
    omega
  · rw [List.drop_replicate, List.length_singleton, List.take_replicate,
      Nat.min_eq_left (by omega)]
    rfl

/-- In a string of `n` bytes `'A'` the pattern `"A"` occurs at least `n` times. -/
theorem replicate_occurrences_length (n : Nat) :
    n ≤ (occurrences [65] (List.replicate n 65)).length := by
  have hsub : List.range n ⊆ occurrences [65] (List.replicate n 65) := by
    intro o ho
    exact mem_occurrences.2 (replicate_occurs_at (List.mem_range.1 ho))
  have := (List.subperm_of_subset (List.nodup_range n) hsub).length_le
  rw [List.length_range] at this
  exact this

/-- The first `n` bytes of a text hold no more occurrences than the text. -/
theorem occurrences_take_length_le (P T : List Nat) (n : Nat) :
    (occurrences P (T.take n)).length ≤ (occurrences P T).length := by
  have hsub : occurrences P (T.take n) ⊆ occurrences P T := by
    intro o ho
    exact mem_occurrences.2 (occurs_at_of_take (mem_occurrences.1 ho))
  have hnd : (occurrences P (T.take n)).Nodup :=
    (occurrences_sorted P (T.take n)).imp (fun hlt => ne_of_lt hlt)
  exact (List.subperm_of_subset hnd hsub).length_le

/-- With the bound `n = 0` the loop of `kmp_search` is not entered. -/
theorem kmp_search_loop_empty (P L : List Nat) (m : Nat) (T : List Nat) (fuel : Nat) :
    kmp_search_loop P L m T 0 fuel 0 0 = Run.ret (-1) := by
  cases fuel <;> simp only [kmp_search_loop, Nat.lt_irrefl, if_false]

/-- With the bound `n = 0` the loop of `kmp_search_all` is not entered. -/
theorem kmp_search_all_loop_empty (P L : List Nat) (m : Nat) (T : List Nat) (fuel : Nat)
    (positions : List Int) (capacity : Int) :
    kmp_search_all_loop P L m T 0 fuel 0 0 positions capacity
      = Run.ret (some positions) := by
  cases fuel <;> simp only [kmp_search_all_loop, Nat.lt_irrefl, if_false]

/-! ## The claims -/

/-- C1: for every non-empty pattern of length `m`, `compute_lps_table(pattern, m)`
returns (with fuel for `2 (m - 1)` executions of the loop body) a table of exactly `m`
entries, and for every index `i < m` entry `i` is the length of the longest proper
prefix of the pattern that is also a suffix of the pattern's first `i + 1` bytes. -/
theorem compute_lps_table_longest_border (P : List Nat) (hP : P ≠ []) (fuel : Nat)
    (hfuel : 2 * (P.length - 1) ≤ fuel) :
    ∃ L, compute_lps_table fuel (some P) (P.length : Int) = Run.ret (some L)
      ∧ L.length = P.length
      ∧ ∀ i, i < P.length → ∃ k, L[i]? = some k ∧ longest_border P i k := by
  rcases compute_lps_table_spec P (length_pos_of_ne_nil hP) fuel with
    ⟨_, hf⟩ | ⟨L, hL, hlen, htab⟩
  · omega
  · refine ⟨L, hL, hlen, ?_⟩
    intro i hi
    refine ⟨L.getD i 0, getElem_opt_eq_some_getD (by omega), ?_⟩
    exact longest_border_of_max hi (htab (i + 1) (by omega) (by omega))

theorem compute_lps_table_longest_border_witness :
    ([65, 66, 65] : List Nat) ≠ [] ∧ 2 * (([65, 66, 65] : List Nat).length - 1) ≤ 4
    ∧ ∃ L, compute_lps_table 4 (some [65, 66, 65]) (([65, 66, 65] : List Nat).length : Int)
          = Run.ret (some L)
        ∧ L.length = ([65, 66, 65] : List Nat).length
        ∧ ∀ i, i < ([65, 66, 65] : List Nat).length →
            ∃ k, L[i]? = some k ∧ longest_border [65, 66, 65] i k :=
  ⟨by decide, by decide, compute_lps_table_longest_border [65, 66, 65] (by decide) 4
    (by decide)⟩

/-- C2: soundness of `kmp_search_all`. For a matcher built by `kmp_create` from a
pattern `P` of length `m` and every text `T` of length `n`, the call returns (with fuel
for `2 n` executions of the loop body), and every offset `o` it reports satisfies
`0 ≤ o`, `o + m ≤ n` and `T[o..o+m) == P`. -/
theorem kmp_search_all_sound (fc fuel : Nat) (P T : List Nat) (M : KMPMatcher)
    (count : Option Int) (hM : kmp_create fc (some P) = Run.ret (some M))
    (hfuel : 2 * T.length ≤ fuel) :
    ∃ r, kmp_search_all fuel (some M) (some T) count = Run.ret r
      ∧ ∀ o ∈ r.offsets, 0 ≤ o ∧ o + (P.length : Int) ≤ (T.length : Int)
          ∧ (T.drop o.toNat).take P.length = P := by
  obtain ⟨r, hr, hcase⟩ := kmp_search_all_any hM (some T) count fuel hfuel
  refine ⟨r, hr, ?_⟩
  intro o ho
  rcases hcase with hnil | ⟨T', hT', _, hsound⟩
  · rw [hnil] at ho
    exact absurd ho (List.not_mem_nil o)
  · cases hT'
    obtain ⟨k, e, hb, heq⟩ := hsound o ho
    subst e
    refine ⟨by omega, by omega, ?_⟩
    rw [Int.toNat_natCast]
    exact heq

theorem kmp_search_all_sound_witness :
    kmp_create 2 (some [65, 65])
        = Run.ret (some { pattern := [65, 65], pattern_len := 2, lps := [0, 1],
                          is_compiled := true, memory_usage := 51 })
    ∧ 2 * ([65, 65, 65] : List Nat).length ≤ 6
    ∧ ∃ r, kmp_search_all 6
          (some { pattern := [65, 65], pattern_len := 2, lps := [0, 1],
                  is_compiled := true, memory_usage := 51 })
          (some [65, 65, 65]) (some 7) = Run.ret r
        ∧ ∀ o ∈ r.offsets, 0 ≤ o
            ∧ o + (([65, 65] : List Nat).length : Int)
                ≤ (([65, 65, 65] : List Nat).length : Int)
            ∧ (([65, 65, 65] : List Nat).drop o.toNat).take ([65, 65] : List Nat).length
                = [65, 65] :=
  ⟨by decide, by decide,
    kmp_search_all_sound 2 6 [65, 65] [65, 65, 65] _ (some 7) (by decide) (by decide)⟩

/-- C3 (counterexample): the pattern `"A"` occurs at offset `0` of the ASCII
text made of `2^31` bytes `'A'`, but `int n = strlen(text)` is `-2^31`, the loop of
`kmp_search_all` is not entered, and the call reports no offset, whatever the fuel. -/
theorem kmp_search_all_misses_long_text :
    kmp_create 0 (some [65])
        = Run.ret (some { pattern := [65], pattern_len := 1, lps := [0],
                          is_compiled := true, memory_usage := 46 })
    ∧ (∀ b ∈ List.replicate 2147483648 65, b ≤ 127)
    ∧ 0 + ([65] : List Nat).length ≤ (List.replicate 2147483648 65).length
    ∧ ((List.replicate 2147483648 65).drop 0).take ([65] : List Nat).length = [65]
    ∧ ∀ fuel, ∃ r, kmp_search_all fuel
          (some { pattern := [65], pattern_len := 1, lps := [0],
                  is_compiled := true, memory_usage := 46 })
          (some (List.replicate 2147483648 65)) (some 7) = Run.ret r
        ∧ r.offsets = [] ∧ ((0 : Nat) : Int) ∉ r.offsets := by
  have hM : kmp_create 0 (some [65])
      = Run.ret (some { pattern := [65], pattern_len := 1, lps := [0],
                        is_compiled := true, memory_usage := 46 }) := by decide
  have hascii : ∀ b ∈ List.replicate 2147483648 65, b ≤ 127 :=
    replicate_ascii 2147483648
  refine ⟨hM, hascii, ?_, replicate_occurs_at_zero (by norm_num), ?_⟩
  · rw [List.length_replicate]
    norm_num
  · intro fuel
    have hn : (strlen_int (List.replicate 2147483648 65)).toNat = 0 := by
      unfold strlen_int
      rw [List.length_replicate]
      decide
    refine ⟨{ positions := none, count := some 0 }, ?_, rfl, List.not_mem_nil _⟩
    rw [kmp_search_all_run hM _ 7 fuel ((is_ascii_loop_iff _).2 hascii), hn,
      kmp_search_all_loop_empty]
    rfl

/-- C3 (amended): completeness of `kmp_search_all` on a text that fits the types of the
code. For a matcher built by `kmp_create` from a pattern `P` of length `m` and every
ASCII text `T` shorter than `2^31` bytes in which `P` occurs at most `10 * 2^27` times,
every index `o` with `T[o..o+m) == P`, overlapping occurrences included, is among the
offsets reported, and is there exactly once. -/
theorem kmp_search_all_complete (fc fuel : Nat) (P T : List Nat) (M : KMPMatcher)
    (c0 : Int) (hM : kmp_create fc (some P) = Run.ret (some M))
    (hascii : ∀ b ∈ T, b ≤ 127) (hlen : T.length < 2147483648)
    (hocc : (occurrences P T).length ≤ MAX_CAPACITY) (hfuel : 2 * T.length ≤ fuel) :
    ∃ r, kmp_search_all fuel (some M) (some T) (some c0) = Run.ret r
      ∧ ∀ o : Nat, o + P.length ≤ T.length → (T.drop o).take P.length = P →
          (o : Int) ∈ r.offsets ∧ r.offsets.count (o : Int) = 1 := by
  obtain ⟨r, hr, hacc, _, _⟩ :=
    kmp_search_all_spec hM T c0 fuel hfuel ((is_ascii_loop_iff T).2 hascii) hlen hocc
  refine ⟨r, hr, ?_⟩
  intro o hb heq
  have hmem := hacc.complete o (by omega) ⟨hb, heq⟩
  have hnodup : r.offsets.Nodup := hacc.sorted.imp (fun h => ne_of_lt h)
  exact ⟨hmem, List.count_eq_one_of_mem hnodup hmem⟩

theorem kmp_search_all_complete_witness :
    kmp_create 2 (some [65, 65])
        = Run.ret (some { pattern := [65, 65], pattern_len := 2, lps := [0, 1],
                          is_compiled := true, memory_usage := 51 })
    ∧ (∀ b ∈ ([65, 65, 65] : List Nat), b ≤ 127)
    ∧ ([65, 65, 65] : List Nat).length < 2147483648
    ∧ (occurrences [65, 65] [65, 65, 65]).length ≤ MAX_CAPACITY
    ∧ 2 * ([65, 65, 65] : List Nat).length ≤ 6
    ∧ ∃ r, kmp_search_all 6
          (some { pattern := [65, 65], pattern_len := 2, lps := [0, 1],
                  is_compiled := true, memory_usage := 51 })
          (some [65, 65, 65]) (some 7) = Run.ret r
        ∧ ∀ o : Nat, o + ([65, 65] : List Nat).length ≤ ([65, 65, 65] : List Nat).length →
            (([65, 65, 65] : List Nat).drop o).take ([65, 65] : List Nat).length
              = [65, 65] →
            (o : Int) ∈ r.offsets ∧ r.offsets.count (o : Int) = 1 :=
  ⟨by decide, by decide, by decide, by decide, by decide,
    kmp_search_all_complete 2 6 [65, 65] [65, 65, 65] _ 7 (by decide) (by decide)
      (by decide) (by decide) (by decide)⟩

/-- C4 (counterexample): the pattern `"A"` occurs at offset `0` of the ASCII
text made of `2^31` bytes `'A'`, but `int n = strlen(text)` is `-2^31`, the loop of
`kmp_search` is not entered, and the call returns `-1`, whatever the fuel. -/
theorem kmp_search_misses_long_text :
    kmp_create 0 (some [65])
        = Run.ret (some { pattern := [65], pattern_len := 1, lps := [0],
                          is_compiled := true, memory_usage := 46 })
    ∧ (∀ b ∈ List.replicate 2147483648 65, b ≤ 127)
    ∧ first_occurrence [65] (List.replicate 2147483648 65) 0
    ∧ ∀ fuel, kmp_search fuel
          (some { pattern := [65], pattern_len := 1, lps := [0],
                  is_compiled := true, memory_usage := 46 })
          (some (List.replicate 2147483648 65)) = Run.ret (-1) := by
  have hM : kmp_create 0 (some [65])
      = Run.ret (some { pattern := [65], pattern_len := 1, lps := [0],
                        is_compiled := true, memory_usage := 46 }) := by decide
  have hascii : ∀ b ∈ List.replicate 2147483648 65, b ≤ 127 :=
    replicate_ascii 2147483648
  refine ⟨hM, hascii, ⟨⟨?_, replicate_occurs_at_zero (by norm_num)⟩,
    fun o ho => absurd ho (Nat.not_lt_zero o)⟩, ?_⟩
  · rw [List.length_replicate]
    norm_num
  · intro fuel
    have hn : (strlen_int (List.replicate 2147483648 65)).toNat = 0 := by
      unfold strlen_int
      rw [List.length_replicate]
      decide
    rw [kmp_search_run hM _ fuel ((is_ascii_loop_iff _).2 hascii), hn,
      kmp_search_loop_empty]

/-- C4 (amended): `kmp_search` returns the leftmost occurrence in a text that fits the
type of the code. For a matcher built by `kmp_create` from a pattern `P` and every ASCII
text `T` shorter than `2^31` bytes, the call returns (with fuel for `2 n` executions of
the loop body) a value `r` that is either `-1` or an offset `o ≥ 0`; `r` is the offset
`o` exactly when `o` is the smallest index with `T[o..o+len(P)) == P`, and `r` is `-1`
exactly when `P` does not occur in `T`. -/
theorem kmp_search_leftmost (fc fuel : Nat) (P T : List Nat) (M : KMPMatcher)
    (hM : kmp_create fc (some P) = Run.ret (some M))
    (hascii : ∀ b ∈ T, b ≤ 127) (hlen : T.length < 2147483648)
    (hfuel : 2 * T.length ≤ fuel) :
    ∃ r, kmp_search fuel (some M) (some T) = Run.ret r
      ∧ (r = -1 ∨ 0 ≤ r)
      ∧ (∀ o : Nat, r = (o : Int) ↔ first_occurrence P T o)
      ∧ (r = -1 ↔ ∀ o : Nat, ¬ occurs_at P T o) := by
  rcases kmp_search_spec hM T fuel hfuel ((is_ascii_loop_iff T).2 hascii) hlen with
    ⟨o, hr, hfirst⟩ | ⟨hr, hnone⟩
  · refine ⟨(o : Int), hr, Or.inr (by omega), ?_, ?_⟩
    · intro o'
      constructor
      · intro e
        have : o' = o := by omega
        rw [this]
        exact hfirst
      · intro hfirst'
        have h1 : ¬ o' < o := fun hlt => hfirst.2 o' hlt hfirst'.1
        have h2 : ¬ o < o' := fun hlt => hfirst'.2 o hlt hfirst.1
        have : o = o' := by omega
        rw [this]
    · constructor
      · intro e
        omega
      · intro hnone
        exact absurd hfirst.1 (hnone o)
  · refine ⟨-1, hr, Or.inl rfl, ?_, ?_⟩
    · intro o'
      constructor
      · intro e
        omega
      · intro hfirst'
        exact absurd hfirst'.1 (hnone o')
    · exact ⟨fun _ => hnone, fun _ => rfl⟩

theorem kmp_search_leftmost_witness :
    kmp_create 4 (some [65, 66, 67])
        = Run.ret (some { pattern := [65, 66, 67], pattern_len := 3, lps := [0, 0, 0],
                          is_compiled := true, memory_usage := 56 })
    ∧ (∀ b ∈ ([88, 89, 90, 65, 66, 67] : List Nat), b ≤ 127)
    ∧ ([88, 89, 90, 65, 66, 67] : List Nat).length < 2147483648
    ∧ 2 * ([88, 89, 90, 65, 66, 67] : List Nat).length ≤ 12
    ∧ ∃ r, kmp_search 12
          (some { pattern := [65, 66, 67], pattern_len := 3, lps := [0, 0, 0],
                  is_compiled := true, memory_usage := 56 })
          (some [88, 89, 90, 65, 66, 67]) = Run.ret r
        ∧ (r = -1 ∨ 0 ≤ r)
        ∧ (∀ o : Nat, r = (o : Int)
            ↔ first_occurrence [65, 66, 67] [88, 89, 90, 65, 66, 67] o)
        ∧ (r = -1 ↔ ∀ o : Nat, ¬ occurs_at [65, 66, 67] [88, 89, 90, 65, 66, 67] o) :=
  ⟨by decide, by decide, by decide, by decide,
    kmp_search_leftmost 4 12 [65, 66, 67] [88, 89, 90, 65, 66, 67] _ (by decide)
      (by decide) (by decide) (by decide)⟩

/-- C5: for a matcher built by `kmp_create` and every text (any `count` pointer), the
call of `kmp_search_all` returns (with fuel for `2 n` executions of the loop body), and
the sequence of offsets it reports is strictly ascending: each offset is greater than
the one before it, so no offset is repeated. -/
theorem kmp_search_all_strictly_ascending (fc fuel : Nat) (P : List Nat)
    (M : KMPMatcher) (text : Option (List Nat)) (count : Option Int)
    (hM : kmp_create fc (some P) = Run.ret (some M))
    (hfuel : 2 * (text.getD []).length ≤ fuel) :
    ∃ r, kmp_search_all fuel (some M) text count = Run.ret r
      ∧ List.Chain' (fun x y => x < y) r.offsets ∧ r.offsets.Nodup := by
  obtain ⟨r, hr, hcase⟩ := kmp_search_all_any hM text count fuel hfuel
  refine ⟨r, hr, ?_⟩
  rcases hcase with hnil | ⟨T, _, hsorted, _⟩
  · rw [hnil]
    exact ⟨List.chain'_nil, List.nodup_nil⟩
  · exact ⟨hsorted.chain', hsorted.imp (fun h => ne_of_lt h)⟩

theorem kmp_search_all_strictly_ascending_witness :
    kmp_create 2 (some [65, 66])
        = Run.ret (some { pattern := [65, 66], pattern_len := 2, lps := [0, 0],
                          is_compiled := true, memory_usage := 51 })
    ∧ 2 * ((some ([65, 66, 65, 66] : List Nat)).getD []).length ≤ 8
    ∧ ∃ r, kmp_search_all 8
          (some { pattern := [65, 66], pattern_len := 2, lps := [0, 0],
                  is_compiled := true, memory_usage := 51 })
          (some [65, 66, 65, 66]) (some 0) = Run.ret r
        ∧ List.Chain' (fun x y => x < y) r.offsets ∧ r.offsets.Nodup :=
  ⟨by decide, by decide,
    kmp_search_all_strictly_ascending 2 8 [65, 66] _ (some [65, 66, 65, 66]) (some 0)
      (by decide) (by decide)⟩

/-- C6: for every non-empty pattern `P` of length `m` (ASCII or not), the table `T`
returned by `compute_lps_table` has `m` entries, `T[0] = 0`, and `T[i] ≤ i` for every
`i < m`; the entries are naturals, so `0 ≤ T[i]`. -/
theorem compute_lps_table_bounds (P : List Nat) (hP : P ≠ []) (fuel : Nat)
    (hfuel : 2 * (P.length - 1) ≤ fuel) :
    ∃ L, compute_lps_table fuel (some P) (P.length : Int) = Run.ret (some L)
      ∧ L.length = P.length
      ∧ L[0]? = some 0
      ∧ ∀ i k : Nat, L[i]? = some k → (0 : Int) ≤ (k : Int) ∧ k ≤ i := by
  have hpos := length_pos_of_ne_nil hP
  rcases compute_lps_table_spec P hpos fuel with ⟨_, hf⟩ | ⟨L, hL, hlen, htab⟩
  · omega
  · have hle : ∀ i, i < L.length → L.getD i 0 ≤ i := by
      intro i hi
      have := (htab (i + 1) (by omega) (by omega)).1
      have e : i + 1 - 1 = i := by omega
      rw [e] at this
      omega
    refine ⟨L, hL, hlen, ?_, ?_⟩
    · rw [getElem_opt_eq_some_getD (by omega : 0 < L.length)]
      have := hle 0 (by omega)
      exact congrArg some (by omega)
    · intro i k hk
      have hi : i < L.length := by
        by_contra hc
        rw [List.getElem?_eq_none (by omega)] at hk
        exact absurd hk (by simp)
      rw [getElem_opt_eq_some_getD hi] at hk
      have := hle i hi
      have e : L.getD i 0 = k := Option.some.inj hk
      constructor
      · omega
      · omega

theorem compute_lps_table_bounds_witness :
    ([65, 65, 66] : List Nat) ≠ [] ∧ 2 * (([65, 65, 66] : List Nat).length - 1) ≤ 4
    ∧ ∃ L, compute_lps_table 4 (some [65, 65, 66]) (([65, 65, 66] : List Nat).length : Int)
          = Run.ret (some L)
        ∧ L.length = ([65, 65, 66] : List Nat).length
        ∧ L[0]? = some 0
        ∧ ∀ i k : Nat, L[i]? = some k → (0 : Int) ≤ (k : Int) ∧ k ≤ i :=
  ⟨by decide, by decide, compute_lps_table_bounds [65, 65, 66] (by decide) 4 (by decide)⟩

/-- C7 (counterexample): the pattern made of `2^31` bytes `'A'` is present,
not empty and ASCII, yet `kmp_create` yields no matcher for it, whatever the fuel:
`int pattern_len = strlen(pattern)` is `-2^31`, and the size of the copy, computed from
that `int`, is refused by `malloc`. -/
theorem kmp_create_rejects_long_pattern :
    some (List.replicate 2147483648 65) ≠ none
    ∧ some (List.replicate 2147483648 65) ≠ some []
    ∧ (∀ b ∈ List.replicate 2147483648 65, b ≤ 127)
    ∧ ∀ fuel, kmp_create fuel (some (List.replicate 2147483648 65)) = Run.ret none := by
  refine ⟨Option.some_ne_none _, ?_, replicate_ascii 2147483648, ?_⟩
  · intro h
    have h1 := congrArg List.length (Option.some.inj h)
    rw [List.length_replicate, List.length_nil] at h1
    omega
  · intro fuel
    exact kmp_create_null_of_large fuel
      (by rw [List.length_replicate]; norm_num) (by rw [List.length_replicate]; norm_num)

/-- C7 (amended): with allocation succeeding (and fuel for the `2 (m - 1)` executions of
the table loop), for a pattern of at most `2^31 - 2` bytes `kmp_create(pattern)` yields
no matcher if and only if the pattern is `NULL`, has length 0, or contains a byte
greater than 127, and for every other such pattern it yields a matcher; a matcher it
yields is never partially built: it holds the pattern, its length, a table of that
length and the compiled flag, and its pattern has at most `2^31 - 2` bytes, so no longer
pattern yields a matcher. -/
theorem kmp_create_none_iff (fuel : Nat) (pattern : Option (List Nat))
    (hfuel : 2 * ((pattern.getD []).length - 1) ≤ fuel) :
    ((pattern.getD []).length ≤ 2147483646 →
      (kmp_create fuel pattern = Run.ret none
        ↔ pattern = none ∨ pattern = some []
          ∨ ∃ P, pattern = some P ∧ ∃ b ∈ P, 127 < b))
    ∧ (∀ P, pattern = some P → P ≠ [] → (∀ b ∈ P, b ≤ 127) → P.length ≤ 2147483646 →
        ∃ M, kmp_create fuel pattern = Run.ret (some M))
    ∧ (∀ M, kmp_create fuel pattern = Run.ret (some M) →
        pattern = some M.pattern ∧ M.pattern_len = M.pattern.length
          ∧ M.lps.length = M.pattern_len ∧ M.is_compiled = true
          ∧ M.pattern.length ≤ 2147483646) := by
  cases pattern with
  | none =>
    refine ⟨fun _ => ⟨fun _ => Or.inl rfl, fun _ => rfl⟩, ?_, ?_⟩
    · intro P hP
      exact absurd hP (by simp)
    · intro M hM
      exact absurd hM (by simp [kmp_create])
  | some P =>
    have hthird : ∀ M, kmp_create fuel (some P) = Run.ret (some M) →
        some P = some M.pattern ∧ M.pattern_len = M.pattern.length
          ∧ M.lps.length = M.pattern_len ∧ M.is_compiled = true
          ∧ M.pattern.length ≤ 2147483646 := by
      intro M hM
      obtain ⟨_, _, hpat, hlen, hcomp, hL⟩ := kmp_create_built hM
      have hmax := kmp_create_built_le hM
      refine ⟨by rw [hpat], by rw [hlen, hpat], ?_, hcomp, by rw [hpat]; exact hmax⟩
      rw [hL.1, hlen]
    by_cases hbad : P.length = 0 ∨ is_ascii_loop P = false
    · have hnone := kmp_create_bad fuel P hbad
      refine ⟨fun _ => ⟨fun _ => ?_, fun _ => hnone⟩, ?_, hthird⟩
      · rcases hbad with h0 | ha
        · exact Or.inr (Or.inl (by rw [List.length_eq_zero.1 h0]))
        · exact Or.inr (Or.inr ⟨P, rfl, (is_ascii_loop_eq_false_iff P).1 ha⟩)
      · intro P' hP' hne hascii _
        cases hP'
        rcases hbad with h0 | ha
        · exact absurd (List.length_eq_zero.1 h0) hne
        · rw [(is_ascii_loop_iff P).2 hascii] at ha
          exact absurd ha (by simp)
    · have hP : 0 < P.length := by
        rcases Nat.eq_zero_or_pos P.length with h0 | h0
        · exact absurd (Or.inl h0) hbad
        · exact h0
      have ha : is_ascii_loop P = true := by
        by_contra hc
        exact hbad (Or.inr (by simpa using hc))
      refine ⟨fun hmax => ?_, fun P' hP' _ _ hmax => ?_, hthird⟩
      · obtain ⟨L, _, hM⟩ := kmp_create_ok fuel P hP hmax ha hfuel
        refine ⟨fun h => ?_, fun h => ?_⟩
        · rw [hM] at h
          exact absurd h (by simp)
        · rcases h with h | h | ⟨P', hP', hb⟩
          · exact absurd h (by simp)
          · cases h
            exact absurd hP (by simp)
          · cases hP'
            rw [(is_ascii_loop_eq_false_iff P).2 hb] at ha
            exact absurd ha (by simp)
      · cases hP'
        obtain ⟨L, _, hM⟩ := kmp_create_ok fuel P hP hmax ha hfuel
        exact ⟨_, hM⟩

theorem kmp_create_none_iff_witness :
    2 * (((some ([65, 66] : List Nat)).getD []).length - 1) ≤ 2
    ∧ (((some ([65, 66] : List Nat)).getD []).length ≤ 2147483646 →
      (kmp_create 2 (some [65, 66]) = Run.ret none
        ↔ some ([65, 66] : List Nat) = none ∨ some ([65, 66] : List Nat) = some []
          ∨ ∃ P, some ([65, 66] : List Nat) = some P ∧ ∃ b ∈ P, 127 < b))
    ∧ (∀ P, some ([65, 66] : List Nat) = some P → P ≠ [] → (∀ b ∈ P, b ≤ 127) →
        P.length ≤ 2147483646 →
        ∃ M, kmp_create 2 (some [65, 66]) = Run.ret (some M))
    ∧ (∀ M, kmp_create 2 (some [65, 66]) = Run.ret (some M) →
        some ([65, 66] : List Nat) = some M.pattern ∧ M.pattern_len = M.pattern.length
          ∧ M.lps.length = M.pattern_len ∧ M.is_compiled = true
          ∧ M.pattern.length ≤ 2147483646) :=
  ⟨by decide, kmp_create_none_iff 2 (some [65, 66]) (by decide)⟩

/-- C8 (counterexample): the three failing constructions, `kmp_create(NULL)`,
`kmp_create("")` and `kmp_create("\xFF")`, return the same value, so the caller of
`kmp_create` cannot tell which failure occurred. -/
theorem kmp_create_failures_coincide :
    kmp_create 0 none = kmp_create 0 (some [])
    ∧ kmp_create 0 (some []) = kmp_create 0 (some [255])
    ∧ kmp_create 0 none = kmp_create 0 (some [255]) := by
  decide

/-- C8 (amended): construction of an absent (`NULL`) pattern, of the empty pattern and
of a pattern containing a byte greater than 127 all fail in the same way: `kmp_create`
returns `NULL`, yields no matcher and reports no error kind. -/
theorem kmp_create_failure_is_null (fuel : Nat) (pattern : Option (List Nat))
    (h : pattern = none ∨ pattern = some []
      ∨ ∃ P, pattern = some P ∧ ∃ b ∈ P, 127 < b) :
    kmp_create fuel pattern = Run.ret none := by
  rcases h with h | h | ⟨P, hP, hb⟩
  · rw [h]
    rfl
  · rw [h]
    exact kmp_create_bad fuel [] (Or.inl rfl)
  · rw [hP]
    exact kmp_create_bad fuel P (Or.inr ((is_ascii_loop_eq_false_iff P).2 hb))

theorem kmp_create_failure_is_null_witness :
    (some ([255, 254] : List Nat) = none ∨ some ([255, 254] : List Nat) = some []
      ∨ ∃ P, some ([255, 254] : List Nat) = some P ∧ ∃ b ∈ P, 127 < b)
    ∧ kmp_create 5 (some [255, 254]) = Run.ret none :=
  ⟨Or.inr (Or.inr ⟨[255, 254], rfl, 255, by decide, by decide⟩),
    kmp_create_failure_is_null 5 (some [255, 254])
      (Or.inr (Or.inr ⟨[255, 254], rfl, 255, by decide, by decide⟩))⟩

/-- C9 (counterexample): for the non-empty ASCII pattern made of
`2^31 - 1` bytes `'A'` the call `kmp_create(P)` returns `NULL`, whatever the fuel, so
there is no matcher whose fields could hold the pattern: in `safe_string_copy` the sum
`len + 1` leaves the range of `int` and `malloc` refuses the size. -/
theorem kmp_create_no_fields_at_int_max :
    List.replicate 2147483647 65 ≠ []
    ∧ (∀ b ∈ List.replicate 2147483647 65, b ≤ 127)
    ∧ ∀ fuel, kmp_create fuel (some (List.replicate 2147483647 65)) = Run.ret none
        ∧ ¬ ∃ M, kmp_create fuel (some (List.replicate 2147483647 65))
              = Run.ret (some M) := by
  have hnone : ∀ fuel,
      kmp_create fuel (some (List.replicate 2147483647 65)) = Run.ret none := by
    intro fuel
    exact kmp_create_null_of_large fuel
      (by rw [List.length_replicate]) (by rw [List.length_replicate]; norm_num)
  refine ⟨?_, replicate_ascii 2147483647, ?_⟩
  · intro h
    have h1 := congrArg List.length h
    rw [List.length_replicate, List.length_nil] at h1
    omega
  · intro fuel
    refine ⟨hnone fuel, ?_⟩
    rintro ⟨M, hM⟩
    rw [hnone fuel] at hM
    exact absurd hM (by simp)

/-- C9 (amended): for every non-empty ASCII pattern `P` of length `m ≤ 2^31 - 2`, the
matcher returned by `kmp_create(P)` has `pattern` equal byte for byte to `P`,
`pattern_len = m`, `lps` equal to the table returned by `compute_lps_table(P, m)`
itself, and `is_compiled = true`. -/
theorem kmp_create_fields (P : List Nat) (hP : P ≠ []) (hascii : ∀ b ∈ P, b ≤ 127)
    (hmax : P.length ≤ 2147483646) (fuel : Nat) (hfuel : 2 * (P.length - 1) ≤ fuel) :
    ∃ M L, kmp_create fuel (some P) = Run.ret (some M)
      ∧ compute_lps_table fuel (some P) (P.length : Int) = Run.ret (some L)
      ∧ M.pattern = P ∧ M.pattern_len = P.length ∧ M.lps = L
      ∧ M.is_compiled = true := by
  obtain ⟨L, hL, hM⟩ := kmp_create_ok fuel P (length_pos_of_ne_nil hP) hmax
    ((is_ascii_loop_iff P).2 hascii) hfuel
  exact ⟨_, L, hM, hL, rfl, rfl, rfl, rfl⟩

theorem kmp_create_fields_witness :
    ([84, 69, 83, 84] : List Nat) ≠ [] ∧ (∀ b ∈ ([84, 69, 83, 84] : List Nat), b ≤ 127)
    ∧ ([84, 69, 83, 84] : List Nat).length ≤ 2147483646
    ∧ 2 * (([84, 69, 83, 84] : List Nat).length - 1) ≤ 6
    ∧ ∃ M L, kmp_create 6 (some [84, 69, 83, 84]) = Run.ret (some M)
        ∧ compute_lps_table 6 (some [84, 69, 83, 84])
            (([84, 69, 83, 84] : List Nat).length : Int) = Run.ret (some L)
        ∧ M.pattern = [84, 69, 83, 84]
        ∧ M.pattern_len = ([84, 69, 83, 84] : List Nat).length ∧ M.lps = L
        ∧ M.is_compiled = true :=
  ⟨by decide, by decide, by decide, by decide,
    kmp_create_fields [84, 69, 83, 84] (by decide) (by decide) (by decide) 6
      (by decide)⟩

/-- C10: search-time misuse is a silent no-match. For every matcher pointer, if the
text is `NULL` or contains a byte greater than 127, then `kmp_search` returns `-1` and
`kmp_search_all` returns `NULL` with `*count = 0`, whatever the fuel and whether or not
the pattern occurs before the offending byte. -/
theorem search_misuse_is_no_match (fuel : Nat) (matcher : Option KMPMatcher)
    (text : Option (List Nat)) (c0 : Int)
    (h : text = none ∨ ∃ T, text = some T ∧ ∃ b ∈ T, 127 < b) :
    kmp_search fuel matcher text = Run.ret (-1)
    ∧ kmp_search_all fuel matcher text (some c0)
        = Run.ret { positions := none, count := some 0 }
    ∧ (∀ r, kmp_search_all fuel matcher text (some c0) = Run.ret r → r.offsets = []) := by
  have ha := (is_ascii_string_eq_false_iff text).2 h
  have hall := kmp_search_all_reject fuel matcher text c0 ha
  refine ⟨kmp_search_reject fuel matcher text ha, hall, ?_⟩
  intro r hr
  rw [hall] at hr
  cases hr
  rfl

theorem search_misuse_is_no_match_witness :
    (some ([65, 66, 67, 255] : List Nat) = none
      ∨ ∃ T, some ([65, 66, 67, 255] : List Nat) = some T ∧ ∃ b ∈ T, 127 < b)
    ∧ kmp_search 8
        (some { pattern := [65, 66, 67], pattern_len := 3, lps := [0, 0, 0],
                is_compiled := true, memory_usage := 56 })
        (some [65, 66, 67, 255]) = Run.ret (-1)
    ∧ kmp_search_all 8
        (some { pattern := [65, 66, 67], pattern_len := 3, lps := [0, 0, 0],
                is_compiled := true, memory_usage := 56 })
        (some [65, 66, 67, 255]) (some 9)
        = Run.ret { positions := none, count := some 0 }
    ∧ (∀ r, kmp_search_all 8
        (some { pattern := [65, 66, 67], pattern_len := 3, lps := [0, 0, 0],
                is_compiled := true, memory_usage := 56 })
        (some [65, 66, 67, 255]) (some 9) = Run.ret r → r.offsets = []) :=
  ⟨Or.inr ⟨[65, 66, 67, 255], rfl, 255, by decide, by decide⟩,
    search_misuse_is_no_match 8 _ (some [65, 66, 67, 255]) 9
      (Or.inr ⟨[65, 66, 67, 255], rfl, 255, by decide, by decide⟩)⟩

/-! ## Counting the occurrences -/

/-- The offsets recorded by a complete scan are the occurrences, in the same order. -/
theorem AccInv.eq_occurrences {P T : List Nat} {R : List Int}
    (h : AccInv P T (T.length + 1) R) :
    R = (occurrences P T).map (fun o : Nat => (o : Int)) := by
  have hs2 : ((occurrences P T).map (fun o : Nat => (o : Int))).Pairwise
      (fun x y => x < y) :=
    (occurrences_sorted P T).map _ (fun a b hab => by omega)
  have hmem : ∀ x : Int, x ∈ R ↔ x ∈ (occurrences P T).map (fun o : Nat => (o : Int)) := by
    intro x
    rw [List.mem_map]
    constructor
    · intro hx
      obtain ⟨o, e, _, hocc⟩ := h.sound x hx
      exact ⟨o, mem_occurrences.2 hocc, e.symm⟩
    · rintro ⟨o, ho, e⟩
      have hocc := mem_occurrences.1 ho
      have hb := hocc.1
      rw [← e]
      exact h.complete o (by omega) hocc
  have hperm := (List.perm_ext_iff_of_nodup (h.sorted.imp (fun hlt => ne_of_lt hlt))
    (hs2.imp (fun hlt => ne_of_lt hlt))).2 hmem
  exact List.eq_of_perm_of_sorted hperm h.sorted hs2

theorem SearchAll.eq_of_fields {r : SearchAll} {p : Option (List Int)} {c : Option Int}
    (hp : r.positions = p) (hc : r.count = c) : r = { positions := p, count := c } := by
  cases r
  simp only at hp hc
  rw [hp, hc]

/-! ## The claims, continued -/

/-- C11: for a matcher built by `kmp_create` from a (non-empty) pattern of length `m` and
every text of length `n < m`, the empty text in particular, `kmp_search` returns `-1`
and `kmp_search_all` returns `NULL` with `*count = 0`, the empty sequence. -/
theorem search_short_text (fc fuel : Nat) (P T : List Nat) (M : KMPMatcher) (c0 : Int)
    (hM : kmp_create fc (some P) = Run.ret (some M)) (hshort : T.length < P.length)
    (hfuel : 2 * T.length ≤ fuel) :
    kmp_search fuel (some M) (some T) = Run.ret (-1)
    ∧ kmp_search_all fuel (some M) (some T) (some c0)
        = Run.ret { positions := none, count := some 0 } := by
  have hnone : ∀ o, ¬ occurs_at P T o := by
    intro o hocc
    have := hocc.1
    omega
  have hlen : T.length < 2147483648 := by
    have := kmp_create_built_le hM
    omega
  have hocc : (occurrences P T).length ≤ MAX_CAPACITY := by
    rw [occurrences_eq_nil hnone]
    exact Nat.zero_le _
  by_cases ha : is_ascii_loop T = true
  · constructor
    · rcases kmp_search_spec hM T fuel hfuel ha hlen with ⟨o, _, hfirst⟩ | ⟨hr, _⟩
      · exact absurd hfirst.1 (hnone o)
      · exact hr
    · obtain ⟨r, hr, hacc, hcount, hpos⟩ :=
        kmp_search_all_spec hM T c0 fuel hfuel ha hlen hocc
      have hnil : r.offsets = [] := by
        rcases List.eq_nil_or_concat r.offsets with h | ⟨l, x, h⟩
        · exact h
        · have hx : x ∈ r.offsets := by
            rw [h]
            simp
          obtain ⟨o, _, _, hocc⟩ := hacc.sound x hx
          exact absurd hocc (hnone o)
      rw [hr]
      rw [hnil] at hcount
      exact congrArg Run.ret (SearchAll.eq_of_fields (hpos.2 hnil) hcount)
  · have ha' : is_ascii_string (some T) = false := by simpa [is_ascii_string] using ha
    exact ⟨kmp_search_reject fuel (some M) (some T) ha',
      kmp_search_all_reject fuel (some M) (some T) c0 ha'⟩

theorem search_short_text_witness :
    kmp_create 6 (some [84, 69, 83, 84])
        = Run.ret (some { pattern := [84, 69, 83, 84], pattern_len := 4,
                          lps := [0, 0, 0, 1], is_compiled := true, memory_usage := 61 })
    ∧ ([] : List Nat).length < ([84, 69, 83, 84] : List Nat).length
    ∧ 2 * ([] : List Nat).length ≤ 0
    ∧ kmp_search 0
        (some { pattern := [84, 69, 83, 84], pattern_len := 4,
                lps := [0, 0, 0, 1], is_compiled := true, memory_usage := 61 })
        (some []) = Run.ret (-1)
    ∧ kmp_search_all 0
        (some { pattern := [84, 69, 83, 84], pattern_len := 4,
                lps := [0, 0, 0, 1], is_compiled := true, memory_usage := 61 })
        (some []) (some 3)
        = Run.ret { positions := none, count := some 0 } :=
  ⟨by decide, by decide, by decide,
    search_short_text 6 0 [84, 69, 83, 84] [] _ 3 (by decide) (by decide) (by decide)⟩

/-- C12 (counterexample): the pattern `"A"` occurs in the ASCII text made of
`2^32` bytes `'A'`, so the number of occurrences is not 0, but
`int n = strlen(text)` is `0`, the loop of `kmp_search_all` is not entered, and the
call returns `NULL` with `*count = 0`, whatever the fuel. -/
theorem kmp_search_all_count_wraps :
    kmp_create 0 (some [65])
        = Run.ret (some { pattern := [65], pattern_len := 1, lps := [0],
                          is_compiled := true, memory_usage := 46 })
    ∧ (∀ b ∈ List.replicate 4294967296 65, b ≤ 127)
    ∧ (occurrences [65] (List.replicate 4294967296 65)).length ≠ 0
    ∧ ∀ fuel, kmp_search_all fuel
          (some { pattern := [65], pattern_len := 1, lps := [0],
                  is_compiled := true, memory_usage := 46 })
          (some (List.replicate 4294967296 65)) (some 7)
        = Run.ret { positions := none, count := some 0 } := by
  have hM : kmp_create 0 (some [65])
      = Run.ret (some { pattern := [65], pattern_len := 1, lps := [0],
                        is_compiled := true, memory_usage := 46 }) := by decide
  have hascii : ∀ b ∈ List.replicate 4294967296 65, b ≤ 127 :=
    replicate_ascii 4294967296
  have hocc : occurs_at [65] (List.replicate 4294967296 65) 0 := by
    refine ⟨?_, replicate_occurs_at_zero (by norm_num)⟩
    rw [List.length_replicate]
    norm_num
  refine ⟨hM, hascii, ?_, ?_⟩
  · have hpos := List.length_pos_of_mem (mem_occurrences.2 hocc)
    omega
  · intro fuel
    have hn : (strlen_int (List.replicate 4294967296 65)).toNat = 0 := by
      unfold strlen_int
      rw [List.length_replicate]
      decide
    rw [kmp_search_all_run hM _ 7 fuel ((is_ascii_loop_iff _).2 hascii), hn,
      kmp_search_all_loop_empty]
    rfl

/-- C12 (amended): for a matcher built by `kmp_create` from a pattern `P` and every
ASCII text `T` shorter than `2^31` bytes in which `P` occurs at most `10 * 2^27` times
(allocation succeeding, fuel for `2 n` executions of the loop body), the count written
by `kmp_search_all` is the number of indices `o` with `T[o..o+len(P)) == P`, the
offsets are those indices in ascending order, and the returned pointer is `NULL`
exactly when that count is 0: a pattern that does not occur gives the empty result
`NULL`, `*count = 0`. -/
theorem kmp_search_all_count (fc fuel : Nat) (P T : List Nat) (M : KMPMatcher)
    (c0 : Int) (hM : kmp_create fc (some P) = Run.ret (some M))
    (hascii : ∀ b ∈ T, b ≤ 127) (hlen : T.length < 2147483648)
    (hocc : (occurrences P T).length ≤ MAX_CAPACITY) (hfuel : 2 * T.length ≤ fuel) :
    ∃ r, kmp_search_all fuel (some M) (some T) (some c0) = Run.ret r
      ∧ r.count = some ((occurrences P T).length : Int)
      ∧ r.offsets = (occurrences P T).map (fun o : Nat => (o : Int))
      ∧ (r.positions = none ↔ (occurrences P T).length = 0)
      ∧ ((∀ o, ¬ occurs_at P T o) → r = { positions := none, count := some 0 }) := by
  obtain ⟨r, hr, hacc, hcount, hpos⟩ :=
    kmp_search_all_spec hM T c0 fuel hfuel ((is_ascii_loop_iff T).2 hascii) hlen hocc
  have heq := hacc.eq_occurrences
  have hlen : r.offsets.length = (occurrences P T).length := by
    rw [heq, List.length_map]
  have hnil : r.offsets = [] ↔ (occurrences P T).length = 0 := by
    rw [← hlen, List.length_eq_zero]
  refine ⟨r, hr, by rw [hcount, hlen], heq, hpos.trans hnil, ?_⟩
  intro hnone
  have h0 : (occurrences P T).length = 0 := by
    rw [occurrences_eq_nil hnone]
    rfl
  rw [hlen, h0] at hcount
  exact SearchAll.eq_of_fields ((hpos.trans hnil).2 h0) hcount

theorem kmp_search_all_count_witness :
    kmp_create 2 (some [65, 66])
        = Run.ret (some { pattern := [65, 66], pattern_len := 2, lps := [0, 0],
                          is_compiled := true, memory_usage := 51 })
    ∧ (∀ b ∈ ([65, 66, 65, 66, 65, 66] : List Nat), b ≤ 127)
    ∧ ([65, 66, 65, 66, 65, 66] : List Nat).length < 2147483648
    ∧ (occurrences [65, 66] [65, 66, 65, 66, 65, 66]).length ≤ MAX_CAPACITY
    ∧ 2 * ([65, 66, 65, 66, 65, 66] : List Nat).length ≤ 12
    ∧ ∃ r, kmp_search_all 12
          (some { pattern := [65, 66], pattern_len := 2, lps := [0, 0],
                  is_compiled := true, memory_usage := 51 })
          (some [65, 66, 65, 66, 65, 66]) (some 0) = Run.ret r
        ∧ r.count = some ((occurrences [65, 66] [65, 66, 65, 66, 65, 66]).length : Int)
        ∧ r.offsets
            = (occurrences [65, 66] [65, 66, 65, 66, 65, 66]).map (fun o : Nat => (o : Int))
        ∧ (r.positions = none ↔ (occurrences [65, 66] [65, 66, 65, 66, 65, 66]).length = 0)
        ∧ ((∀ o, ¬ occurs_at [65, 66] [65, 66, 65, 66, 65, 66] o) →
            r = { positions := none, count := some 0 }) :=
  ⟨by decide, by decide, by decide, by decide, by decide,
    kmp_search_all_count 2 12 [65, 66] [65, 66, 65, 66, 65, 66] _ 0 (by decide)
      (by decide) (by decide) (by decide) (by decide)⟩

theorem kmp_search_all_count_indep (fuel : Nat) (matcher : Option KMPMatcher)
    (text : Option (List Nat)) (c0 c1 : Int) :
    kmp_search_all fuel matcher text (some c0)
      = kmp_search_all fuel matcher text (some c1) := by
  cases matcher <;> cases text <;> rfl

/-- A call of `kmp_search_all` with a present `count` pointer always writes `*count`. -/
theorem kmp_search_all_writes_count {fuel : Nat} {matcher : Option KMPMatcher}
    {text : Option (List Nat)} {c0 : Int} {r : SearchAll}
    (h : kmp_search_all fuel matcher text (some c0) = Run.ret r) :
    ∃ v, r.count = some v := by
  cases matcher with
  | none =>
    cases text <;>
    · simp only [kmp_search_all, Run.ret.injEq] at h
      exact ⟨0, by rw [← h]⟩
  | some mt =>
    cases text with
    | none =>
      simp only [kmp_search_all, Run.ret.injEq] at h
      exact ⟨0, by rw [← h]⟩
    | some t =>
      simp only [kmp_search_all, alloc_ok_initial, Bool.not_true, Bool.false_eq_true,
        if_false] at h
      split at h
      · simp only [Run.ret.injEq] at h
        exact ⟨0, by rw [← h]⟩
      · split at h
        · simp only [Run.ret.injEq] at h
          exact ⟨0, by rw [← h]⟩
        · cases hl : kmp_search_all_loop mt.pattern mt.lps mt.pattern_len t
              (strlen_int t).toNat fuel 0 0 [] 10 with
          | ret R =>
            rw [hl, Run.ret_bind] at h
            cases R with
            | none =>
              simp only [Run.ret.injEq] at h
              exact ⟨0, by rw [← h]⟩
            | some R =>
              simp only at h
              split at h
              · simp only [Run.ret.injEq] at h
                exact ⟨0, by rw [← h]⟩
              · simp only [Run.ret.injEq] at h
                exact ⟨(R.length : Int), by rw [← h]⟩
          | oob =>
            rw [hl] at h
            exact absurd h (by simp)
          | timeout =>
            rw [hl] at h
            exact absurd h (by simp)

/-- C13: for every compiled matcher and every present text, whatever the two clock
readings and the initial content of `result->count`, `kmp_search_with_stats` returns a
result exactly when a plain `kmp_search_all` call on the same matcher and text returns,
and the positions and count stored in the result are those of the plain call. -/
theorem kmp_search_with_stats_same_offsets (fuel : Nat) (M : KMPMatcher) (T : List Nat)
    (c0 c1 start stop : Int) (hcomp : M.is_compiled = true) :
    (∀ r, kmp_search_all fuel (some M) (some T) (some c1) = Run.ret r →
      ∃ s, kmp_search_with_stats fuel (some M) (some T) c0 start stop = Run.ret (some s)
        ∧ s.positions = r.positions ∧ some s.count = r.count)
    ∧ (∀ s, kmp_search_with_stats fuel (some M) (some T) c0 start stop = Run.ret s →
      ∃ r t, s = some t ∧ kmp_search_all fuel (some M) (some T) (some c1) = Run.ret r
        ∧ t.positions = r.positions ∧ some t.count = r.count) := by
  have hrun : kmp_search_with_stats fuel (some M) (some T) c0 start stop
      = (kmp_search_all fuel (some M) (some T) (some c0) >>= fun r =>
          Run.ret (some
            { positions := r.positions
              count := r.count.getD c0
              search_time := measure_time start stop })) := by
    simp only [kmp_search_with_stats, hcomp]
    rfl
  rw [hrun, kmp_search_all_count_indep fuel (some M) (some T) c0 c1]
  constructor
  · intro r hr
    obtain ⟨v, hv⟩ := kmp_search_all_writes_count hr
    rw [hr, Run.ret_bind]
    exact ⟨_, rfl, rfl, by rw [hv]; rfl⟩
  · intro s hs
    cases hr : kmp_search_all fuel (some M) (some T) (some c1) with
    | ret r =>
      obtain ⟨v, hv⟩ := kmp_search_all_writes_count hr
      rw [hr, Run.ret_bind, Run.ret.injEq] at hs
      exact ⟨r, _, hs.symm, rfl, rfl, by rw [hv]; rfl⟩
    | oob =>
      rw [hr] at hs
      exact absurd hs (by simp)
    | timeout =>
      rw [hr] at hs
      exact absurd hs (by simp)

theorem kmp_search_with_stats_same_offsets_witness :
    (({ pattern := [65, 65], pattern_len := 2, lps := [0, 1], is_compiled := true,
        memory_usage := 51 } : KMPMatcher).is_compiled = true)
    ∧ (∀ r, kmp_search_all 6
          (some { pattern := [65, 65], pattern_len := 2, lps := [0, 1],
                  is_compiled := true, memory_usage := 51 })
          (some [65, 65, 65]) (some 0) = Run.ret r →
        ∃ s, kmp_search_with_stats 6
              (some { pattern := [65, 65], pattern_len := 2, lps := [0, 1],
                      is_compiled := true, memory_usage := 51 })
              (some [65, 65, 65]) 77 5 9 = Run.ret (some s)
          ∧ s.positions = r.positions ∧ some s.count = r.count)
    ∧ (∀ s, kmp_search_with_stats 6
              (some { pattern := [65, 65], pattern_len := 2, lps := [0, 1],
                      is_compiled := true, memory_usage := 51 })
              (some [65, 65, 65]) 77 5 9 = Run.ret s →
        ∃ r t, s = some t ∧ kmp_search_all 6
              (some { pattern := [65, 65], pattern_len := 2, lps := [0, 1],
                      is_compiled := true, memory_usage := 51 })
              (some [65, 65, 65]) (some 0) = Run.ret r
          ∧ t.positions = r.positions ∧ some t.count = r.count) :=
  ⟨rfl, kmp_search_with_stats_same_offsets 6 _ [65, 65, 65] 77 0 5 9 rfl⟩

/-- C16 (counterexample): for the non-empty ASCII pattern made of
`2^31 + 1` bytes `'A'` the call `kmp_create` returns `NULL`, whatever the fuel, so no
matcher carries a `memory_usage`: the lengths are `int`, and the size of the copy
computed from them is refused by `malloc`. -/
theorem kmp_create_no_memory_usage_when_long :
    List.replicate 2147483649 65 ≠ []
    ∧ (∀ b ∈ List.replicate 2147483649 65, b ≤ 127)
    ∧ ∀ fuel, ¬ ∃ M, kmp_create fuel (some (List.replicate 2147483649 65))
          = Run.ret (some M)
        ∧ M.memory_usage
            = sizeof_KMPMatcher + ((List.replicate 2147483649 65).length + 1) * sizeof_char
              + (List.replicate 2147483649 65).length * sizeof_int := by
  refine ⟨?_, replicate_ascii 2147483649, ?_⟩
  · intro h
    have h1 := congrArg List.length h
    rw [List.length_replicate, List.length_nil] at h1
    omega
  · rintro fuel ⟨M, hM, _⟩
    rw [kmp_create_null_of_large fuel
      (by rw [List.length_replicate]; norm_num)
      (by rw [List.length_replicate]; norm_num)] at hM
    exact absurd hM (by simp)

/-- C16 (amended): for every non-empty ASCII pattern of length `m ≤ 2^31 - 2`, the
matcher returned by `kmp_create` has `memory_usage = sizeof(KMPMatcher)
+ (m + 1) * sizeof(char) + m * sizeof(int)`, and this number is positive. -/
theorem kmp_create_memory_usage (P : List Nat) (hP : P ≠ []) (hascii : ∀ b ∈ P, b ≤ 127)
    (hmax : P.length ≤ 2147483646) (fuel : Nat) (hfuel : 2 * (P.length - 1) ≤ fuel) :
    ∃ M, kmp_create fuel (some P) = Run.ret (some M)
      ∧ M.memory_usage
          = sizeof_KMPMatcher + (P.length + 1) * sizeof_char + P.length * sizeof_int
      ∧ 0 < M.memory_usage := by
  obtain ⟨L, _, hM⟩ := kmp_create_ok fuel P (length_pos_of_ne_nil hP) hmax
    ((is_ascii_loop_iff P).2 hascii) hfuel
  refine ⟨_, hM, rfl, ?_⟩
  simp only [sizeof_KMPMatcher]
  omega

theorem kmp_create_memory_usage_witness :
    ([84, 69, 83, 84] : List Nat) ≠ [] ∧ (∀ b ∈ ([84, 69, 83, 84] : List Nat), b ≤ 127)
    ∧ ([84, 69, 83, 84] : List Nat).length ≤ 2147483646
    ∧ 2 * (([84, 69, 83, 84] : List Nat).length - 1) ≤ 6
    ∧ ∃ M, kmp_create 6 (some [84, 69, 83, 84]) = Run.ret (some M)
        ∧ M.memory_usage
            = sizeof_KMPMatcher + (([84, 69, 83, 84] : List Nat).length + 1) * sizeof_char
              + ([84, 69, 83, 84] : List Nat).length * sizeof_int
        ∧ 0 < M.memory_usage :=
  ⟨by decide, by decide, by decide, by decide,
    kmp_create_memory_usage [84, 69, 83, 84] (by decide) (by decide) (by decide) 6
      (by decide)⟩

/-- C17: `is_ascii_string(s)` returns true if and only if `s` is present (not `NULL`)
and every byte of `s`, read as an unsigned value, is at most 127; the empty string and
the string holding the byte 127 are accepted, the string holding the byte 128 and `NULL`
are rejected. -/
theorem is_ascii_string_iff :
    (∀ s : Option (List Nat),
      is_ascii_string s = true ↔ ∃ t, s = some t ∧ ∀ b ∈ t, b ≤ 127)
    ∧ is_ascii_string (some []) = true
    ∧ is_ascii_string (some [127]) = true
    ∧ is_ascii_string (some [128]) = false
    ∧ is_ascii_string none = false := by
  refine ⟨?_, rfl, rfl, rfl, rfl⟩
  intro s
  cases s with
  | none => simp [is_ascii_string]
  | some t => simp [is_ascii_string, is_ascii_loop_iff]

/-- C18: `compute_lps_table` on the reference patterns: "ABABCAB" gives
`[0,0,1,2,0,1,2]`, "AAAA" gives `[0,1,2,3]`, "ABCDE" gives `[0,0,0,0,0]`, "ABAB" gives
`[0,0,1,2]` and "A" gives `[0]`. -/
theorem compute_lps_table_reference :
    compute_lps_table 12 (some [65, 66, 65, 66, 67, 65, 66]) 7
        = Run.ret (some [0, 0, 1, 2, 0, 1, 2])
    ∧ compute_lps_table 6 (some [65, 65, 65, 65]) 4 = Run.ret (some [0, 1, 2, 3])
    ∧ compute_lps_table 8 (some [65, 66, 67, 68, 69]) 5 = Run.ret (some [0, 0, 0, 0, 0])
    ∧ compute_lps_table 6 (some [65, 66, 65, 66]) 4 = Run.ret (some [0, 0, 1, 2])
    ∧ compute_lps_table 0 (some [65]) 1 = Run.ret (some [0]) := by
  decide

/-- C19: `kmp_search_all` on the reference inputs, the matcher coming from
`kmp_create`: "AA" in "AAA" gives `[0,1]`, "AB" in "ABABAB" gives `[0,2,4]`, "ABC" in
"ABCABCABC" gives `[0,3,6]`, "A" in "BANANA" gives `[1,3,5]`, "TEST" in "TESTTEST"
gives `[0,4]`, and "XYZ" in "ABCDEF" gives no offset (`NULL`, `*count = 0`). -/
theorem kmp_search_all_reference :
    (kmp_create 2 (some [65, 65])).bind
        (fun M => kmp_search_all 6 M (some [65, 65, 65]) (some 0))
      = Run.ret { positions := some [0, 1], count := some 2 }
    ∧ (kmp_create 2 (some [65, 66])).bind
        (fun M => kmp_search_all 12 M (some [65, 66, 65, 66, 65, 66]) (some 0))
      = Run.ret { positions := some [0, 2, 4], count := some 3 }
    ∧ (kmp_create 4 (some [65, 66, 67])).bind
        (fun M => kmp_search_all 18 M (some [65, 66, 67, 65, 66, 67, 65, 66, 67]) (some 0))
      = Run.ret { positions := some [0, 3, 6], count := some 3 }
    ∧ (kmp_create 0 (some [65])).bind
        (fun M => kmp_search_all 12 M (some [66, 65, 78, 65, 78, 65]) (some 0))
      = Run.ret { positions := some [1, 3, 5], count := some 3 }
    ∧ (kmp_create 6 (some [84, 69, 83, 84])).bind
        (fun M => kmp_search_all 16 M (some [84, 69, 83, 84, 84, 69, 83, 84]) (some 0))
      = Run.ret { positions := some [0, 4], count := some 2 }
    ∧ (kmp_create 4 (some [88, 89, 90])).bind
        (fun M => kmp_search_all 12 M (some [65, 66, 67, 68, 69, 70]) (some 0))
      = Run.ret { positions := none, count := some 0 } := by
  decide

/-! ## The normalisation pass `optimize_lps_table` -/

theorem arr_read_nat {a : List Nat} {j : Nat} (h : j < a.length) :
    arr_read a (j : Int) = Run.ret (a.getD j 0) := by
  have h1 : (0 : Int) ≤ (j : Int) ∧ (j : Int) < (a.length : Int) := by omega
  simp only [arr_read, h1, and_self, if_true, Int.toNat_natCast]

theorem set_getD_self {t : List Nat} {i : Nat} (h : i < t.length) :
    t.set i (t.getD i 0) = t := by
  apply List.ext_getElem?
  intro k
  rw [List.getElem?_set]
  by_cases e : i = k
  · subst e
    rw [if_pos rfl, if_pos h, getElem_opt_eq_some_getD h]
  · rw [if_neg e]

/-- The inner loop stops at once from a `j` below `lps[i]`. -/
theorem optimize_while_stop {t : List Nat} {i : Nat} (hb : ∀ x, x < t.length → t.getD x 0 ≤ x)
    (hi : i < t.length) :
    ∀ (fuel j : Nat), j < t.getD i 0 → optimize_while t i fuel j = Run.ret j := by
  intro fuel j hj
  have hvi := hb i hi
  by_cases hj0 : j > 0
  · have hr1 : arr_read t (j : Int) = Run.ret (t.getD j 0) := arr_read_nat (by omega)
    have hr2 : arr_read t (i : Int) = Run.ret (t.getD i 0) := arr_read_nat hi
    have hlt : ¬ t.getD j 0 ≥ t.getD i 0 := by
      have := hb j (by omega)
      omega
    cases fuel with
    | zero => simp only [optimize_while, if_pos hj0, hr1, hr2, Run.ret_bind, if_neg hlt]
    | succ f => simp only [optimize_while, if_pos hj0, hr1, hr2, Run.ret_bind, if_neg hlt]
  · cases fuel with
    | zero => simp only [optimize_while, if_neg hj0]
    | succ f => simp only [optimize_while, if_neg hj0]

/-- The inner loop started at `j = lps[i]`: it runs the body at most once. -/
theorem optimize_while_spec {t : List Nat} {i : Nat}
    (hb : ∀ x, x < t.length → t.getD x 0 ≤ x) (hi : i < t.length)
    (hv : 0 < t.getD i 0) (fuel : Nat) :
    optimize_while t i (fuel + 1) (t.getD i 0)
      = Run.ret (if t.getD (t.getD i 0) 0 ≥ t.getD i 0 then t.getD (t.getD i 0 - 1) 0
          else t.getD i 0) := by
  have hvi := hb i hi
  have hr1 : arr_read t ((t.getD i 0 : Nat) : Int) = Run.ret (t.getD (t.getD i 0) 0) :=
    arr_read_nat (by omega)
  have hr2 : arr_read t (i : Int) = Run.ret (t.getD i 0) := arr_read_nat hi
  by_cases hge : t.getD (t.getD i 0) 0 ≥ t.getD i 0
  · have hr3 : arr_read t (((t.getD i 0 : Nat) : Int) - 1)
        = Run.ret (t.getD (t.getD i 0 - 1) 0) := arr_read_pred hv (by omega)
    have hw := hb (t.getD i 0 - 1) (by omega)
    simp only [optimize_while, if_pos (show t.getD i 0 > 0 from hv), hr1, hr2,
      Run.ret_bind, if_pos hge, hr3]
    exact optimize_while_stop hb hi fuel _ (by omega)
  · simp only [optimize_while, if_pos (show t.getD i 0 > 0 from hv), hr1, hr2,
      Run.ret_bind, if_neg hge]

/-- One execution of the body of the outer loop. -/
theorem optimize_for_step {t : List Nat} {i : Nat} (h : OptInv t i) (hi0 : 0 < i)
    (hi : i < t.length) (fuel : Nat) :
    ∃ t1, (∀ k, optimize_for t.length (fuel + 1) (k + 1) t i
              = optimize_for t.length (fuel + 1) k t1 (i + 1))
      ∧ t1.length = t.length ∧ OptInv t1 (i + 1)
      ∧ (∀ x, x < t.length → t1.getD x 0 ≤ t.getD x 0)
      ∧ (∀ x, x < t.length → (t1.getD x 0 = 0 ↔ t.getD x 0 = 0))
      ∧ (OptInv t t.length → t1 = t) := by
  have hb := h.bound
  have hvi := hb i hi
  have hr : arr_read t (i : Int) = Run.ret (t.getD i 0) := arr_read_nat hi
  -- the cases in which the table is left as it is
  have hsame : (∀ k, optimize_for t.length (fuel + 1) (k + 1) t i
        = optimize_for t.length (fuel + 1) k t (i + 1)) →
      (t.getD i 0 = i → t.getD (i - 1) 0 = 0) →
      ∃ t1, (∀ k, optimize_for t.length (fuel + 1) (k + 1) t i
              = optimize_for t.length (fuel + 1) k t1 (i + 1))
        ∧ t1.length = t.length ∧ OptInv t1 (i + 1)
        ∧ (∀ x, x < t.length → t1.getD x 0 ≤ t.getD x 0)
        ∧ (∀ x, x < t.length → (t1.getD x 0 = 0 ↔ t.getD x 0 = 0))
        ∧ (OptInv t t.length → t1 = t) := by
    intro hstep hset
    refine ⟨t, hstep, rfl, ⟨hb, ?_⟩, fun _ _ => le_refl _, fun _ _ => Iff.rfl, fun _ => rfl⟩
    intro x hx0 hxi hxl hxx
    by_cases e : x = i
    · subst e
      exact hset hxx
    · exact h.settled x hx0 (by omega) hxl hxx
  by_cases hv : t.getD i 0 > 0
  · have hwhile := optimize_while_spec hb hi hv fuel
    by_cases hge : t.getD (t.getD i 0) 0 ≥ t.getD i 0
    · rw [if_pos hge] at hwhile
      by_cases hw : t.getD (t.getD i 0 - 1) 0 > 0
      · -- the entry is lowered
        have hwb := hb (t.getD i 0 - 1) (by omega)
        have hwr : arr_write t i (t.getD (t.getD i 0 - 1) 0)
            = Run.ret (t.set i (t.getD (t.getD i 0 - 1) 0)) := arr_write_ok hi
        refine ⟨t.set i (t.getD (t.getD i 0 - 1) 0), ?_, List.length_set _ _ _, ⟨?_, ?_⟩,
          ?_, ?_, ?_⟩
        · intro k
          simp only [optimize_for, if_pos hi, hr, Run.ret_bind, if_pos hv, hwhile,
            if_pos hw, hwr]
        · intro x hx
          rw [List.length_set] at hx
          by_cases e : i = x
          · subst e
            rw [getD_set_eq _ hi]
            omega
          · rw [getD_set_ne _ e]
            exact hb x hx
        · intro x hx0 hxi hxl hxx
          rw [List.length_set] at hxl
          by_cases e : i = x
          · subst e
            rw [getD_set_eq _ hi] at hxx
            omega
          · rw [getD_set_ne _ e] at hxx
            rw [getD_set_ne _ (by omega)]
            exact h.settled x hx0 (by omega) hxl hxx
        · intro x hx
          by_cases e : i = x
          · subst e
            rw [getD_set_eq _ hi]
            omega
          · rw [getD_set_ne _ e]
        · intro x hx
          by_cases e : i = x
          · subst e
            rw [getD_set_eq _ hi]
            omega
          · rw [getD_set_ne _ e]
        · intro hfix
          have heq : t.getD (t.getD i 0) 0 = t.getD i 0 := by
            have := hb (t.getD i 0) (by omega)
            omega
          have := hfix.settled (t.getD i 0) hv (by omega) (by omega) heq
          omega
      · apply hsame
        · intro k
          simp only [optimize_for, if_pos hi, hr, Run.ret_bind, if_pos hv, hwhile,
            if_neg hw]
        · intro hxx
          rw [hxx] at hw
          omega
    · rw [if_neg hge] at hwhile
      have hwr : arr_write t i (t.getD i 0) = Run.ret t := by
        rw [arr_write_ok hi, set_getD_self hi]
      apply hsame
      · intro k
        simp only [optimize_for, if_pos hi, hr, Run.ret_bind, if_pos hv, hwhile, hwr]
      · intro hxx
        rw [hxx] at hge
        omega
  · apply hsame
    · intro k
      simp only [optimize_for, if_pos hi, hr, Run.ret_bind, if_neg hv]
    · intro hxx
      omega

/-- Run of the outer loop of `optimize_lps_table` from a state satisfying the invariant:
no access is out of bounds, `k ≥ n - i` executions of the body are enough, entries are
only lowered and never zeroed, and a table that already satisfies the invariant
everywhere is left as it is. -/
theorem optimize_for_spec (n fuel : Nat) :
    ∀ (k : Nat) (t : List Nat) (i : Nat), t.length = n → OptInv t i → 0 < i → i ≤ n →
      n - i ≤ k →
      ∃ t1, optimize_for n (fuel + 1) k t i = Run.ret t1
        ∧ t1.length = n ∧ OptInv t1 n
        ∧ (∀ x, x < n → t1.getD x 0 ≤ t.getD x 0)
        ∧ (∀ x, x < n → (t1.getD x 0 = 0 ↔ t.getD x 0 = 0))
        ∧ (OptInv t n → t1 = t) := by
  intro k
  induction k with
  | zero =>
    intro t i ht h hi0 hin hk
    have e : i = n := by omega
    subst e
    exact ⟨t, by simp only [optimize_for, if_neg (Nat.lt_irrefl i)], ht, h,
      fun _ _ => le_refl _, fun _ _ => Iff.rfl, fun _ => rfl⟩
  | succ k ih =>
    intro t i ht h hi0 hin hk
    by_cases hi : i < n
    · subst ht
      obtain ⟨t1, hstep, hlen1, hinv1, hle1, hz1, hfix1⟩ := optimize_for_step h hi0 hi fuel
      obtain ⟨t2, hrun, hlen2, hinv2, hle2, hz2, hfix2⟩ :=
        ih t1 (i + 1) hlen1 hinv1 (by omega) (by omega) (by omega)
      refine ⟨t2, by rw [hstep k, hrun], hlen2, hinv2, ?_, ?_, ?_⟩
      · intro x hx
        exact le_trans (hle2 x hx) (hle1 x hx)
      · intro x hx
        exact (hz2 x hx).trans (hz1 x hx)
      · intro hfix
        have e1 := hfix1 hfix
        rw [e1] at hfix2
        exact hfix2 hfix
    · have e : i = n := by omega
      subst e
      exact ⟨t, by simp only [optimize_for, if_neg hi], ht, h,
        fun _ _ => le_refl _, fun _ _ => Iff.rfl, fun _ => rfl⟩

/-- Run of `optimize_lps_table` on a table whose entries are at most their index. -/
theorem optimize_lps_table_spec (t : List Nat) (fuel : Nat)
    (hb : ∀ x, x < t.length → t.getD x 0 ≤ x) (hfuel : t.length ≤ fuel) :
    ∃ t1, optimize_lps_table fuel (some t) (t.length : Int) = Run.ret (some t1)
      ∧ t1.length = t.length ∧ OptInv t1 t.length
      ∧ (∀ x, x < t.length → t1.getD x 0 ≤ t.getD x 0)
      ∧ (∀ x, x < t.length → (t1.getD x 0 = 0 ↔ t.getD x 0 = 0))
      ∧ (OptInv t t.length → t1 = t) := by
  by_cases h0 : t.length = 0
  · have hle : (t.length : Int) ≤ 0 := by omega
    refine ⟨t, by simp only [optimize_lps_table, if_pos hle], rfl, ⟨hb, ?_⟩,
      fun _ _ => le_refl _, fun _ _ => Iff.rfl, fun _ => rfl⟩
    intro x _ hx
    omega
  · obtain ⟨f, rfl⟩ : ∃ f, fuel = f + 1 := ⟨fuel - 1, by omega⟩
    have hpos : ¬ ((t.length : Int) ≤ 0) := by omega
    have hinit : OptInv t 1 := ⟨hb, fun x hx0 hx1 => by omega⟩
    obtain ⟨t1, hrun, hrest⟩ :=
      optimize_for_spec t.length f (f + 1) t 1 rfl hinit (by omega) (by omega) (by omega)
    refine ⟨t1, ?_, hrest⟩
    simp only [optimize_lps_table, if_neg hpos, Int.toNat_natCast, hrun, Run.ret_bind]

/-- The entries of a failure function are at most their index. -/
theorem IsLps.entry_le {P L : List Nat} (h : IsLps P L) :
    ∀ x, x < L.length → L.getD x 0 ≤ x := by
  intro x hx
  have := (h.2 (x + 1) (by omega) (by rw [← h.1]; omega)).1
  have e : x + 1 - 1 = x := by omega
  rw [e] at this
  omega

/-- A table returned by `compute_lps_table` for a pattern and its length is the failure
function of the pattern. -/
theorem compute_lps_table_is_lps {fc : Nat} {P t : List Nat}
    (h : compute_lps_table fc (some P) (P.length : Int) = Run.ret (some t)) :
    IsLps P t := by
  by_cases h0 : P.length = 0
  · have hle : (P.length : Int) ≤ 0 := by omega
    simp only [compute_lps_table, if_pos hle, Run.ret.injEq] at h
    exact absurd h (by simp)
  · rcases compute_lps_table_spec P (by omega) fc with ⟨ht, _⟩ | ⟨L, hL, hspec⟩
    · rw [ht] at h
      exact absurd h (by simp)
    · rw [hL, Run.ret.injEq, Option.some.injEq] at h
      rw [← h]
      exact hspec

/-- C14: the normalisation pass is idempotent. For every table `t` whose entries satisfy
`0 ≤ t[i] ≤ i`, in particular every table returned by `compute_lps_table`, the call
`optimize_lps_table(t, len)` returns (with fuel `len` for the outer loop and for every
run of the inner loop), and applying it to its own output gives that output again. -/
theorem optimize_lps_table_idempotent (t : List Nat) (fuel : Nat)
    (ht : (∀ i k : Nat, t[i]? = some k → k ≤ i)
      ∨ ∃ fc P, compute_lps_table fc (some P) (P.length : Int) = Run.ret (some t))
    (hfuel : t.length ≤ fuel) :
    ∃ t1, optimize_lps_table fuel (some t) (t.length : Int) = Run.ret (some t1)
      ∧ optimize_lps_table fuel (some t1) (t.length : Int) = Run.ret (some t1) := by
  have hb : ∀ x, x < t.length → t.getD x 0 ≤ x := by
    rcases ht with hb | ⟨fc, P, hP⟩
    · intro x hx
      exact hb x _ (getElem_opt_eq_some_getD hx)
    · exact (compute_lps_table_is_lps hP).entry_le
  obtain ⟨t1, hrun, hlen, hinv, _, _, _⟩ := optimize_lps_table_spec t fuel hb hfuel
  refine ⟨t1, hrun, ?_⟩
  obtain ⟨t2, hrun2, _, _, _, _, hfix⟩ :=
    optimize_lps_table_spec t1 fuel hinv.bound (by omega)
  rw [hlen] at hrun2 hfix
  rw [hrun2, hfix hinv]

theorem optimize_lps_table_idempotent_witness :
    ((∀ i k : Nat, ([0, 1, 2, 3] : List Nat)[i]? = some k → k ≤ i)
      ∨ ∃ fc P, compute_lps_table fc (some P) (P.length : Int)
          = Run.ret (some [0, 1, 2, 3]))
    ∧ ([0, 1, 2, 3] : List Nat).length ≤ 4
    ∧ ∃ t1, optimize_lps_table 4 (some [0, 1, 2, 3]) (([0, 1, 2, 3] : List Nat).length : Int)
          = Run.ret (some t1)
        ∧ optimize_lps_table 4 (some t1) (([0, 1, 2, 3] : List Nat).length : Int)
          = Run.ret (some t1) :=
  ⟨Or.inr ⟨6, [65, 65, 65, 65], by decide⟩, by decide,
    optimize_lps_table_idempotent [0, 1, 2, 3] 4 (Or.inr ⟨6, [65, 65, 65, 65], by decide⟩)
      (by decide)⟩

/-! ## One execution of a loop body under the invariant -/

/-- One execution of the body of the loop of `kmp_search` from a state satisfying the
invariant: no access is out of bounds; the body either returns, or reaches the loop
test in a state that satisfies the invariant again, with `i` unchanged or advanced by
one and the measure `2 (n - i) + j` smaller. -/
theorem kmp_search_body_step {P T L : List Nat} {i j : Nat} (hL : IsLps P L)
    (h : ScanInv P T i j) (hi : i < T.length) :
    (∃ i1 j1, kmp_search_body P L P.length T T.length i j = Run.ret (.next i1 j1)
        ∧ ScanInv P T i1 j1 ∧ i ≤ i1 ∧ i1 ≤ i + 1
        ∧ 2 * (T.length - i1) + j1 < 2 * (T.length - i) + j)
    ∨ ∃ r, kmp_search_body P L P.length T T.length i j = Run.ret (.done r) := by
  have hji := h.hji
  have hin := h.hin
  have hjm := h.hjm
  have hLlen := hL.1
  have hr1 : cstr_read P j = Run.ret (P.getD j 0) := cstr_read_ok (by omega)
  have hr2 : cstr_read T i = Run.ret (T.getD i 0) := cstr_read_ok (by omega)
  by_cases heq : P.getD j 0 = T.getD i 0
  · have hadv := h.advance heq
    by_cases hm : j + 1 = P.length
    · right
      exact ⟨((i + 1 : Nat) : Int) - ((j + 1 : Nat) : Int),
        by simp only [kmp_search_body, hr1, hr2, Run.ret_bind, if_pos heq, if_pos hm]⟩
    · left
      have hscan : ScanInv P T (i + 1) (j + 1) := ⟨by omega, by omega, by omega, hadv⟩
      by_cases hi1 : i + 1 < T.length
      · have hr3 : cstr_read P (j + 1) = Run.ret (P.getD (j + 1) 0) :=
          cstr_read_ok (by omega)
        have hr4 : cstr_read T (i + 1) = Run.ret (T.getD (i + 1) 0) :=
          cstr_read_ok (by omega)
        by_cases hne : P.getD (j + 1) 0 ≠ T.getD (i + 1) 0
        · have hrd : arr_read L (((j + 1 : Nat) : Int) - 1)
              = Run.ret (L.getD (j + 1 - 1) 0) :=
            arr_read_pred (by omega) (by omega)
          obtain ⟨hscan1, hv, _⟩ := hscan.shift hL hne (Nat.succ_ne_zero j)
          refine ⟨i + 1, L.getD (j + 1 - 1) 0, ?_, hscan1, by omega, by omega, by omega⟩
          simp only [kmp_search_body, hr1, hr2, Run.ret_bind, if_pos heq, if_neg hm,
            if_pos hi1, hr3, hr4, if_pos hne, if_pos (Nat.succ_ne_zero j), hrd]
        · refine ⟨i + 1, j + 1, ?_, hscan, by omega, by omega, by omega⟩
          simp only [kmp_search_body, hr1, hr2, Run.ret_bind, if_pos heq, if_neg hm,
            if_pos hi1, hr3, hr4, if_neg hne]
      · refine ⟨i + 1, j + 1, ?_, hscan, by omega, by omega, by omega⟩
        simp only [kmp_search_body, hr1, hr2, Run.ret_bind, if_pos heq, if_neg hm,
          if_neg hi1]
  · left
    have hjm1 : ¬ j = P.length := by omega
    by_cases hj : j ≠ 0
    · have hrd : arr_read L ((j : Int) - 1) = Run.ret (L.getD (j - 1) 0) :=
        arr_read_pred (by omega) (by omega)
      obtain ⟨hscan1, hv, _⟩ := h.shift hL heq hj
      refine ⟨i, L.getD (j - 1) 0, ?_, hscan1, by omega, by omega, by omega⟩
      simp only [kmp_search_body, hr1, hr2, Run.ret_bind, if_neg heq, if_neg hjm1,
        if_pos hi, if_pos (show P.getD j 0 ≠ T.getD i 0 from heq), if_pos hj, hrd]
    · have hj0 : j = 0 := by omega
      obtain ⟨hscan1, _⟩ := h.skip_byte hi heq hj0
      refine ⟨i + 1, j, ?_, hscan1, by omega, by omega, by omega⟩
      simp only [kmp_search_body, hr1, hr2, Run.ret_bind, if_neg heq, if_neg hjm1,
        if_pos hi, if_pos (show P.getD j 0 ≠ T.getD i 0 from heq), if_neg hj]

/-- One execution of the body of the loop of `kmp_search_all` from a state satisfying
the invariant: no access is out of bounds, and the body either leaves the function
because `realloc` failed, or reaches the loop test in a state that satisfies the
invariant again, with `i` unchanged or advanced by one and the measure
`2 (n - i) + j` smaller. -/
theorem kmp_search_all_body_step {P T L : List Nat} {s : ScanAllState} (hL : IsLps P L)
    (h : ScanInv P T s.i s.j) (hi : s.i < T.length)
    (hcap : CapInv s.positions s.capacity) :
    kmp_search_all_body P L P.length T T.length s = Run.ret none
    ∨ ∃ s1, kmp_search_all_body P L P.length T T.length s = Run.ret (some s1)
      ∧ ScanInv P T s1.i s1.j ∧ s.i ≤ s1.i ∧ s1.i ≤ s.i + 1
      ∧ 2 * (T.length - s1.i) + s1.j < 2 * (T.length - s.i) + s.j
      ∧ CapInv s1.positions s1.capacity := by
  obtain ⟨i, j, positions, capacity⟩ := s
  simp only at h hi hcap ⊢
  have hji := h.hji
  have hin := h.hin
  have hjm := h.hjm
  have hLlen := hL.1
  have hr1 : cstr_read P j = Run.ret (P.getD j 0) := cstr_read_ok (by omega)
  have hr2 : cstr_read T i = Run.ret (T.getD i 0) := cstr_read_ok (by omega)
  by_cases heq : P.getD j 0 = T.getD i 0
  · have hadv := h.advance heq
    by_cases hm : j + 1 = P.length
    · have hrd : arr_read L (((j + 1 : Nat) : Int) - 1)
          = Run.ret (L.getD (j + 1 - 1) 0) :=
        arr_read_pred (by omega) (by omega)
      rw [hm] at hadv
      obtain ⟨_, hscan, _⟩ :=
        accept_sound (i := i + 1) hL (by omega) (by omega) (by omega) hadv
      have e1 : j + 1 - 1 = P.length - 1 := by omega
      rw [← e1] at hscan
      have hv := hscan.hjm
      rcases capacity_step (((i + 1 : Nat) : Int) - ((j + 1 : Nat) : Int)) hcap with
        ⟨hfail, _⟩ | ⟨hnf, hw, hcap1⟩
      · left
        simp only [kmp_search_all_body, hr1, hr2, Run.ret_bind, if_pos heq, if_pos hm,
          if_pos hfail]
      · right
        refine ⟨{ i := i + 1, j := L.getD (j + 1 - 1) 0,
                  positions :=
                    positions ++ [((i + 1 : Nat) : Int) - ((j + 1 : Nat) : Int)],
                  capacity := if (positions.length : Int) ≥ capacity
                    then to_int (capacity * 2) else capacity }, ?_, hscan,
          by simp only; omega, by simp only; omega, by simp only; omega, hcap1⟩
        simp only [kmp_search_all_body, hr1, hr2, Run.ret_bind, if_pos heq, if_pos hm,
          if_neg hnf, hw, hrd]
    · have hscan : ScanInv P T (i + 1) (j + 1) := ⟨by omega, by omega, by omega, hadv⟩
      by_cases hi1 : i + 1 < T.length
      · have hr3 : cstr_read P (j + 1) = Run.ret (P.getD (j + 1) 0) :=
          cstr_read_ok (by omega)
        have hr4 : cstr_read T (i + 1) = Run.ret (T.getD (i + 1) 0) :=
          cstr_read_ok (by omega)
        by_cases hne : P.getD (j + 1) 0 ≠ T.getD (i + 1) 0
        · have hrd : arr_read L (((j + 1 : Nat) : Int) - 1)
              = Run.ret (L.getD (j + 1 - 1) 0) :=
            arr_read_pred (by omega) (by omega)
          obtain ⟨hscan1, hv, _⟩ := hscan.shift hL hne (Nat.succ_ne_zero j)
          right
          refine ⟨{ i := i + 1, j := L.getD (j + 1 - 1) 0, positions := positions,
                    capacity := capacity }, ?_, hscan1, by simp only; omega,
            by simp only; omega, by simp only; omega, hcap⟩
          simp only [kmp_search_all_body, hr1, hr2, Run.ret_bind, if_pos heq, if_neg hm,
            if_pos hi1, hr3, hr4, if_pos hne, if_pos (Nat.succ_ne_zero j), hrd]
        · right
          refine ⟨{ i := i + 1, j := j + 1, positions := positions,
                    capacity := capacity }, ?_, hscan, by simp only; omega,
            by simp only; omega, by simp only; omega, hcap⟩
          simp only [kmp_search_all_body, hr1, hr2, Run.ret_bind, if_pos heq, if_neg hm,
            if_pos hi1, hr3, hr4, if_neg hne]
      · right
        refine ⟨{ i := i + 1, j := j + 1, positions := positions,
                  capacity := capacity }, ?_, hscan, by simp only; omega,
          by simp only; omega, by simp only; omega, hcap⟩
        simp only [kmp_search_all_body, hr1, hr2, Run.ret_bind, if_pos heq, if_neg hm,
          if_neg hi1]
  · have hjm1 : ¬ j = P.length := by omega
    by_cases hj : j ≠ 0
    · have hrd : arr_read L ((j : Int) - 1) = Run.ret (L.getD (j - 1) 0) :=
        arr_read_pred (by omega) (by omega)
      obtain ⟨hscan1, hv, _⟩ := h.shift hL heq hj
      right
      refine ⟨{ i := i, j := L.getD (j - 1) 0, positions := positions,
                capacity := capacity }, ?_, hscan1, by simp only; omega,
        by simp only; omega, by simp only; omega, hcap⟩
      simp only [kmp_search_all_body, hr1, hr2, Run.ret_bind, if_neg heq, if_neg hjm1,
        if_pos hi, if_pos (show P.getD j 0 ≠ T.getD i 0 from heq), if_pos hj, hrd]
    · have hj0 : j = 0 := by omega
      obtain ⟨hscan1, _⟩ := h.skip_byte hi heq hj0
      right
      refine ⟨{ i := i + 1, j := j, positions := positions, capacity := capacity }, ?_,
        hscan1, by simp only; omega, by simp only; omega, by simp only; omega, hcap⟩
      simp only [kmp_search_all_body, hr1, hr2, Run.ret_bind, if_neg heq, if_neg hjm1,
        if_pos hi, if_pos (show P.getD j 0 ≠ T.getD i 0 from heq), if_neg hj]

/-! ## The states a scan runs through -/

theorem TraceOk.single {P T : List Nat} {i j : Nat} (h : ScanInv P T i j) :
    TraceOk P T i j [(i, j)] := by
  refine ⟨⟨[], rfl⟩, ?_, ?_, List.chain'_singleton _, ?_⟩
  · intro s hs
    rw [List.mem_singleton] at hs
    rw [hs]
    exact h
  · simp only [List.length_singleton]
    omega
  · have := h.hin
    simp only [advance_count]
    omega

theorem TraceOk.step {P T : List Nat} {i j i1 j1 : Nat} {rest : List (Nat × Nat)}
    (h : ScanInv P T i j) (hrest : TraceOk P T i1 j1 rest) (h1 : i ≤ i1)
    (h2 : i1 ≤ i + 1)
    (hmeas : 2 * (T.length - i1) + j1 < 2 * (T.length - i) + j) :
    TraceOk P T i j ((i, j) :: rest) := by
  obtain ⟨tl, htl⟩ := hrest.head
  refine ⟨⟨rest, rfl⟩, ?_, ?_, ?_, ?_⟩
  · intro s hs
    rw [List.mem_cons] at hs
    rcases hs with hs | hs
    · rw [hs]
      exact h
    · exact hrest.inv s hs
  · have := hrest.len
    simp only [List.length_cons]
    omega
  · apply hrest.chain.cons'
    intro y hy
    rw [htl, List.head?_cons, Option.mem_def, Option.some.injEq] at hy
    rw [← hy]
    exact ⟨h1, h2⟩
  · have hadv := hrest.adv
    rw [htl] at hadv ⊢
    simp only [advance_count]
    by_cases hlt : i < i1
    · rw [if_pos hlt]
      omega
    · rw [if_neg hlt]
      omega

/-- The states of the loop of `kmp_search`, from a state satisfying the invariant. -/
theorem kmp_search_states_ok {P T L : List Nat} (hL : IsLps P L) :
    ∀ (k i j : Nat), ScanInv P T i j →
      TraceOk P T i j (kmp_search_states P L P.length T T.length k i j) := by
  intro k
  induction k with
  | zero =>
    intro i j h
    simp only [kmp_search_states]
    exact TraceOk.single h
  | succ k ih =>
    intro i j h
    by_cases hi : i < T.length
    · rcases kmp_search_body_step hL h hi with
        ⟨i1, j1, hbody, hscan, h1, h2, hmeas⟩ | ⟨r, hbody⟩
      · simp only [kmp_search_states, if_pos hi, hbody]
        exact TraceOk.step h (ih i1 j1 hscan) h1 h2 hmeas
      · simp only [kmp_search_states, if_pos hi, hbody]
        exact TraceOk.single h
    · simp only [kmp_search_states, if_neg hi]
      exact TraceOk.single h

/-- The states of the loop of `kmp_search_all`, from a state satisfying the
invariant. -/
theorem kmp_search_all_states_ok {P T L : List Nat} (hL : IsLps P L) :
    ∀ (k : Nat) (s : ScanAllState), ScanInv P T s.i s.j →
      CapInv s.positions s.capacity →
      TraceOk P T s.i s.j (kmp_search_all_states P L P.length T T.length k s) := by
  intro k
  induction k with
  | zero =>
    intro s h _
    simp only [kmp_search_all_states]
    exact TraceOk.single h
  | succ k ih =>
    intro s h hcap
    by_cases hi : s.i < T.length
    · rcases kmp_search_all_body_step hL h hi hcap with
        hbody | ⟨s1, hbody, hscan, h1, h2, hmeas, hcap1⟩
      · simp only [kmp_search_all_states, if_pos hi, hbody]
        exact TraceOk.single h
      · simp only [kmp_search_all_states, if_pos hi, hbody]
        exact TraceOk.step h (ih s1 hscan hcap1) h1 h2 hmeas
    · simp only [kmp_search_all_states, if_neg hi]
      exact TraceOk.single h

/-- Bytes that agree with the first `n` bytes of the text agree with the text. -/
theorem agree_of_take {P T : List Nat} {n k s : Nat} (h : agree P (T.take n) k s)
    (hs : s + k ≤ n) : agree P T k s := by
  intro t ht
  have e := h t ht
  rw [e, List.getD_eq_getElem?_getD, List.getD_eq_getElem?_getD, List.getElem?_take,
    if_pos (by omega)]

/-- The states of the loop of `kmp_search` run with a bound `n` within the text. -/
theorem kmp_search_states_bounded {P T L : List Nat} (hL : IsLps P L) (hP : 0 < P.length)
    {n : Nat} (hn : n ≤ T.length) (k : Nat) :
    TraceOk P (T.take n) 0 0 (kmp_search_states P L P.length T n k 0 0) := by
  have h := kmp_search_states_ok (T := T.take n) hL k 0 0 (ScanInv.at_start hP)
  rw [List.length_take_of_le hn, kmp_search_states_take P L P.length hn] at h
  exact h

/-- The states of the loop of `kmp_search_all` run with a bound `n` within the
text. -/
theorem kmp_search_all_states_bounded {P T L : List Nat} (hL : IsLps P L)
    (hP : 0 < P.length) {n : Nat} (hn : n ≤ T.length) (k : Nat) :
    TraceOk P (T.take n) 0 0
      (kmp_search_all_states P L P.length T n k
        { i := 0, j := 0, positions := [], capacity := 10 }) := by
  have h := kmp_search_all_states_ok (T := T.take n) hL k
    { i := 0, j := 0, positions := [], capacity := 10 } (ScanInv.at_start hP)
    CapInv.initial
  rw [List.length_take_of_le hn, kmp_search_all_states_take P L P.length hn] at h
  exact h

/-- With fuel for `2 n` executions of the body, the loops of `kmp_search` and
`kmp_search_all` run with a bound `n` within the text return. -/
theorem scan_loops_return {P T L : List Nat} (hL : IsLps P L) (hP : 0 < P.length)
    {n : Nat} (hn : n ≤ T.length) (fuel : Nat) (hfuel : 2 * n ≤ fuel) :
    (∃ r, kmp_search_loop P L P.length T n fuel 0 0 = Run.ret r)
    ∧ (∃ R, kmp_search_all_loop P L P.length T n fuel 0 0 [] 10 = Run.ret R) := by
  have hlt : (T.take n).length = n := List.length_take_of_le hn
  constructor
  · have hspec := search_loop_spec (T := T.take n) hL fuel 0 0
      (ScanInv.at_start hP) (fun o ho => absurd ho (Nat.not_lt_zero o))
    rw [hlt, kmp_search_loop_take P L P.length hn] at hspec
    rcases hspec with ⟨_, hf⟩ | ⟨o, hr, _⟩ | ⟨hr, _⟩
    · omega
    · exact ⟨_, hr⟩
    · exact ⟨_, hr⟩
  · have hspec := search_all_loop_spec (T := T.take n) hL fuel 0 0 [] 10
      (ScanInv.at_start hP) (AccInv.empty P _) CapInv.initial
    rw [hlt, kmp_search_all_loop_take P L P.length hn] at hspec
    rcases hspec with ⟨_, hf⟩ | ⟨R, hR, _⟩ | ⟨hR, _⟩
    · omega
    · exact ⟨_, hR⟩
    · exact ⟨_, hR⟩

/-- C15: linear scan bound. For a matcher built by `kmp_create` and every ASCII text
of length `n`: the bound of the main loops of `kmp_search` and `kmp_search_all`, the
`int` value of `strlen(text)`, is at most `n`; the loops terminate within `2 n`
executions of the body (with that fuel the loops, and the calls, return, the loop of
`kmp_search_all` with its buffer or with `NULL`), and so do the loops run with any bound
`n' ≤ n`, `n` itself included, within `2 n'` executions; and along the states `(i, j)`
met at the loop test, for any such bound and any number `k` of executions, there are at
most `2 n' + 1` tests, the text index `i` never moves backwards and moves by at most one
byte per execution, and it is advanced at most `n'` times. -/
theorem scan_linear_bound (fc : Nat) (P T : List Nat) (M : KMPMatcher)
    (hM : kmp_create fc (some P) = Run.ret (some M)) (hascii : ∀ b ∈ T, b ≤ 127) :
    (strlen_int T).toNat ≤ T.length
    ∧ (∀ fuel, 2 * T.length ≤ fuel →
      (∃ r, kmp_search_loop M.pattern M.lps M.pattern_len T (strlen_int T).toNat fuel 0 0
            = Run.ret r
        ∧ kmp_search fuel (some M) (some T) = Run.ret r)
      ∧ (∃ R, kmp_search_all_loop M.pattern M.lps M.pattern_len T (strlen_int T).toNat
              fuel 0 0 [] 10
            = Run.ret R
        ∧ ∃ r, kmp_search_all fuel (some M) (some T) (some 0) = Run.ret r
            ∧ r.offsets = R.getD []))
    ∧ (∀ n fuel, n ≤ T.length → 2 * n ≤ fuel →
      (∃ r, kmp_search_loop M.pattern M.lps M.pattern_len T n fuel 0 0 = Run.ret r)
      ∧ (∃ R, kmp_search_all_loop M.pattern M.lps M.pattern_len T n fuel 0 0 [] 10
            = Run.ret R))
    ∧ (∀ n k, n ≤ T.length →
        (kmp_search_states M.pattern M.lps M.pattern_len T n k 0 0).length ≤ 2 * n + 1
        ∧ List.Chain' scan_step_ok
            (kmp_search_states M.pattern M.lps M.pattern_len T n k 0 0)
        ∧ advance_count (kmp_search_states M.pattern M.lps M.pattern_len T n k 0 0) ≤ n)
    ∧ (∀ n k, n ≤ T.length →
        (kmp_search_all_states M.pattern M.lps M.pattern_len T n k
            { i := 0, j := 0, positions := [], capacity := 10 }).length
          ≤ 2 * n + 1
        ∧ List.Chain' scan_step_ok
            (kmp_search_all_states M.pattern M.lps M.pattern_len T n k
              { i := 0, j := 0, positions := [], capacity := 10 })
        ∧ advance_count
            (kmp_search_all_states M.pattern M.lps M.pattern_len T n k
              { i := 0, j := 0, positions := [], capacity := 10 })
          ≤ n) := by
  have ha := (is_ascii_loop_iff T).2 hascii
  obtain ⟨hP, _, hpat, hlen, hcomp, hL⟩ := kmp_create_built hM
  have hle := strlen_int_toNat_le T
  refine ⟨hle, ?_, ?_, ?_, ?_⟩
  · intro fuel hfuel
    rw [hpat, hlen]
    constructor
    · rcases kmp_search_prefix hM T fuel (by omega) ha with ⟨o, hr, _⟩ | ⟨hr, _⟩
      · refine ⟨_, ?_, hr⟩
        rw [← kmp_search_run hM T fuel ha]
        exact hr
      · refine ⟨_, ?_, hr⟩
        rw [← kmp_search_run hM T fuel ha]
        exact hr
    · have hlt : (T.take (strlen_int T).toNat).length = (strlen_int T).toNat :=
        List.length_take_of_le hle
      have hacc0 : AccInv P (T.take (strlen_int T).toNat) (0 - 0) [] := AccInv.empty P _
      have hspec := search_all_loop_spec (T := T.take (strlen_int T).toNat) hL fuel 0 0
        [] 10 (ScanInv.at_start hP) hacc0 CapInv.initial
      rw [hlt, kmp_search_all_loop_take P M.lps P.length hle] at hspec
      rw [kmp_search_all_run hM T 0 fuel ha]
      rcases hspec with ⟨_, hf⟩ | ⟨R, hR, _, _⟩ | ⟨hR, _⟩
      · omega
      · refine ⟨some R, hR, ?_⟩
        rw [hR, Run.ret_bind]
        by_cases h0 : R.length = 0
        · simp only [if_pos h0]
          exact ⟨_, rfl, (List.length_eq_zero.1 h0).symm⟩
        · simp only [if_neg h0]
          exact ⟨_, rfl, rfl⟩
      · refine ⟨none, hR, ?_⟩
        rw [hR, Run.ret_bind]
        exact ⟨_, rfl, rfl⟩
  · intro n fuel hn hfuel
    rw [hpat, hlen]
    exact scan_loops_return hL hP hn fuel hfuel
  · intro n k hn
    rw [hpat, hlen]
    have htr := kmp_search_states_bounded (T := T) hL hP hn k
    have h1 := htr.len
    have h2 := htr.adv
    rw [List.length_take_of_le hn] at h1 h2
    exact ⟨by omega, htr.chain, by omega⟩
  · intro n k hn
    rw [hpat, hlen]
    have htr := kmp_search_all_states_bounded (T := T) hL hP hn k
    have h1 := htr.len
    have h2 := htr.adv
    rw [List.length_take_of_le hn] at h1 h2
    exact ⟨by omega, htr.chain, by omega⟩

theorem scan_linear_bound_witness :
    kmp_create 2 (some [65, 65])
        = Run.ret (some { pattern := [65, 65], pattern_len := 2, lps := [0, 1],
                          is_compiled := true, memory_usage := 51 })
    ∧ (∀ b ∈ ([65, 65, 65] : List Nat), b ≤ 127)
    ∧ (strlen_int [65, 65, 65]).toNat ≤ ([65, 65, 65] : List Nat).length
    ∧ (∀ fuel, 2 * ([65, 65, 65] : List Nat).length ≤ fuel →
        (∃ r, kmp_search_loop [65, 65] [0, 1] 2 [65, 65, 65]
              (strlen_int [65, 65, 65]).toNat fuel 0 0 = Run.ret r
          ∧ kmp_search fuel
              (some { pattern := [65, 65], pattern_len := 2, lps := [0, 1],
                      is_compiled := true, memory_usage := 51 })
              (some [65, 65, 65]) = Run.ret r)
        ∧ (∃ R, kmp_search_all_loop [65, 65] [0, 1] 2 [65, 65, 65]
              (strlen_int [65, 65, 65]).toNat fuel 0 0 [] 10 = Run.ret R
          ∧ ∃ r, kmp_search_all fuel
              (some { pattern := [65, 65], pattern_len := 2, lps := [0, 1],
                      is_compiled := true, memory_usage := 51 })
              (some [65, 65, 65]) (some 0) = Run.ret r
            ∧ r.offsets = R.getD []))
    ∧ (∀ n fuel, n ≤ ([65, 65, 65] : List Nat).length → 2 * n ≤ fuel →
      (∃ r, kmp_search_loop [65, 65] [0, 1] 2 [65, 65, 65] n fuel 0 0 = Run.ret r)
      ∧ (∃ R, kmp_search_all_loop [65, 65] [0, 1] 2 [65, 65, 65] n fuel 0 0 [] 10
            = Run.ret R))
    ∧ (∀ n k, n ≤ ([65, 65, 65] : List Nat).length →
        (kmp_search_states [65, 65] [0, 1] 2 [65, 65, 65] n k 0 0).length ≤ 2 * n + 1
        ∧ List.Chain' scan_step_ok
            (kmp_search_states [65, 65] [0, 1] 2 [65, 65, 65] n k 0 0)
        ∧ advance_count (kmp_search_states [65, 65] [0, 1] 2 [65, 65, 65] n k 0 0) ≤ n)
    ∧ (∀ n k, n ≤ ([65, 65, 65] : List Nat).length →
        (kmp_search_all_states [65, 65] [0, 1] 2 [65, 65, 65] n k
            { i := 0, j := 0, positions := [], capacity := 10 }).length
          ≤ 2 * n + 1
        ∧ List.Chain' scan_step_ok
            (kmp_search_all_states [65, 65] [0, 1] 2 [65, 65, 65] n k
              { i := 0, j := 0, positions := [], capacity := 10 })
        ∧ advance_count
            (kmp_search_all_states [65, 65] [0, 1] 2 [65, 65, 65] n k
              { i := 0, j := 0, positions := [], capacity := 10 })
          ≤ n) :=
  ⟨by decide, by decide,
    scan_linear_bound 2 [65, 65] [65, 65, 65]
      { pattern := [65, 65], pattern_len := 2, lps := [0, 1], is_compiled := true,
        memory_usage := 51 } (by decide) (by decide)⟩

/-- C20: scanner state invariant. For a matcher built by `kmp_create` from a pattern
`P` of length `m` and every text `T` of length `n` (ASCII or not), at every evaluation
of the loop test of `kmp_search` and of `kmp_search_all`, run with the bound `n` or
with any bound `n' ≤ n` (the code runs them with the `int` value of `strlen(T)`), the
indices satisfy `0 ≤ j < m` and `j ≤ i ≤ n' ≤ n`, and the first `j` bytes of `P` are the
`j` bytes of `T` ending at `i`: `P[0..j) == T[i-j..i)`.  So `j` is never `m` at the loop
test. -/
theorem scan_state_invariant (fc : Nat) (P T : List Nat) (M : KMPMatcher) (k : Nat)
    (hM : kmp_create fc (some P) = Run.ret (some M)) :
    ((strlen_int T).toNat ≤ T.length)
    ∧ ∀ n, n ≤ T.length →
      (∀ s ∈ kmp_search_states M.pattern M.lps M.pattern_len T n k 0 0,
        s.2 < P.length ∧ s.2 ≤ s.1 ∧ s.1 ≤ n ∧ s.1 ≤ T.length
          ∧ P.take s.2 = (T.drop (s.1 - s.2)).take s.2)
      ∧ (∀ s ∈ kmp_search_all_states M.pattern M.lps M.pattern_len T n k
            { i := 0, j := 0, positions := [], capacity := 10 },
        s.2 < P.length ∧ s.2 ≤ s.1 ∧ s.1 ≤ n ∧ s.1 ≤ T.length
          ∧ P.take s.2 = (T.drop (s.1 - s.2)).take s.2) := by
  obtain ⟨hP, _, hpat, hlen, hcomp, hL⟩ := kmp_create_built hM
  refine ⟨strlen_int_toNat_le T, ?_⟩
  intro n hn
  have hconv : ∀ s : Nat × Nat, ScanInv P (T.take n) s.1 s.2 →
      s.2 < P.length ∧ s.2 ≤ s.1 ∧ s.1 ≤ n ∧ s.1 ≤ T.length
        ∧ P.take s.2 = (T.drop (s.1 - s.2)).take s.2 := by
    intro s hs
    have h1 := hs.hji
    have h2 := hs.hin
    have h3 := hs.hjm
    rw [List.length_take_of_le hn] at h2
    exact ⟨h3, h1, h2, by omega,
      (agree_iff_take (by omega) (by omega)).1 (agree_of_take hs.hag (by omega))⟩
  rw [hpat, hlen]
  constructor
  · intro s hs
    exact hconv s ((kmp_search_states_bounded (T := T) hL hP hn k).inv s hs)
  · intro s hs
    exact hconv s ((kmp_search_all_states_bounded (T := T) hL hP hn k).inv s hs)

theorem scan_state_invariant_witness :
    kmp_create 2 (some [65, 66])
        = Run.ret (some { pattern := [65, 66], pattern_len := 2, lps := [0, 0],
                          is_compiled := true, memory_usage := 51 })
    ∧ ((strlen_int [65, 65, 66, 65]).toNat ≤ ([65, 65, 66, 65] : List Nat).length)
    ∧ ∀ n, n ≤ ([65, 65, 66, 65] : List Nat).length →
      (∀ s ∈ kmp_search_states [65, 66] [0, 0] 2 [65, 65, 66, 65] n 8 0 0,
        s.2 < ([65, 66] : List Nat).length ∧ s.2 ≤ s.1 ∧ s.1 ≤ n
          ∧ s.1 ≤ ([65, 65, 66, 65] : List Nat).length
          ∧ ([65, 66] : List Nat).take s.2
              = (([65, 65, 66, 65] : List Nat).drop (s.1 - s.2)).take s.2)
      ∧ (∀ s ∈ kmp_search_all_states [65, 66] [0, 0] 2 [65, 65, 66, 65] n 8
            { i := 0, j := 0, positions := [], capacity := 10 },
        s.2 < ([65, 66] : List Nat).length ∧ s.2 ≤ s.1 ∧ s.1 ≤ n
          ∧ s.1 ≤ ([65, 65, 66, 65] : List Nat).length
          ∧ ([65, 66] : List Nat).take s.2
              = (([65, 65, 66, 65] : List Nat).drop (s.1 - s.2)).take s.2) :=
  ⟨by decide,
    scan_state_invariant 2 [65, 66] [65, 65, 66, 65]
      { pattern := [65, 66], pattern_len := 2, lps := [0, 0], is_compiled := true,
        memory_usage := 51 } 8 (by decide)⟩

/-! ## The claims, concluded -/

/-- The first element of a strictly ascending list that holds `o` and nothing below
`o` is `o`. -/
theorem head_of_sorted_min {R : List Int} {o : Int}
    (hs : R.Pairwise (fun x y => x < y)) (hmem : o ∈ R) (hmin : ∀ x ∈ R, o ≤ x) :
    R.head? = some o := by
  cases R with
  | nil => exact absurd hmem (List.not_mem_nil o)
  | cons x tl =>
    rw [List.head?_cons]
    have hx := hmin x (List.mem_cons_self x tl)
    rw [List.mem_cons] at hmem
    rcases hmem with e | hin
    · rw [e]
    · have := (List.pairwise_cons.1 hs).1 o hin
      omega

/-- C23 (counterexample): on the text made of `10 * 2^27 + 1` bytes `'A'`
the matcher of the pattern `"A"` makes `kmp_search` return the offset `0`, while
`kmp_search_all` returns `NULL` with `*count = 0`: the buffer is full at `10 * 2^27`
offsets, the doubled `int capacity` leaves the range of `int`, and `realloc` fails. -/
theorem kmp_search_all_gives_up_when_full :
    kmp_create 0 (some [65])
        = Run.ret (some { pattern := [65], pattern_len := 1, lps := [0],
                          is_compiled := true, memory_usage := 46 })
    ∧ kmp_search 2684354562
          (some { pattern := [65], pattern_len := 1, lps := [0],
                  is_compiled := true, memory_usage := 46 })
          (some (List.replicate 1342177281 65)) = Run.ret 0
    ∧ kmp_search_all 2684354562
          (some { pattern := [65], pattern_len := 1, lps := [0],
                  is_compiled := true, memory_usage := 46 })
          (some (List.replicate 1342177281 65)) (some 7)
        = Run.ret { positions := none, count := some 0 } := by
  have hM : kmp_create 0 (some [65])
      = Run.ret (some { pattern := [65], pattern_len := 1, lps := [0],
                        is_compiled := true, memory_usage := 46 }) := by decide
  have hascii : is_ascii_loop (List.replicate 1342177281 65) = true :=
    (is_ascii_loop_iff _).2 (replicate_ascii 1342177281)
  have hlen : (List.replicate 1342177281 65).length = 1342177281 :=
    List.length_replicate _ _
  have hn : (strlen_int (List.replicate 1342177281 65)).toNat = 1342177281 := by
    rw [strlen_int_toNat_eq (by rw [hlen]; norm_num), hlen]
  have hmany := replicate_occurrences_length 1342177281
  refine ⟨hM, ?_, ?_⟩
  · rcases kmp_search_spec hM (List.replicate 1342177281 65) 2684354562
        (by rw [hlen]) hascii (by rw [hlen]; norm_num) with ⟨o, hr, hfirst⟩ | ⟨_, hnone⟩
    · have ho : o = 0 := by
        by_contra hne
        exact hfirst.2 0 (by omega) (replicate_occurs_at (by norm_num))
      rw [ho] at hr
      exact hr
    · exact absurd (replicate_occurs_at (by norm_num)) (hnone 0)
  · obtain ⟨r, hr, h⟩ := kmp_search_all_prefix hM (List.replicate 1342177281 65) 7
      2684354562 (by rw [hn]) hascii
    have htake : (List.replicate 1342177281 65).take 1342177281
        = List.replicate 1342177281 65 := by
      rw [List.take_replicate, Nat.min_self]
    rw [hn, htake] at h
    rcases h with ⟨hacc, hmax, _, _⟩ | ⟨hnone, _⟩
    · have hle := hacc.count_le
      have hcomp : ∀ o : Nat, o < 1342177281 → (o : Int) ∈ r.offsets := fun o ho =>
        hacc.complete o (by omega) (replicate_occurs_at ho)
      have hsub : (List.range 1342177281).map (fun o : Nat => (o : Int)) ⊆ r.offsets := by
        intro x hx
        obtain ⟨o, ho, e⟩ := List.mem_map.1 hx
        rw [← e]
        exact hcomp o (List.mem_range.1 ho)
      have hnd : ((List.range 1342177281).map (fun o : Nat => (o : Int))).Nodup :=
        (List.nodup_range 1342177281).map (fun a b hab => by omega)
      have hbig := (List.subperm_of_subset hnd hsub).length_le
      rw [List.length_map, List.length_range] at hbig
      unfold MAX_CAPACITY at hmax
      omega
    · rw [hr, hnone]

/-- C23 (amended): `kmp_search` agrees with `kmp_search_all` while the buffer of offsets
can grow. For a matcher built by `kmp_create` from a pattern `P`, every text (absent or
not ASCII included) in which `P` occurs at most `10 * 2^27` times, and a present `count`
pointer, both calls return (with fuel for `2 n` executions of the loop body);
`kmp_search` returns `-1` exactly when `kmp_search_all` writes `*count = 0`, and
otherwise it returns the first element of the sequence returned by `kmp_search_all`. -/
theorem kmp_search_agrees_with_search_all (fc fuel : Nat) (P : List Nat)
    (M : KMPMatcher) (text : Option (List Nat)) (c0 : Int)
    (hM : kmp_create fc (some P) = Run.ret (some M))
    (hocc : (occurrences P (text.getD [])).length ≤ MAX_CAPACITY)
    (hfuel : 2 * (text.getD []).length ≤ fuel) :
    ∃ r a, kmp_search fuel (some M) text = Run.ret r
      ∧ kmp_search_all fuel (some M) text (some c0) = Run.ret a
      ∧ (r = -1 ↔ a.count = some 0)
      ∧ (r ≠ -1 → a.offsets.head? = some r) := by
  by_cases ha : is_ascii_string text = true
  · cases text with
    | none => exact absurd ha (by simp [is_ascii_string])
    | some T =>
      have ha1 : is_ascii_loop T = true := ha
      simp only [Option.getD_some] at hocc hfuel
      have hn := strlen_int_toNat_le T
      have hocc1 := occurrences_take_length_le P T (strlen_int T).toNat
      obtain ⟨a, hra, hcase⟩ := kmp_search_all_prefix hM T c0 fuel (by omega) ha1
      rcases hcase with ⟨hacc, _, hcount, _⟩ | ⟨_, hmany⟩
      · rcases kmp_search_prefix hM T fuel (by omega) ha1 with
          ⟨o, hr, hfirst⟩ | ⟨hr, hnone⟩
        · have hmem := hacc.complete o
            (by have := hfirst.1.1; rw [List.length_take_of_le hn] at this; omega)
            hfirst.1
          refine ⟨(o : Int), a, hr, hra, ?_, ?_⟩
          · constructor
            · intro e
              omega
            · intro hc
              rw [hcount, Option.some.injEq] at hc
              have hnil : a.offsets = [] := List.length_eq_zero.1 (by omega)
              rw [hnil] at hmem
              exact absurd hmem (List.not_mem_nil _)
          · intro _
            apply head_of_sorted_min hacc.sorted hmem
            intro x hx
            obtain ⟨o1, e, _, hocc2⟩ := hacc.sound x hx
            have : ¬ o1 < o := fun hlt => hfirst.2 o1 hlt hocc2
            omega
        · refine ⟨-1, a, hr, hra, ?_, fun h => absurd rfl h⟩
          constructor
          · intro _
            have hnil : a.offsets = [] := by
              rcases List.eq_nil_or_concat a.offsets with h | ⟨l, x, h⟩
              · exact h
              · have hx : x ∈ a.offsets := by
                  rw [h]
                  simp
                obtain ⟨o1, _, _, hocc2⟩ := hacc.sound x hx
                exact absurd hocc2 (hnone o1)
            rw [hcount, hnil]
            rfl
          · intro _
            rfl
      · omega
  · have ha1 : is_ascii_string text = false := by simpa using ha
    refine ⟨-1, _, kmp_search_reject fuel (some M) text ha1,
      kmp_search_all_reject fuel (some M) text c0 ha1, ?_, fun h => absurd rfl h⟩
    exact ⟨fun _ => rfl, fun _ => rfl⟩

theorem kmp_search_agrees_with_search_all_witness :
    kmp_create 2 (some [65, 66])
        = Run.ret (some { pattern := [65, 66], pattern_len := 2, lps := [0, 0],
                          is_compiled := true, memory_usage := 51 })
    ∧ (occurrences [65, 66] ((some ([88, 65, 66, 65, 66] : List Nat)).getD [])).length
        ≤ MAX_CAPACITY
    ∧ 2 * ((some ([88, 65, 66, 65, 66] : List Nat)).getD []).length ≤ 10
    ∧ ∃ r a, kmp_search 10
          (some { pattern := [65, 66], pattern_len := 2, lps := [0, 0],
                  is_compiled := true, memory_usage := 51 })
          (some [88, 65, 66, 65, 66]) = Run.ret r
        ∧ kmp_search_all 10
          (some { pattern := [65, 66], pattern_len := 2, lps := [0, 0],
                  is_compiled := true, memory_usage := 51 })
          (some [88, 65, 66, 65, 66]) (some 0) = Run.ret a
        ∧ (r = -1 ↔ a.count = some 0)
        ∧ (r ≠ -1 → a.offsets.head? = some r) :=
  ⟨by decide, by decide, by decide,
    kmp_search_agrees_with_search_all 2 10 [65, 66] _ (some [88, 65, 66, 65, 66]) 0
      (by decide) (by decide) (by decide)⟩

/-- C25: the normalisation pass is not search-preserving. For the pattern "AAAA",
`kmp_create` stores the table `[0,1,2,3]`, which `optimize_lps_table` rewrites to
`[0,1,1,1]`; on the text "AAAAA" the pattern occurs at the offsets 0 and 1, the built
matcher reports both, and the matcher whose `lps` is the rewritten table reports the
offset 0 only.  The rewritten table is not the failure function of the pattern: its
entry 2 is 1, and the longest proper border of "AAA" has length 2. -/
theorem optimize_lps_table_breaks_search :
    kmp_create 6 (some [65, 65, 65, 65])
        = Run.ret (some { pattern := [65, 65, 65, 65], pattern_len := 4,
                          lps := [0, 1, 2, 3], is_compiled := true, memory_usage := 61 })
    ∧ optimize_lps_table 4 (some [0, 1, 2, 3]) 4 = Run.ret (some [0, 1, 1, 1])
    ∧ kmp_search_all 10
        (some { pattern := [65, 65, 65, 65], pattern_len := 4,
                lps := [0, 1, 2, 3], is_compiled := true, memory_usage := 61 })
        (some [65, 65, 65, 65, 65]) (some 0)
        = Run.ret { positions := some [0, 1], count := some 2 }
    ∧ kmp_search_all 10
        (some { pattern := [65, 65, 65, 65], pattern_len := 4,
                lps := [0, 1, 1, 1], is_compiled := true, memory_usage := 61 })
        (some [65, 65, 65, 65, 65]) (some 0)
        = Run.ret { positions := some [0], count := some 1 }
    ∧ occurs_at [65, 65, 65, 65] [65, 65, 65, 65, 65] 1
    ∧ ¬ longest_border [65, 65, 65, 65] 2 1
    ∧ ¬ IsLps [65, 65, 65, 65] [0, 1, 1, 1] := by
  refine ⟨by decide, by decide, by decide, by decide, by decide, ?_, ?_⟩
  · intro h
    have hb : is_border [65, 65, 65, 65] 2 2 := ⟨by decide, ⟨[65], rfl⟩⟩
    have := h.2 2 hb
    omega
  · intro h
    have hmax := h.2 3 (by decide) (by decide)
    have hb : agree [65, 65, 65, 65] [65, 65, 65, 65] 2 (3 - 2) := by
      intro t ht
      have : t = 0 ∨ t = 1 := by omega
      rcases this with e | e <;> subst e <;> rfl
    have := hmax.2.2 2 (by decide) hb
    have e : ([0, 1, 1, 1] : List Nat).getD (3 - 1) 0 = 1 := rfl
    rw [e] at this
    omega

/-- C26: for every table `t` with `0 ≤ t[i] ≤ i` for all `i` (so `t[0] = 0`), in
particular every table returned by `compute_lps_table`, the call
`optimize_lps_table(t, len)` runs to its end without an access out of range (with fuel
`len` for the outer loop and for every run of the inner loop) and leaves a table `t1`
of the same length with `t1[0] = 0` and, for every `i`, `t1[i] ≤ t[i]` and `t1[i] = 0`
exactly when `t[i] = 0`: entries are only lowered, never raised and never zeroed. -/
theorem optimize_lps_table_lowers (t : List Nat) (fuel : Nat)
    (ht : (∀ i k : Nat, t[i]? = some k → k ≤ i)
      ∨ ∃ fc P, compute_lps_table fc (some P) (P.length : Int) = Run.ret (some t))
    (hfuel : t.length ≤ fuel) :
    ∃ t1, optimize_lps_table fuel (some t) (t.length : Int) = Run.ret (some t1)
      ∧ t1.length = t.length
      ∧ (t ≠ [] → t[0]? = some 0 ∧ t1[0]? = some 0)
      ∧ ∀ i a b : Nat, t[i]? = some a → t1[i]? = some b → b ≤ a ∧ (b = 0 ↔ a = 0) := by
  have hb : ∀ x, x < t.length → t.getD x 0 ≤ x := by
    rcases ht with hb | ⟨fc, P, hP⟩
    · intro x hx
      exact hb x _ (getElem_opt_eq_some_getD hx)
    · exact (compute_lps_table_is_lps hP).entry_le
  obtain ⟨t1, hrun, hlen, _, hle, hz, _⟩ := optimize_lps_table_spec t fuel hb hfuel
  refine ⟨t1, hrun, hlen, ?_, ?_⟩
  · intro hne
    have hpos : 0 < t.length := List.length_pos.2 hne
    have h0 := hb 0 hpos
    have h1 := hle 0 hpos
    rw [getElem_opt_eq_some_getD hpos, getElem_opt_eq_some_getD (by omega : 0 < t1.length)]
    exact ⟨congrArg some (by omega), congrArg some (by omega)⟩
  · intro i a b ha hb1
    have hi : i < t.length := by
      by_contra hc
      rw [List.getElem?_eq_none (by omega)] at ha
      exact absurd ha (by simp)
    rw [getElem_opt_eq_some_getD hi, Option.some.injEq] at ha
    rw [getElem_opt_eq_some_getD (by omega : i < t1.length), Option.some.injEq] at hb1
    rw [← ha, ← hb1]
    exact ⟨hle i hi, hz i hi⟩

theorem optimize_lps_table_lowers_witness :
    ((∀ i k : Nat, ([0, 0, 1, 2] : List Nat)[i]? = some k → k ≤ i)
      ∨ ∃ fc P, compute_lps_table fc (some P) (P.length : Int)
          = Run.ret (some [0, 0, 1, 2]))
    ∧ ([0, 0, 1, 2] : List Nat).length ≤ 4
    ∧ ∃ t1, optimize_lps_table 4 (some [0, 0, 1, 2]) (([0, 0, 1, 2] : List Nat).length : Int)
          = Run.ret (some t1)
        ∧ t1.length = ([0, 0, 1, 2] : List Nat).length
        ∧ (([0, 0, 1, 2] : List Nat) ≠ [] →
            ([0, 0, 1, 2] : List Nat)[0]? = some 0 ∧ t1[0]? = some 0)
        ∧ ∀ i a b : Nat, ([0, 0, 1, 2] : List Nat)[i]? = some a → t1[i]? = some b →
            b ≤ a ∧ (b = 0 ↔ a = 0) :=
  ⟨Or.inr ⟨6, [65, 66, 65, 66], by decide⟩, by decide,
    optimize_lps_table_lowers [0, 0, 1, 2] 4 (Or.inr ⟨6, [65, 66, 65, 66], by decide⟩)
      (by decide)⟩

/-- C27 (counterexample): for the pattern made of `2^31` bytes `'A'`,
`validate_pattern` returns true, its test of the length being made in `size_t`, while
`kmp_create` yields no matcher, whatever the fuel, its `int pattern_len` being
`-2^31`. -/
theorem validate_pattern_accepts_long_pattern :
    validate_pattern (some (List.replicate 2147483648 65)) = true
    ∧ ∀ fuel, kmp_create fuel (some (List.replicate 2147483648 65)) = Run.ret none
        ∧ ¬ ∃ M, kmp_create fuel (some (List.replicate 2147483648 65))
              = Run.ret (some M) := by
  have hnone : ∀ fuel,
      kmp_create fuel (some (List.replicate 2147483648 65)) = Run.ret none := by
    intro fuel
    exact kmp_create_null_of_large fuel
      (by rw [List.length_replicate]; norm_num) (by rw [List.length_replicate]; norm_num)
  refine ⟨?_, ?_⟩
  · have h0 : ¬ (List.replicate 2147483648 65).length = 0 := by
      rw [List.length_replicate]
      norm_num
    simp only [validate_pattern, if_neg h0, is_ascii_string]
    exact (is_ascii_loop_iff _).2 (replicate_ascii 2147483648)
  · intro fuel
    refine ⟨hnone fuel, ?_⟩
    rintro ⟨M, hM⟩
    rw [hnone fuel] at hM
    exact absurd hM (by simp)

/-- C27 (amended): `validate_pattern` predicts construction for a pattern that fits the
type of the code. For every pattern `p`, `NULL` included, `validate_pattern(p)` returns
true exactly when `p` is not `NULL`, not empty and all of its bytes are at most 127; for
a pattern of at most `2^31 - 2` bytes that is exactly when `kmp_create(p)` yields a
matcher (allocation succeeding, fuel for the `2 (m - 1)` executions of the table loop);
and whenever `kmp_create(p)` yields a matcher, `validate_pattern(p)` is true and the
pattern has at most `2^31 - 2` bytes. -/
theorem validate_pattern_predicts_create (fuel : Nat) (p : Option (List Nat))
    (hfuel : 2 * ((p.getD []).length - 1) ≤ fuel) :
    (validate_pattern p = true ↔ ∃ P, p = some P ∧ P ≠ [] ∧ ∀ b ∈ P, b ≤ 127)
    ∧ ((p.getD []).length ≤ 2147483646 →
        (validate_pattern p = true ↔ ∃ M, kmp_create fuel p = Run.ret (some M)))
    ∧ (∀ M, kmp_create fuel p = Run.ret (some M) →
        validate_pattern p = true ∧ (p.getD []).length ≤ 2147483646) := by
  cases p with
  | none =>
    refine ⟨⟨fun h => absurd h (by simp [validate_pattern]), ?_⟩,
      fun _ => ⟨fun h => absurd h (by simp [validate_pattern]), ?_⟩, ?_⟩
    · rintro ⟨P, hP, _⟩
      exact absurd hP (by simp)
    · rintro ⟨M, hM⟩
      exact absurd hM (by simp [kmp_create])
    · intro M hM
      exact absurd hM (by simp [kmp_create])
  | some P =>
    by_cases h0 : P.length = 0
    · have hv : validate_pattern (some P) = false := by
        simp only [validate_pattern, if_pos h0]
      have hno : ∀ M, ¬ kmp_create fuel (some P) = Run.ret (some M) := by
        intro M hM
        rw [kmp_create_bad fuel P (Or.inl h0)] at hM
        exact absurd hM (by simp)
      rw [hv]
      refine ⟨⟨fun h => absurd h (by simp), ?_⟩,
        fun _ => ⟨fun h => absurd h (by simp), ?_⟩, fun M hM => absurd hM (hno M)⟩
      · rintro ⟨P1, hP1, hne, _⟩
        cases hP1
        exact absurd (List.length_eq_zero.1 h0) hne
      · rintro ⟨M, hM⟩
        exact absurd hM (hno M)
    · have hv : validate_pattern (some P) = is_ascii_loop P := by
        simp only [validate_pattern, if_neg h0, is_ascii_string]
      rw [hv]
      have hne : P ≠ [] := fun e => h0 (by rw [e]; rfl)
      refine ⟨?_, fun hmax => ?_, fun M hM => ?_⟩
      · rw [is_ascii_loop_iff]
        constructor
        · intro h
          exact ⟨P, rfl, hne, h⟩
        · rintro ⟨P1, hP1, _, h⟩
          cases hP1
          exact h
      · simp only [Option.getD_some] at hmax
        constructor
        · intro h
          obtain ⟨L, _, hM⟩ := kmp_create_ok fuel P (by omega) hmax h hfuel
          exact ⟨_, hM⟩
        · rintro ⟨M, hM⟩
          exact (kmp_create_built hM).2.1
      · exact ⟨(kmp_create_built hM).2.1, kmp_create_built_le hM⟩

theorem validate_pattern_predicts_create_witness :
    2 * (((some ([84, 69, 83, 84] : List Nat)).getD []).length - 1) ≤ 6
    ∧ (validate_pattern (some [84, 69, 83, 84]) = true
        ↔ ∃ P, some ([84, 69, 83, 84] : List Nat) = some P ∧ P ≠ [] ∧ ∀ b ∈ P, b ≤ 127)
    ∧ (((some ([84, 69, 83, 84] : List Nat)).getD []).length ≤ 2147483646 →
        (validate_pattern (some [84, 69, 83, 84]) = true
          ↔ ∃ M, kmp_create 6 (some [84, 69, 83, 84]) = Run.ret (some M)))
    ∧ (∀ M, kmp_create 6 (some [84, 69, 83, 84]) = Run.ret (some M) →
        validate_pattern (some [84, 69, 83, 84]) = true
          ∧ ((some ([84, 69, 83, 84] : List Nat)).getD []).length ≤ 2147483646) :=
  ⟨by decide, validate_pattern_predicts_create 6 (some [84, 69, 83, 84]) (by decide)⟩

/-- The loop of `compute_lps_table` is the iteration of `lps_body`. -/
theorem lps_loop_unfold (pattern : List Nat) (pattern_len fuel : Nat) (s : LpsState) :
    lps_loop pattern pattern_len (fuel + 1) s.lps s.len s.i
      = if s.i < pattern_len then
          lps_body pattern s >>= fun s1 =>
            lps_loop pattern pattern_len fuel s1.lps s1.len s1.i
        else Run.ret s.lps := by
  by_cases hi : s.i < pattern_len
  · simp only [lps_loop, lps_body, if_pos hi, Run.bind_assoc, Run.ite_bind, Run.ret_bind]
  · simp only [lps_loop, if_neg hi]

/-- One execution of the body of the loop of `compute_lps_table` from a state satisfying
the invariant: no access is out of bounds, the invariant holds again, either `i`
advances (and `len` grows by at most one) or `len` strictly decreases, and the measure
`2 (m - i) + len` gets smaller. -/
theorem lps_body_step {P : List Nat} {s : LpsState} (h : LpsInv P s.lps s.len s.i)
    (hi : s.i < P.length) :
    ∃ s1, lps_body P s = Run.ret s1 ∧ LpsInv P s1.lps s1.len s1.i
      ∧ lps_step_ok (s.i, s.len) (s1.i, s1.len)
      ∧ 2 * (P.length - s1.i) + s1.len < 2 * (P.length - s.i) + s.len := by
  obtain ⟨lps, len, i⟩ := s
  simp only at h hi ⊢
  have hlen := h.hlen
  have hr1 : cstr_read P i = Run.ret (P.getD i 0) := cstr_read_ok (by omega)
  have hr2 : cstr_read P len = Run.ret (P.getD len 0) := cstr_read_ok (by omega)
  have hw : ∀ v, arr_write lps i v = Run.ret (lps.set i v) :=
    fun v => arr_write_ok (by rw [h.hsize]; exact hi)
  by_cases heq : P.getD i 0 = P.getD len 0
  · refine ⟨{ lps := lps.set i (len + 1), len := len + 1, i := i + 1 }, ?_,
      h.step_match hi heq, Or.inl ⟨rfl, le_refl _⟩, by simp only; omega⟩
    simp only [lps_body, hr1, hr2, Run.ret_bind, if_pos heq, hw]
  · by_cases hl0 : len = 0
    · refine ⟨{ lps := lps.set i 0, len := len, i := i + 1 }, ?_,
        h.step_zero hi heq hl0, Or.inl ⟨rfl, by simp only; omega⟩, by simp only; omega⟩
      simp only [lps_body, hr1, hr2, Run.ret_bind, if_neg heq, hw,
        if_neg (not_not.mpr hl0)]
    · have hrd : arr_read lps ((len : Int) - 1) = Run.ret (lps.getD (len - 1) 0) :=
        arr_read_pred (by omega) (by rw [h.hsize]; omega)
      have hv := (h.htab len (by omega) (by omega)).1
      refine ⟨{ lps := lps, len := lps.getD (len - 1) 0, i := i }, ?_,
        h.step_fallback heq hl0, Or.inr ⟨rfl, hv⟩, by simp only; omega⟩
      simp only [lps_body, hr1, hr2, Run.ret_bind, if_neg heq, if_pos hl0, hrd]

theorem LpsTraceOk.lps_single (P : List Nat) (i len : Nat) :
    LpsTraceOk P i len [(i, len)] := by
  refine ⟨⟨[], rfl⟩, ?_, List.chain'_singleton _⟩
  simp only [List.length_singleton]
  omega

theorem LpsTraceOk.lps_step {P : List Nat} {i len i1 len1 : Nat} {rest : List (Nat × Nat)}
    (hrest : LpsTraceOk P i1 len1 rest) (hok : lps_step_ok (i, len) (i1, len1))
    (hmeas : 2 * (P.length - i1) + len1 < 2 * (P.length - i) + len) :
    LpsTraceOk P i len ((i, len) :: rest) := by
  obtain ⟨tl, htl⟩ := hrest.head
  refine ⟨⟨rest, rfl⟩, ?_, ?_⟩
  · have := hrest.len_le
    simp only [List.length_cons]
    omega
  · apply hrest.chain.cons'
    intro y hy
    rw [htl, List.head?_cons, Option.mem_def, Option.some.injEq] at hy
    rw [← hy]
    exact hok

/-- The states of the loop of `compute_lps_table`, from a state satisfying the
invariant. -/
theorem lps_states_ok {P : List Nat} :
    ∀ (k : Nat) (s : LpsState), LpsInv P s.lps s.len s.i →
      LpsTraceOk P s.i s.len (lps_states P P.length k s) := by
  intro k
  induction k with
  | zero =>
    intro s _
    simp only [lps_states]
    exact LpsTraceOk.lps_single P s.i s.len
  | succ k ih =>
    intro s h
    by_cases hi : s.i < P.length
    · obtain ⟨s1, hbody, hinv, hok, hmeas⟩ := lps_body_step h hi
      simp only [lps_states, if_pos hi, hbody]
      exact LpsTraceOk.lps_step (ih s1 hinv) hok hmeas
    · simp only [lps_states, if_neg hi]
      exact LpsTraceOk.lps_single P s.i s.len

/-- C21: for every non-empty pattern of length `m`, the loop of `compute_lps_table`
terminates within `2 (m - 1)` executions of its body (with that fuel the loop, and the
call, return); along the states `(i, len)` met at the loop test, for any number `k` of
executions, there are at most `2 (m - 1) + 1` tests, and every execution either
advances `i` by one, `len` growing by at most one, or leaves `i` and strictly decreases
`len`; so `len` is increased only when `i` advances. -/
theorem compute_lps_table_linear (P : List Nat) (hP : P ≠ []) :
    (∀ fuel, 2 * (P.length - 1) ≤ fuel →
      ∃ L, lps_loop P P.length fuel ((List.replicate P.length 0).set 0 0) 0 1 = Run.ret L
        ∧ compute_lps_table fuel (some P) (P.length : Int) = Run.ret (some L))
    ∧ (∀ k,
        (lps_states P P.length k
            { lps := (List.replicate P.length 0).set 0 0, len := 0, i := 1 }).length
          ≤ 2 * (P.length - 1) + 1
        ∧ List.Chain' lps_step_ok
            (lps_states P P.length k
              { lps := (List.replicate P.length 0).set 0 0, len := 0, i := 1 })
        ∧ ∀ a b, [a, b] <:+: lps_states P P.length k
              { lps := (List.replicate P.length 0).set 0 0, len := 0, i := 1 } →
            (a.1 < b.1 ∨ b.2 < a.2) ∧ (a.2 < b.2 → a.1 < b.1)) := by
  have hpos := length_pos_of_ne_nil hP
  constructor
  · intro fuel hfuel
    rcases lps_loop_spec P fuel _ _ _ (LpsInv.at_entry hpos) with ⟨_, hf⟩ | ⟨L, hL, _⟩
    · omega
    · refine ⟨L, hL, ?_⟩
      have hnp : ¬ ((P.length : Int) ≤ 0) := by omega
      have hw : arr_write (List.replicate P.length 0) 0 0
          = Run.ret ((List.replicate P.length 0).set 0 0) :=
        arr_write_ok (by simpa using hpos)
      simp only [compute_lps_table, if_neg hnp, Int.toNat_natCast, hw, Run.ret_bind, hL]
  · intro k
    have htr := lps_states_ok k
      { lps := (List.replicate P.length 0).set 0 0, len := 0, i := 1 }
      (LpsInv.at_entry hpos)
    have hlen := htr.len_le
    simp only at hlen
    refine ⟨by omega, htr.chain, ?_⟩
    intro a b hab
    have hchain : List.Chain' lps_step_ok [a, b] := htr.chain.infix hab
    have hok : lps_step_ok a b := by
      simpa using hchain
    rcases hok with ⟨h1, h2⟩ | ⟨h1, h2⟩
    · exact ⟨Or.inl (by omega), fun _ => by omega⟩
    · exact ⟨Or.inr h2, fun h => by omega⟩

theorem compute_lps_table_linear_witness :
    ([65, 65, 66, 65, 65] : List Nat) ≠ []
    ∧ (∀ fuel, 2 * (([65, 65, 66, 65, 65] : List Nat).length - 1) ≤ fuel →
        ∃ L, lps_loop [65, 65, 66, 65, 65] ([65, 65, 66, 65, 65] : List Nat).length fuel
              ((List.replicate ([65, 65, 66, 65, 65] : List Nat).length 0).set 0 0) 0 1
            = Run.ret L
          ∧ compute_lps_table fuel (some [65, 65, 66, 65, 65])
              (([65, 65, 66, 65, 65] : List Nat).length : Int) = Run.ret (some L))
    ∧ (∀ k,
        (lps_states [65, 65, 66, 65, 65] ([65, 65, 66, 65, 65] : List Nat).length k
            { lps := (List.replicate ([65, 65, 66, 65, 65] : List Nat).length 0).set 0 0,
              len := 0, i := 1 }).length
          ≤ 2 * (([65, 65, 66, 65, 65] : List Nat).length - 1) + 1
        ∧ List.Chain' lps_step_ok
            (lps_states [65, 65, 66, 65, 65] ([65, 65, 66, 65, 65] : List Nat).length k
              { lps := (List.replicate ([65, 65, 66, 65, 65] : List Nat).length 0).set 0 0,
                len := 0, i := 1 })
        ∧ ∀ a b, [a, b] <:+: lps_states [65, 65, 66, 65, 65]
              ([65, 65, 66, 65, 65] : List Nat).length k
              { lps := (List.replicate ([65, 65, 66, 65, 65] : List Nat).length 0).set 0 0,
                len := 0, i := 1 } →
            (a.1 < b.1 ∨ b.2 < a.2) ∧ (a.2 < b.2 → a.1 < b.1)) :=
  ⟨by decide, compute_lps_table_linear [65, 65, 66, 65, 65] (by decide)⟩

/-! ## The naive reference search -/

/-- A read at an `int` index that is not negative. -/
theorem cstr_read_at_cast (s : List Nat) (k : Nat) :
    cstr_read_at s (k : Int) = cstr_read s k := by
  have h : (0 : Int) ≤ (k : Int) := Int.ofNat_nonneg k
  simp only [cstr_read_at, if_pos h, Int.toNat_ofNat]

/-- Run of the inner loop of `naive_search` at a position where the pattern fits, in a
text shorter than `2^31` bytes: it returns `m` exactly when the pattern occurs there. -/
theorem naive_inner_spec {P T : List Nat} {i : Nat} (hfit : i + P.length ≤ T.length)
    (hT : T.length < 2147483648) :
    ∀ (fuel j : Nat), j ≤ P.length → agree P T j i → P.length - j ≤ fuel →
      ∃ r : Nat, naive_inner T P (P.length : Int) (i : Int) fuel (j : Int)
          = Run.ret (r : Int)
        ∧ (r = P.length ↔ agree P T P.length i) := by
  intro fuel
  induction fuel with
  | zero =>
    intro j hj hag hfuel
    have e : j = P.length := by omega
    subst e
    exact ⟨P.length, by simp only [naive_inner, if_neg (lt_irrefl _)],
      ⟨fun _ => hag, fun _ => rfl⟩⟩
  | succ fuel ih =>
    intro j hj hag hfuel
    by_cases hjm : j < P.length
    · have hjm1 : (j : Int) < (P.length : Int) := by omega
      have e1 : to_int ((i : Int) + (j : Int)) = ((i + j : Nat) : Int) := by
        unfold to_int
        omega
      have e2 : to_int ((j : Int) + 1) = ((j + 1 : Nat) : Int) := by
        unfold to_int
        omega
      have hr1 : cstr_read T (i + j) = Run.ret (T.getD (i + j) 0) :=
        cstr_read_ok (by omega)
      have hr2 : cstr_read P j = Run.ret (P.getD j 0) := cstr_read_ok (by omega)
      by_cases hne : T.getD (i + j) 0 ≠ P.getD j 0
      · refine ⟨j, by simp only [naive_inner, if_pos hjm1, e1, cstr_read_at_cast, hr1, hr2,
          Run.ret_bind, if_pos hne], ?_⟩
        constructor
        · intro e
          omega
        · intro hall
          exact absurd (hall j hjm).symm hne
      · have heq : P.getD j 0 = T.getD (i + j) 0 := by
          by_contra hc
          exact hne (fun e => hc e.symm)
        obtain ⟨r, hr, hiff⟩ := ih (j + 1) (by omega) (agree_succ hag heq) (by omega)
        exact ⟨r, by simp only [naive_inner, if_pos hjm1, e1, e2, cstr_read_at_cast, hr1,
          hr2, Run.ret_bind, if_neg hne, hr], hiff⟩
    · have e : j = P.length := by omega
      subst e
      exact ⟨P.length, by simp only [naive_inner, if_neg (lt_irrefl _)],
        ⟨fun _ => hag, fun _ => rfl⟩⟩

/-- Run of the outer loop of `naive_search`, on a non-empty pattern and a text shorter
than `2^31` bytes, from an offset below which the pattern does not occur: it returns the
leftmost occurrence, or `-1` when there is none. -/
theorem naive_outer_spec {P T : List Nat} (fuel : Nat) (hfuel : P.length ≤ fuel)
    (hP : 0 < P.length) (hPm : P.length < 2147483648) (hT : T.length < 2147483648) :
    ∀ (k i : Nat), (∀ o, o < i → ¬ occurs_at P T o) → T.length + 1 ≤ k + i →
      (∃ o : Nat, naive_outer T P (T.length : Int) (P.length : Int) fuel k (i : Int)
            = Run.ret (o : Int)
          ∧ first_occurrence P T o)
      ∨ (naive_outer T P (T.length : Int) (P.length : Int) fuel k (i : Int) = Run.ret (-1)
          ∧ ∀ o, ¬ occurs_at P T o) := by
  have hb : to_int ((T.length : Int) - (P.length : Int))
      = (T.length : Int) - (P.length : Int) := by
    unfold to_int
    omega
  have hnone : ∀ i : Nat, (∀ o, o < i → ¬ occurs_at P T o) →
      ¬ ((i : Int) ≤ (T.length : Int) - (P.length : Int)) → ∀ o, ¬ occurs_at P T o := by
    intro i hno hc o hocc
    have := hocc.1
    exact hno o (by omega) hocc
  intro k
  induction k with
  | zero =>
    intro i hno hk
    have hc : ¬ ((i : Int) ≤ (T.length : Int) - (P.length : Int)) := by omega
    right
    exact ⟨by simp only [naive_outer, hb, if_neg hc], hnone i hno hc⟩
  | succ k ih =>
    intro i hno hk
    by_cases hc : (i : Int) ≤ (T.length : Int) - (P.length : Int)
    · have hfit : i + P.length ≤ T.length := by omega
      have e1 : to_int ((i : Int) + 1) = ((i + 1 : Nat) : Int) := by
        unfold to_int
        omega
      obtain ⟨r, hr, hiff⟩ :=
        naive_inner_spec hfit hT fuel 0 (Nat.zero_le _) (agree_zero _ _ _) (by omega)
      rw [Nat.cast_zero] at hr
      by_cases hrm : r = P.length
      · left
        have hrm1 : (r : Int) = (P.length : Int) := by omega
        refine ⟨i, by simp only [naive_outer, hb, if_pos hc, hr, Run.ret_bind,
          if_pos hrm1], occurs_at_iff.2 ⟨hfit, hiff.1 hrm⟩, hno⟩
      · have hrm1 : ¬ (r : Int) = (P.length : Int) := by omega
        have hnoi : ¬ occurs_at P T i := fun hocc =>
          hrm (hiff.2 (occurs_at_iff.1 hocc).2)
        have hno1 : ∀ o, o < i + 1 → ¬ occurs_at P T o := by
          intro o ho
          by_cases e : o = i
          · rw [e]
            exact hnoi
          · exact hno o (by omega)
        have hstep : naive_outer T P (T.length : Int) (P.length : Int) fuel (k + 1)
              (i : Int)
            = naive_outer T P (T.length : Int) (P.length : Int) fuel k
                ((i + 1 : Nat) : Int) := by
          simp only [naive_outer, hb, if_pos hc, hr, Run.ret_bind, if_neg hrm1, e1]
        rw [hstep]
        exact ih (i + 1) hno1 (by omega)
    · right
      exact ⟨by simp only [naive_outer, hb, if_neg hc], hnone i hno hc⟩

/-- Once `j` has reached `m` the inner loop of `naive_search` returns it. -/
theorem naive_inner_done (T P : List Nat) (m i : Int) (fuel : Nat) :
    naive_inner T P m i fuel m = Run.ret m := by
  cases fuel <;> simp only [naive_inner, lt_irrefl, if_false]

/-- C22 (counterexample): on the ASCII text made of `2^31` bytes `'A'` and
the pattern `"A"`, `kmp_search` returns `-1`, its bound `int n` being `-2^31`, while
`naive_search` returns `0`: there `n - m` wraps to `2^31 - 1`, the outer loop is
entered and finds the pattern at offset `0`. -/
theorem kmp_search_differs_from_naive_on_long_text :
    kmp_create 0 (some [65])
        = Run.ret (some { pattern := [65], pattern_len := 1, lps := [0],
                          is_compiled := true, memory_usage := 46 })
    ∧ (∀ b ∈ ([65] : List Nat), b ≤ 127)
    ∧ (∀ b ∈ List.replicate 2147483648 65, b ≤ 127)
    ∧ (∀ fuel, kmp_search fuel
          (some { pattern := [65], pattern_len := 1, lps := [0],
                  is_compiled := true, memory_usage := 46 })
          (some (List.replicate 2147483648 65)) = Run.ret (-1))
    ∧ (∀ fn, 0 < fn → naive_search fn (List.replicate 2147483648 65) [65] = Run.ret 0)
    := by
  have hM : kmp_create 0 (some [65])
      = Run.ret (some { pattern := [65], pattern_len := 1, lps := [0],
                        is_compiled := true, memory_usage := 46 }) := by decide
  have hascii : ∀ b ∈ List.replicate 2147483648 65, b ≤ 127 :=
    replicate_ascii 2147483648
  have hn : strlen_int (List.replicate 2147483648 65) = -2147483648 := by
    unfold strlen_int
    rw [List.length_replicate]
    decide
  refine ⟨hM, by decide, hascii, ?_, ?_⟩
  · intro fuel
    have hn0 : (strlen_int (List.replicate 2147483648 65)).toNat = 0 := by
      rw [hn]
      rfl
    rw [kmp_search_run hM _ fuel ((is_ascii_loop_iff _).2 hascii), hn0,
      kmp_search_loop_empty]
  · intro fn hfn
    obtain ⟨k, hk⟩ : ∃ k, fn = k + 1 := ⟨fn - 1, by omega⟩
    have hm : strlen_int [65] = 1 := by decide
    have hb : (0 : Int) ≤ to_int (-2147483648 - 1) := by decide
    have h01 : (0 : Int) < 1 := by decide
    have e0 : to_int ((0 : Int) + 0) = ((0 : Nat) : Int) := by decide
    have e1 : to_int ((0 : Int) + 1) = 1 := by decide
    have hg : (List.replicate 2147483648 65).getD 0 0 = 65 := by
      rw [List.getD_eq_getElem?_getD, List.getElem?_replicate, if_pos (by norm_num)]
      rfl
    have hr1 : cstr_read (List.replicate 2147483648 65) 0 = Run.ret 65 := by
      rw [cstr_read_ok (Nat.zero_le _), hg]
    have hr2 : cstr_read_at [65] 0 = Run.ret 65 := by decide
    have hne : ¬ ((65 : Nat) ≠ 65) := by decide
    rw [hk]
    simp only [naive_search, hn, hm, naive_outer, if_pos hb, naive_inner, if_pos h01, e0,
      cstr_read_at_cast, hr1, hr2, Run.ret_bind, if_neg hne, e1, naive_inner_done, if_true]

/-- C22 (amended): KMP search agrees with the naive reference on inputs that fit the
types of the code. For every non-empty ASCII pattern `P` of at most `2^31 - 2` bytes and
every ASCII text `T` shorter than `2^31` bytes (with fuel for the runs: `2 (m - 1)` for
the table, `2 n` for the scan, `n + 1` and `m` for the loops of `naive_search`),
`kmp_create(P)` yields a matcher and `kmp_search` on it returns the same value as
`naive_search(T, P)`: the leftmost occurrence, or `-1` when there is none, in
particular when `P` is longer than `T`. -/
theorem kmp_search_agrees_with_naive (P T : List Nat) (fc fuel fn : Nat) (hP : P ≠ [])
    (hPa : ∀ b ∈ P, b ≤ 127) (hTa : ∀ b ∈ T, b ≤ 127)
    (hPmax : P.length ≤ 2147483646) (hTmax : T.length < 2147483648)
    (hfc : 2 * (P.length - 1) ≤ fc) (hfuel : 2 * T.length ≤ fuel)
    (hfn : T.length + 1 ≤ fn ∧ P.length ≤ fn) :
    ∃ M r, kmp_create fc (some P) = Run.ret (some M)
      ∧ kmp_search fuel (some M) (some T) = Run.ret r
      ∧ naive_search fn T P = Run.ret r
      ∧ (r = -1 ↔ ∀ o, ¬ occurs_at P T o)
      ∧ (T.length < P.length → r = -1) := by
  have hpos := length_pos_of_ne_nil hP
  obtain ⟨L, _, hM⟩ := kmp_create_ok fc P hpos hPmax
    ((is_ascii_loop_iff P).2 hPa) hfc
  have hnaive := naive_outer_spec (P := P) (T := T) fn hfn.2 hpos (by omega) hTmax fn 0
    (fun o ho => absurd ho (Nat.not_lt_zero o)) (by omega)
  rw [Nat.cast_zero] at hnaive
  have hrun : naive_search fn T P
      = naive_outer T P (T.length : Int) (P.length : Int) fn fn 0 := by
    simp only [naive_search, strlen_int_eq hTmax,
      strlen_int_eq (show P.length < 2147483648 by omega)]
  rw [← hrun] at hnaive
  have hshort : T.length < P.length → ∀ o, ¬ occurs_at P T o := by
    intro hlt o hocc
    have := hocc.1
    omega
  rcases kmp_search_spec hM T fuel hfuel ((is_ascii_loop_iff T).2 hTa) hTmax with
    ⟨o, hr, hfirst⟩ | ⟨hr, hnone⟩
  · refine ⟨_, (o : Int), hM, hr, ?_, ?_, ?_⟩
    · rcases hnaive with ⟨o1, hn, hfirst1⟩ | ⟨_, hnone1⟩
      · have h1 : ¬ o1 < o := fun hlt => hfirst.2 o1 hlt hfirst1.1
        have h2 : ¬ o < o1 := fun hlt => hfirst1.2 o hlt hfirst.1
        have e : o1 = o := by omega
        rw [e] at hn
        exact hn
      · exact absurd hfirst.1 (hnone1 o)
    · constructor
      · intro e
        omega
      · intro hnone
        exact absurd hfirst.1 (hnone o)
    · intro hlt
      exact absurd hfirst.1 (hshort hlt o)
  · refine ⟨_, -1, hM, hr, ?_, ⟨fun _ => hnone, fun _ => rfl⟩, fun _ => rfl⟩
    rcases hnaive with ⟨o1, _, hfirst1⟩ | ⟨hn, _⟩
    · exact absurd hfirst1.1 (hnone o1)
    · exact hn

theorem kmp_search_agrees_with_naive_witness :
    ([65, 66, 67] : List Nat) ≠ []
    ∧ (∀ b ∈ ([65, 66, 67] : List Nat), b ≤ 127)
    ∧ (∀ b ∈ ([88, 89, 90, 65, 66, 67] : List Nat), b ≤ 127)
    ∧ ([65, 66, 67] : List Nat).length ≤ 2147483646
    ∧ ([88, 89, 90, 65, 66, 67] : List Nat).length < 2147483648
    ∧ 2 * (([65, 66, 67] : List Nat).length - 1) ≤ 4
    ∧ 2 * ([88, 89, 90, 65, 66, 67] : List Nat).length ≤ 12
    ∧ (([88, 89, 90, 65, 66, 67] : List Nat).length + 1 ≤ 7
        ∧ ([65, 66, 67] : List Nat).length ≤ 7)
    ∧ ∃ M r, kmp_create 4 (some [65, 66, 67]) = Run.ret (some M)
        ∧ kmp_search 12 (some M) (some [88, 89, 90, 65, 66, 67]) = Run.ret r
        ∧ naive_search 7 [88, 89, 90, 65, 66, 67] [65, 66, 67] = Run.ret r
        ∧ (r = -1 ↔ ∀ o, ¬ occurs_at [65, 66, 67] [88, 89, 90, 65, 66, 67] o)
        ∧ (([88, 89, 90, 65, 66, 67] : List Nat).length < ([65, 66, 67] : List Nat).length →
            r = -1) :=
  ⟨by decide, by decide, by decide, by decide, by decide, by decide, by decide, by decide,
    kmp_search_agrees_with_naive [65, 66, 67] [88, 89, 90, 65, 66, 67] 4 12 7 (by decide)
      (by decide) (by decide) (by decide) (by decide) (by decide) (by decide)
      (by decide)⟩

/-! ## Index safety of the scanners -/

/-- Below the length of the string the two kinds of read agree. -/
theorem arr_read_eq_cstr_read {a : List Nat} {i : Nat} (h : i < a.length) :
    arr_read a (i : Int) = cstr_read a i := by
  rw [arr_read_nat h, cstr_read_ok (by omega)]

/-- With `j` inside the pattern and `i` below a bound `n` within the text, the checked
body of `kmp_search` does what the body does: every read of `pattern` and `text` hits
the array proper. -/
theorem kmp_search_body_checked_eq {P T L : List Nat} {n i j : Nat}
    (hn : n ≤ T.length) (hjm : j < P.length) (hi : i < n) :
    kmp_search_body_checked P L P.length T n i j
      = kmp_search_body P L P.length T n i j := by
  have ha1 : arr_read P (j : Int) = Run.ret (P.getD j 0) := arr_read_nat hjm
  have ha2 : arr_read T (i : Int) = Run.ret (T.getD i 0) := arr_read_nat (by omega)
  have hr1 : cstr_read P j = Run.ret (P.getD j 0) := cstr_read_ok (by omega)
  have hr2 : cstr_read T i = Run.ret (T.getD i 0) := cstr_read_ok (by omega)
  by_cases heq : P.getD j 0 = T.getD i 0
  · by_cases hm : j + 1 = P.length
    · simp only [kmp_search_body_checked, kmp_search_body, ha1, ha2, hr1, hr2,
        Run.ret_bind, if_pos heq, if_pos hm]
    · by_cases hi1 : i + 1 < n
      · have ha3 : arr_read P ((j + 1 : Nat) : Int) = cstr_read P (j + 1) :=
          arr_read_eq_cstr_read (by omega)
        have ha4 : arr_read T ((i + 1 : Nat) : Int) = cstr_read T (i + 1) :=
          arr_read_eq_cstr_read (by omega)
        simp only [kmp_search_body_checked, kmp_search_body, ha1, ha2, hr1, hr2,
          Run.ret_bind, if_pos heq, if_neg hm, if_pos hi1, ha3, ha4]
      · simp only [kmp_search_body_checked, kmp_search_body, ha1, ha2, hr1, hr2,
          Run.ret_bind, if_pos heq, if_neg hm, if_neg hi1]
  · have hjm1 : ¬ j = P.length := by omega
    simp only [kmp_search_body_checked, kmp_search_body, ha1, ha2, hr1, hr2,
      Run.ret_bind, if_neg heq, if_neg hjm1, if_pos hi]

/-- With `j` inside the pattern and `i` below a bound `n` within the text, the checked
body of `kmp_search_all` does what the body does. -/
theorem kmp_search_all_body_checked_eq {P T L : List Nat} {n : Nat} {s : ScanAllState}
    (hn : n ≤ T.length) (hjm : s.j < P.length) (hi : s.i < n) :
    kmp_search_all_body_checked P L P.length T n s
      = kmp_search_all_body P L P.length T n s := by
  obtain ⟨i, j, positions, capacity⟩ := s
  simp only at hjm hi
  have ha1 : arr_read P (j : Int) = Run.ret (P.getD j 0) := arr_read_nat hjm
  have ha2 : arr_read T (i : Int) = Run.ret (T.getD i 0) := arr_read_nat (by omega)
  have hr1 : cstr_read P j = Run.ret (P.getD j 0) := cstr_read_ok (by omega)
  have hr2 : cstr_read T i = Run.ret (T.getD i 0) := cstr_read_ok (by omega)
  by_cases heq : P.getD j 0 = T.getD i 0
  · by_cases hm : j + 1 = P.length
    · simp only [kmp_search_all_body_checked, kmp_search_all_body, ha1, ha2, hr1, hr2,
        Run.ret_bind, if_pos heq, if_pos hm]
    · by_cases hi1 : i + 1 < n
      · have ha3 : arr_read P ((j + 1 : Nat) : Int) = cstr_read P (j + 1) :=
          arr_read_eq_cstr_read (by omega)
        have ha4 : arr_read T ((i + 1 : Nat) : Int) = cstr_read T (i + 1) :=
          arr_read_eq_cstr_read (by omega)
        simp only [kmp_search_all_body_checked, kmp_search_all_body, ha1, ha2, hr1, hr2,
          Run.ret_bind, if_pos heq, if_neg hm, if_pos hi1, ha3, ha4]
      · simp only [kmp_search_all_body_checked, kmp_search_all_body, ha1, ha2, hr1, hr2,
          Run.ret_bind, if_pos heq, if_neg hm, if_neg hi1]
  · have hjm1 : ¬ j = P.length := by omega
    simp only [kmp_search_all_body_checked, kmp_search_all_body, ha1, ha2, hr1, hr2,
      Run.ret_bind, if_neg heq, if_neg hjm1, if_pos hi]

/-- From a state satisfying the invariant on the first `n` bytes of the text, the
checked loop of `kmp_search` run with the bound `n` runs as the loop does. -/
theorem kmp_search_loop_checked_eq {P T L : List Nat} (hL : IsLps P L) {n : Nat}
    (hn : n ≤ T.length) :
    ∀ (fuel i j : Nat), ScanInv P (T.take n) i j →
      kmp_search_loop_checked P L P.length T n fuel i j
        = kmp_search_loop P L P.length T n fuel i j := by
  have hlt : (T.take n).length = n := List.length_take_of_le hn
  intro fuel
  induction fuel with
  | zero =>
    intro i j _
    simp only [kmp_search_loop_checked, kmp_search_loop]
  | succ fuel ih =>
    intro i j h
    rw [kmp_search_loop_unfold]
    by_cases hi : i < n
    · simp only [kmp_search_loop_checked, if_pos hi,
        kmp_search_body_checked_eq (L := L) hn h.hjm hi]
      have hstep := kmp_search_body_step hL h (by rw [hlt]; exact hi)
      rw [hlt, kmp_search_body_take P L P.length j hn hi] at hstep
      rcases hstep with ⟨i1, j1, hbody, hscan, _⟩ | ⟨r, hbody⟩
      · simp only [hbody, Run.ret_bind, ih i1 j1 hscan]
      · simp only [hbody, Run.ret_bind]
    · simp only [kmp_search_loop_checked, if_neg hi]

/-- From a state satisfying the invariant on the first `n` bytes of the text, the
checked loop of `kmp_search_all` run with the bound `n` runs as the loop does. -/
theorem kmp_search_all_loop_checked_eq {P T L : List Nat} (hL : IsLps P L) {n : Nat}
    (hn : n ≤ T.length) :
    ∀ (fuel : Nat) (s : ScanAllState), ScanInv P (T.take n) s.i s.j →
      CapInv s.positions s.capacity →
      kmp_search_all_loop_checked P L P.length T n fuel s
        = kmp_search_all_loop P L P.length T n fuel s.i s.j s.positions s.capacity := by
  have hlt : (T.take n).length = n := List.length_take_of_le hn
  intro fuel
  induction fuel with
  | zero =>
    intro s _ _
    simp only [kmp_search_all_loop_checked, kmp_search_all_loop]
  | succ fuel ih =>
    intro s h hcap
    rw [kmp_search_all_loop_unfold]
    by_cases hi : s.i < n
    · have hstep := kmp_search_all_body_step hL h (by rw [hlt]; exact hi) hcap
      rw [hlt, kmp_search_all_body_take P L P.length s hn hi] at hstep
      rcases hstep with hbody | ⟨s1, hbody, hscan, _, _, _, hcap1⟩
      · simp only [kmp_search_all_loop_checked, if_pos hi,
          kmp_search_all_body_checked_eq (L := L) hn h.hjm hi, hbody, Run.ret_bind]
      · simp only [kmp_search_all_loop_checked, if_pos hi,
          kmp_search_all_body_checked_eq (L := L) hn h.hjm hi, hbody, Run.ret_bind,
          ih s1 hscan hcap1]
    · simp only [kmp_search_all_loop_checked, if_neg hi]

/-- C24: index safety of the scanners. For a matcher built by `kmp_create` (pattern
length `m`), every text of length `n` (ASCII or not) and every fuel: `kmp_search` and
`kmp_search_all` never end in an out-of-bounds access, and they run exactly as their
variants in which `pattern[j]` is readable only for `0 ≤ j < m`, `text[i]` only for
`0 ≤ i < n` and `lps[j-1]` only for `1 ≤ j ≤ m`; so no read leaves these ranges. -/
theorem scanners_index_safe (fc fuel : Nat) (P T : List Nat) (M : KMPMatcher) (c0 : Int)
    (hM : kmp_create fc (some P) = Run.ret (some M)) :
    (M.pattern.length = M.pattern_len ∧ M.lps.length = M.pattern_len)
    ∧ kmp_search_checked fuel (some M) (some T) = kmp_search fuel (some M) (some T)
    ∧ kmp_search fuel (some M) (some T) ≠ Run.oob
    ∧ kmp_search_all_checked fuel (some M) (some T) (some c0)
        = kmp_search_all fuel (some M) (some T) (some c0)
    ∧ kmp_search_all fuel (some M) (some T) (some c0) ≠ Run.oob := by
  obtain ⟨hP, _, hpat, hlen, hcomp, hL⟩ := kmp_create_built hM
  refine ⟨⟨by rw [hpat, hlen], by rw [hL.1, hlen]⟩, ?_⟩
  have hn := strlen_int_toNat_le T
  have hlt : (T.take (strlen_int T).toNat).length = (strlen_int T).toNat :=
    List.length_take_of_le hn
  by_cases ha : is_ascii_loop T = true
  · have hs : kmp_search_checked fuel (some M) (some T)
        = kmp_search fuel (some M) (some T) := by
      rw [kmp_search_run hM T fuel ha]
      simp only [kmp_search_checked, hcomp, is_ascii_string, ha, hpat, hlen]
      exact kmp_search_loop_checked_eq hL hn fuel 0 0 (ScanInv.at_start hP)
    have hsa : kmp_search_all_checked fuel (some M) (some T) (some c0)
        = kmp_search_all fuel (some M) (some T) (some c0) := by
      rw [kmp_search_all_run hM T c0 fuel ha]
      simp only [kmp_search_all_checked, hcomp, is_ascii_string, ha, hpat, hlen,
        alloc_ok_initial, Bool.not_true, Bool.false_eq_true, if_false]
      rw [kmp_search_all_loop_checked_eq hL hn fuel
        { i := 0, j := 0, positions := [], capacity := 10 }
        (ScanInv.at_start hP) CapInv.initial]
    refine ⟨hs, ?_, hsa, ?_⟩
    · rw [kmp_search_run hM T fuel ha]
      have hspec := search_loop_spec (T := T.take (strlen_int T).toNat) hL fuel 0 0
        (ScanInv.at_start hP) (fun o ho => absurd ho (Nat.not_lt_zero o))
      rw [hlt, kmp_search_loop_take P M.lps P.length hn] at hspec
      rcases hspec with ⟨ht, _⟩ | ⟨o, hr, _⟩ | ⟨hr, _⟩
      · rw [ht]
        simp
      · rw [hr]
        simp
      · rw [hr]
        simp
    · rw [kmp_search_all_run hM T c0 fuel ha]
      have hacc0 : AccInv P (T.take (strlen_int T).toNat) (0 - 0) [] := AccInv.empty P _
      have hspec := search_all_loop_spec (T := T.take (strlen_int T).toNat) hL fuel 0 0
        [] 10 (ScanInv.at_start hP) hacc0 CapInv.initial
      rw [hlt, kmp_search_all_loop_take P M.lps P.length hn] at hspec
      rcases hspec with ⟨ht, _⟩ | ⟨R, hR, _⟩ | ⟨hR, _⟩
      · rw [ht]
        simp
      · rw [hR, Run.ret_bind]
        simp only
        split <;> simp
      · rw [hR, Run.ret_bind]
        simp
  · have ha1 : is_ascii_string (some T) = false := by simpa [is_ascii_string] using ha
    have hf : is_ascii_loop T = false := by simpa using ha
    rw [kmp_search_reject fuel (some M) (some T) ha1,
      kmp_search_all_reject fuel (some M) (some T) c0 ha1]
    refine ⟨?_, by simp, ?_, by simp⟩
    · simp only [kmp_search_checked, hcomp, is_ascii_string, hf]
      rfl
    · simp only [kmp_search_all_checked, hcomp, is_ascii_string, hf]
      rfl

theorem scanners_index_safe_witness :
    kmp_create 2 (some [65, 65])
        = Run.ret (some { pattern := [65, 65], pattern_len := 2, lps := [0, 1],
                          is_compiled := true, memory_usage := 51 })
    ∧ ((({ pattern := [65, 65], pattern_len := 2, lps := [0, 1], is_compiled := true,
            memory_usage := 51 } : KMPMatcher).pattern.length
          = ({ pattern := [65, 65], pattern_len := 2, lps := [0, 1], is_compiled := true,
               memory_usage := 51 } : KMPMatcher).pattern_len
        ∧ ({ pattern := [65, 65], pattern_len := 2, lps := [0, 1], is_compiled := true,
             memory_usage := 51 } : KMPMatcher).lps.length
          = ({ pattern := [65, 65], pattern_len := 2, lps := [0, 1], is_compiled := true,
               memory_usage := 51 } : KMPMatcher).pattern_len)
      ∧ kmp_search_checked 6
          (some { pattern := [65, 65], pattern_len := 2, lps := [0, 1],
                  is_compiled := true, memory_usage := 51 })
          (some [66, 65, 65])
        = kmp_search 6
          (some { pattern := [65, 65], pattern_len := 2, lps := [0, 1],
                  is_compiled := true, memory_usage := 51 })
          (some [66, 65, 65])
      ∧ kmp_search 6
          (some { pattern := [65, 65], pattern_len := 2, lps := [0, 1],
                  is_compiled := true, memory_usage := 51 })
          (some [66, 65, 65]) ≠ Run.oob
      ∧ kmp_search_all_checked 6
          (some { pattern := [65, 65], pattern_len := 2, lps := [0, 1],
                  is_compiled := true, memory_usage := 51 })
          (some [66, 65, 65]) (some 0)
        = kmp_search_all 6
          (some { pattern := [65, 65], pattern_len := 2, lps := [0, 1],
                  is_compiled := true, memory_usage := 51 })
          (some [66, 65, 65]) (some 0)
      ∧ kmp_search_all 6
          (some { pattern := [65, 65], pattern_len := 2, lps := [0, 1],
                  is_compiled := true, memory_usage := 51 })
          (some [66, 65, 65]) (some 0) ≠ Run.oob) :=
  ⟨by decide,
    scanners_index_safe 2 6 [65, 65] [66, 65, 65]
      { pattern := [65, 65], pattern_len := 2, lps := [0, 1], is_compiled := true,
        memory_usage := 51 } 0 (by decide)⟩

end KMP
